import Mathlib

/-!
# Verification of the Terrain procedural world generator

This file gives a shallow embedding, in Lean 4, of the generation pipeline of
the Terrain repository (a TypeScript procedural fantasy-map generator), and
proves or refutes the behavioural claims made about it.

Modelling conventions, used throughout:

* JavaScript numbers are modelled as exact rationals (`ℚ`).  All arithmetic the
  source performs on numbers (`+`, `-`, `*`, `/`, comparisons, `Math.floor`,
  `Math.abs`, `Math.min`, `Math.max`, `Math.round`) is exact on rationals; the
  model therefore agrees with the double-precision source except for floating
  point rounding, which no claim under consideration depends on.
* The transcendental functions of `Math` (`sqrt`, `cos`, `sin`, `log`,
  `pow` with fractional exponent) and the constant `Math.PI` have no exact
  rational counterpart.  They are abstracted into a `MathModel` record that is
  passed to every definition that needs them, and theorems quantify over the
  model (adding the properties of the real functions as hypotheses where a
  proof needs them).  `Math.SQRT2` is the concrete double constant and is kept
  as the exact rational value of that double.
* Typed arrays (`Float32Array`, `Uint8Array`, `Int8Array`, `Uint16Array`) are
  modelled as Lean `Array`s of `ℚ`, `ℕ` or `ℤ`.  Out-of-bounds reads (which the
  source never performs on purpose) yield the array's zero default;
  out-of-bounds writes are dropped, exactly as JavaScript typed arrays drop
  them.
* JavaScript `while` loops are written as fuel-consuming structural
  recursions.  Each loop comes with a termination measure and a lemma showing
  that the supplied fuel always suffices, so the fueled function computes the
  same result as the source's unbounded loop.
* The 32-bit integer mixing of the mulberry32 PRNG is modelled on `ℕ` with
  explicit reduction mod `2 ^ 32`; JavaScript's signed/unsigned views share
  bit patterns with this representation, and every consumer of an intermediate
  value applies a coercion (`ToInt32`/`ToUint32`) first, so tracking the
  pattern is faithful.
-/

set_option maxHeartbeats 1000000
set_option maxRecDepth 16000

namespace Terrain

/-! ## JavaScript number primitives -/

/-- `Math.floor` on an exact rational, in the kernel-computable form
`q.num / q.den` (equal to `⌊q⌋` by `Rat.floor_def`). -/

def jsFloor (q : ℚ) : ℤ := q.num / (q.den : ℤ)

/-- `Math.round`: round half toward positive infinity, as JavaScript does. -/

def jsRound (q : ℚ) : ℤ := jsFloor (q + 1/2)

/-- Reduce a nonnegative integer-valued number to its unsigned 32-bit pattern
(JavaScript's `ToUint32` on a nonnegative integer). -/

def u32 (n : ℕ) : ℕ := n % 4294967296

/-- JavaScript's `ToInt32` of an integer: the signed value of its low 32 bits. -/

def toInt32 (z : ℤ) : ℤ := (z + 2147483648) % 4294967296 - 2147483648

/-- `Math.imul` on 32-bit patterns: the low 32 bits of the product. -/

def imul32 (a b : ℕ) : ℕ := a * b % 4294967296

/-- The exact rational value of the IEEE-754 double `Math.SQRT2`. -/

def SQRT2 : ℚ := 6369051672525773 / 4503599627370496

/-! ## Abstract transcendental functions (`Math.*`) -/

/-- The transcendental parts of JavaScript's `Math` object, abstracted: any
fixed choice of these functions gives one deterministic interpretation of the
source.  Theorems quantify over the model. -/

structure MathModel where
  sqrt : ℚ → ℚ
  cos : ℚ → ℚ
  sin : ℚ → ℚ
  log : ℚ → ℚ
  pow : ℚ → ℚ → ℚ
  pi : ℚ

/-- The properties of real square root that proofs about spacing checks need:
the modelled `Math.sqrt` is nonnegative and does not overestimate (its square
is at most its argument).  The real square root satisfies both exactly. -/

def SqrtLB (f : ℚ → ℚ) : Prop :=
  ∀ q : ℚ, 0 ≤ q → 0 ≤ f q ∧ f q * f q ≤ q

/-! ## Typed-array helpers -/

/-- Read from a `Float32Array` model (default 0 outside bounds). -/

def qget (a : Array ℚ) (i : ℕ) : ℚ := a.getD i 0

/-- Read from a `Uint8Array`/`Uint16Array` model. -/

def nget (a : Array ℕ) (i : ℕ) : ℕ := a.getD i 0

/-- Read from an `Int8Array` model. -/

def zget (a : Array ℤ) (i : ℕ) : ℤ := a.getD i 0

/-- Write a typed-array cell; out-of-bounds writes are dropped, as in
JavaScript. -/

def aset {α : Type} (a : Array α) (i : ℕ) (v : α) : Array α := a.setD i v

/-! ## Deterministic PRNG (`prng.ts`) -/

/-- PRNG state: the JavaScript `state` field.  The field holds an integer-valued
number; integer arithmetic on it is exact in doubles for every run length
considered here. -/

structure PRNG where
  state : ℕ
deriving Repr, DecidableEq

namespace PRNG

/-- One step of `hashString`'s rolling hash:
`hash = ((hash << 5) - hash) + char; hash = hash & hash` (the `&` forces the
value back to a signed 32-bit integer). -/
def hashStep (hash : ℤ) (c : ℕ) : ℤ :=
  toInt32 (toInt32 (hash * 32) - hash + c)

/-- `hashString`, folded over the UTF-16 units of the seed string (all seeds
considered here use basic-plane characters, where a UTF-16 unit is the
character's code point). -/
def hashString (s : String) : ℤ :=
  s.data.foldl (fun h ch => hashStep h ch.toNat) 0

/-- Constructing a PRNG from a string seed: `Math.abs(hash) || 1`, and the
constructor replaces a zero state by 1. -/
def ofString (s : String) : PRNG :=
  let h := (hashString s).natAbs
  ⟨if h = 0 then 1 else h⟩

/-- Constructing a PRNG from a nonnegative numeric seed. -/
def ofNat (n : ℕ) : PRNG := ⟨if n = 0 then 1 else n⟩

/-- `next()`: the mulberry32 mixing recurrence.  The state advances by the odd
constant `0x6D2B79F5` (as an exact double addition); all bitwise operations
are performed on the low-32-bit pattern, which is what JavaScript's
`ToInt32`/`ToUint32` coercions expose to each operator. -/
def next (p : PRNG) : ℚ × PRNG :=
  let s := p.state + 1831565813
  let t0 := u32 s
  let t1 := imul32 (t0 ^^^ (t0 >>> 15)) (t0 ||| 1)
  let t2 := t1 ^^^ ((t1 + imul32 (t1 ^^^ (t1 >>> 7)) (t1 ||| 61)) % 4294967296)
  let out := t2 ^^^ (t2 >>> 14)
  ((out : ℚ) / 4294967296, ⟨s⟩)

/-- `range(min, max)`: uniform in `[min, max)`. -/
def range (p : PRNG) (lo hi : ℚ) : ℚ × PRNG :=
  let (u, p') := p.next
  (lo + u * (hi - lo), p')

/-- `int(min, max)`: `Math.floor(range(min, max + 1))`. -/
def int (p : PRNG) (lo hi : ℚ) : ℤ × PRNG :=
  let (v, p') := p.range lo (hi + 1)
  (jsFloor v, p')

/-- `chance(probability)`. -/
def chance (p : PRNG) (prob : ℚ) : Bool × PRNG :=
  let (u, p') := p.next
  (decide (u < prob), p')

/-- `pick(array)`. -/
def pick {α : Type} [Inhabited α] (p : PRNG) (xs : List α) : α × PRNG :=
  let (u, p') := p.next
  (xs.getD (jsFloor (u * xs.length)).toNat default, p')

/-- `fork()`: seed a fresh generator from one draw.  Returns the fresh
generator together with the advanced parent. -/
def fork (p : PRNG) : PRNG × PRNG :=
  let (u, p') := p.next
  (ofNat (jsFloor (u * 2147483647)).toNat, p')

end PRNG

/-! ## Grid geometry -/

/-- 8-way direction vectors (`DX` in `hydrology.ts`). -/

def DX : List ℤ := [0, 1, 1, 1, 0, -1, -1, -1]

/-- 8-way direction vectors (`DY` in `hydrology.ts`). -/

def DY : List ℤ := [-1, -1, 0, 1, 1, 1, 0, -1]

def dxAt (d : ℕ) : ℤ := DX.getD d 0

def dyAt (d : ℕ) : ℤ := DY.getD d 0

/-- Distance of one 8-neighbour step: even direction indices are cardinal
(distance 1), odd ones diagonal (`Math.SQRT2`). -/

def stepLen (d : ℕ) : ℚ := if d % 2 = 0 then 1 else SQRT2

/-- Bounds check `nx >= 0 && nx < width && ny >= 0 && ny < height`. -/

def inGrid (w h : ℕ) (x y : ℤ) : Prop :=
  0 ≤ x ∧ x < (w : ℤ) ∧ 0 ≤ y ∧ y < (h : ℤ)

instance (w h : ℕ) (x y : ℤ) : Decidable (inGrid w h x y) := by
  unfold inGrid; infer_instance

/-! ## Hydrology: flow direction (`calculateFlowDirection`) -/

/-- One cell's steepest-descent direction: fold over the 8 neighbours exactly
as the source loop does.  A direction is adopted only when its slope strictly
exceeds the best so far (initially 0), so a chosen target is strictly lower
than the cell. -/

def steepestDir (hm : Array ℚ) (w h : ℕ) (x y : ℕ) : ℤ :=
  ((List.range 8).foldl (fun (st : ℤ × ℚ) d =>
    if inGrid w h ((x : ℤ) + dxAt d) ((y : ℤ) + dyAt d) then
      if st.2 < (qget hm (y * w + x)
          - qget hm ((((y : ℤ) + dyAt d).toNat) * w + (((x : ℤ) + dxAt d).toNat)))
            / stepLen d then
        ((d : ℤ), (qget hm (y * w + x)
          - qget hm ((((y : ℤ) + dyAt d).toNat) * w + (((x : ℤ) + dxAt d).toNat)))
            / stepLen d)
      else st
    else st) (-1, 0)).1

/-- `calculateFlowDirection`: `-1` everywhere, then the steepest-descent
direction on every land cell. -/

def calculateFlowDirection (hm : Array ℚ) (lm : Array ℕ) (w h : ℕ) : Array ℤ :=
  (List.range h).foldl (fun fd y =>
    (List.range w).foldl (fun fd x =>
      if nget lm (y * w + x) = 0 then fd
      else aset fd (y * w + x) (steepestDir hm w h x y)) fd)
    (Array.mkArray (w * h) (-1))

/-! ## Hydrology: flow accumulation (`calculateFlowAccumulation`) -/

/-- The cell a given cell drains into, including the bounds check that
`calculateFlowAccumulation` performs before following a direction. -/

def flowTarget (fd : Array ℤ) (w h : ℕ) (i : ℕ) : Option ℕ :=
  if 0 ≤ zget fd i then
    if inGrid w h ((i % w : ℕ) + dxAt (zget fd i).toNat)
        ((i / w : ℕ) + dyAt (zget fd i).toNat) then
      some ((((i / w : ℕ) : ℤ) + dyAt (zget fd i).toNat).toNat * w
        + (((i % w : ℕ) : ℤ) + dxAt (zget fd i).toNat).toNat)
    else none
  else none

/-- State of the topological propagation loop: accumulation array, in-degree
array and FIFO work queue.  In-degrees are modelled on `ℤ`; the source's
`Uint16Array` wraps a decrement of 0 to 65535, and both representations make
the loop's only test (`=== 0`) false, so they agree. -/

structure KState where
  acc : Array ℚ
  deg : Array ℤ
  queue : List ℕ

/-- The body of one iteration of the propagation loop, after the front cell
`i` has been popped: follow `i`'s flow direction, add `i`'s accumulation
downstream, decrement the downstream in-degree and enqueue the downstream cell
once its in-degree reaches zero (land cells only). -/

def kstep (fd : Array ℤ) (lm : Array ℕ) (w h : ℕ) (i : ℕ) (st : KState) : KState :=
  match flowTarget fd w h i with
  | none => st
  | some t =>
    let acc' := aset st.acc t (qget st.acc t + qget st.acc i)
    let deg' := aset st.deg t (zget st.deg t - 1)
    let queue' := if zget deg' t = 0 ∧ nget lm t = 1 then st.queue ++ [t] else st.queue
    ⟨acc', deg', queue'⟩

/-- The propagation loop (`while (queue.length > 0)`), with fuel.  The fuel
passed by `calculateFlowAccumulation` is proved sufficient below. -/

def kloop (fd : Array ℤ) (lm : Array ℕ) (w h : ℕ) : ℕ → KState → KState
  | 0, st => st
  | fuel + 1, st =>
    match st.queue with
    | [] => st
    | i :: rest => kloop fd lm w h fuel (kstep fd lm w h i ⟨st.acc, st.deg, rest⟩)

/-- Initial in-degrees: one increment per land cell per followed direction. -/

def kinitDeg (fd : Array ℤ) (lm : Array ℕ) (w h : ℕ) : Array ℤ :=
  (List.range (w * h)).foldl (fun dg i =>
    if nget lm i = 0 then dg
    else match flowTarget fd w h i with
      | some t => aset dg t (zget dg t + 1)
      | none => dg) (Array.mkArray (w * h) 0)

/-- Initial queue: the land cells with no incoming flow, in index order. -/

def kinitQueue (lm : Array ℕ) (deg : Array ℤ) (w h : ℕ) : List ℕ :=
  (List.range (w * h)).filter (fun i => nget lm i = 1 ∧ zget deg i = 0)

/-- `calculateFlowAccumulation`: every cell starts with one unit; propagation
in topological order via the work queue. -/

def calculateFlowAccumulation (fd : Array ℤ) (lm : Array ℕ) (w h : ℕ) : Array ℚ :=
  let deg := kinitDeg fd lm w h
  let q0 := kinitQueue lm deg w h
  (kloop fd lm w h (2 * (w * h) + 1) ⟨Array.mkArray (w * h) 1, deg, q0⟩).acc

/-! ## The flow graph of a height map -/

/-- The land cells whose flow direction points into a given cell: the
predecessors of `c` in the drainage graph. -/

def predSet (fd : Array ℤ) (lm : Array ℕ) (w h : ℕ) (c : ℕ) : Finset ℕ :=
  (Finset.range (w * h)).filter (fun i => nget lm i = 1 ∧ flowTarget fd w h i = some c)

/-- Reference accumulation, defined by structural recursion on a fuel bound:
one unit of rain per cell plus everything draining in.  `accAux (w*h)` is the
fixed point on the acyclic drainage graph (stabilisation is proved below). -/

def accAux (fd : Array ℤ) (lm : Array ℕ) (w h : ℕ) : ℕ → ℕ → ℚ
  | 0, _ => 1
  | f + 1, c => 1 + ∑ i ∈ predSet fd lm w h c, accAux fd lm w h f i

/-- Reference accumulation at the stabilised fuel `w * h`. -/

def specAcc (fd : Array ℤ) (lm : Array ℕ) (w h : ℕ) (c : ℕ) : ℚ :=
  accAux fd lm w h (w * h) c

/-- Height rank of a cell: how many cells of the grid are strictly higher.
Predecessors in the drainage graph have strictly smaller rank. -/

def hrank (hm : Array ℚ) (w h : ℕ) (c : ℕ) : ℕ :=
  ((Finset.range (w * h)).filter (fun j => qget hm c < qget hm j)).card

/-- Downhill hypothesis: every drainage edge strictly decreases height. -/

def DownhillPred (fd : Array ℤ) (lm : Array ℕ) (hm : Array ℚ) (w h : ℕ) : Prop :=
  ∀ c, ∀ i ∈ predSet fd lm w h c, qget hm c < qget hm i

/-- Invariant of the topological propagation loop.  `S` is the set of cells
already popped ("processed").  `dval` keeps the in-degree array equal to the
number of unprocessed predecessors, `aval` keeps each cell's accumulation at
one unit plus the reference accumulation of its processed predecessors, `rdy`
says queued cells have all predecessors processed, and `k4` says a cell that
is neither queued nor processed still waits for some predecessor. -/

structure KInv (fd : Array ℤ) (lm : Array ℕ) (w h : ℕ) (S : Finset ℕ) (st : KState) :
    Prop where
  accsize : st.acc.size = w * h
  degsize : st.deg.size = w * h
  ssub : ∀ i ∈ S, i < w * h ∧ nget lm i = 1
  qsub : ∀ i ∈ st.queue, i < w * h ∧ nget lm i = 1
  qnodup : st.queue.Nodup
  qdisj : ∀ i ∈ st.queue, i ∉ S
  sdone : ∀ c ∈ S, ∀ i ∈ predSet fd lm w h c, i ∈ S
  rdy : ∀ c ∈ st.queue, ∀ i ∈ predSet fd lm w h c, i ∈ S
  dval : ∀ t, zget st.deg t = ((predSet fd lm w h t).filter (fun i => i ∉ S)).card
  k4 : ∀ c, c < w * h → nget lm c = 1 → c ∉ S → c ∉ st.queue →
      ∃ i ∈ predSet fd lm w h c, i ∉ S
  aval : ∀ c, c < w * h →
      qget st.acc c
        = 1 + ∑ i ∈ (predSet fd lm w h c).filter (fun i => i ∈ S), specAcc fd lm w h i

/-- Termination measure of the propagation loop: queue length plus the total
number of unprocessed drainage edges. -/

def kmeasure (fd : Array ℤ) (lm : Array ℕ) (w h : ℕ) (S : Finset ℕ) (st : KState) : ℕ :=
  st.queue.length
    + ∑ t ∈ Finset.range (w * h), ((predSet fd lm w h t).filter (fun i => i ∉ S)).card

/-! ## Hydrology: water distance (`calculateWaterDistance`)

Distances are modelled as `Option ℚ`: `none` is the `Infinity` the source
fills the array with, `some v` a finite distance. -/

/-- Read a distance cell (`Infinity`, i.e. `none`, outside bounds — the source
never reads out of bounds). -/

def oget (a : Array (Option ℚ)) (i : ℕ) : Option ℚ := a.getD i none

/-- `newDist < distance[nidx]`, where the right side may be `Infinity`. -/

def ltD (d : ℚ) : Option ℚ → Prop
  | none => True
  | some v => d < v

instance (d : ℚ) (o : Option ℚ) : Decidable (ltD d o) :=
  match o with
  | none => isTrue trivial
  | some v => inferInstanceAs (Decidable (d < v))

/-- `dist > distance[idx]`, where the right side may be `Infinity`. -/

def gtD (d : ℚ) : Option ℚ → Prop
  | none => False
  | some v => v < d

instance (d : ℚ) (o : Option ℚ) : Decidable (gtD d o) :=
  match o with
  | none => isFalse id
  | some v => inferInstanceAs (Decidable (v < d))

/-- A cell is a BFS source iff it is ocean, river or lake. -/

def isWaterCell (lm rivers lakeMask : Array ℕ) (i : ℕ) : Prop :=
  nget lm i = 0 ∨ 0 < nget rivers i ∨ nget lakeMask i = 1

instance (lm rivers lakeMask : Array ℕ) (i : ℕ) :
    Decidable (isWaterCell lm rivers lakeMask i) := by
  unfold isWaterCell
  infer_instance

/-- State of the multi-source BFS: the distance array and the FIFO queue of
`(x, y, dist)` entries. -/

structure WState where
  dist : Array (Option ℚ)
  queue : List (ℕ × ℕ × ℚ)

/-- The body of the neighbour loop for one direction `dd`: if the neighbour is
in bounds and strictly improved, store the new distance and enqueue it. -/

def wrelaxBody (w h : ℕ) (x y : ℕ) (d : ℚ) (st : WState) (dd : ℕ) : WState :=
  if inGrid w h ((x : ℤ) + dxAt dd) ((y : ℤ) + dyAt dd) then
    if ltD (d + stepLen dd)
        (oget st.dist ((((y : ℤ) + dyAt dd).toNat) * w + (((x : ℤ) + dxAt dd).toNat))) then
      ⟨aset st.dist ((((y : ℤ) + dyAt dd).toNat) * w + (((x : ℤ) + dxAt dd).toNat))
          (some (d + stepLen dd)),
        st.queue ++ [((((x : ℤ) + dxAt dd).toNat), (((y : ℤ) + dyAt dd).toNat), d + stepLen dd)]⟩
    else st
  else st

/-- Relax the 8 neighbours of `(x, y)` from distance `d`: each strictly
improving neighbour gets the new distance stored and an entry enqueued. -/

def wrelax (w h : ℕ) (x y : ℕ) (d : ℚ) (st : WState) : WState :=
  (List.range 8).foldl (wrelaxBody w h x y d) st

/-- One BFS iteration body, after popping entry `e`: skip stale entries, else
relax the neighbours. -/

def wstep (w h : ℕ) (e : ℕ × ℕ × ℚ) (st : WState) : WState :=
  if gtD e.2.2 (oget st.dist (e.2.1 * w + e.1)) then st
  else wrelax w h e.1 e.2.1 e.2.2 st

/-- The BFS loop (`while (queue.length > 0)`), with fuel; the fuel used by
`calculateWaterDistance` is proved sufficient below. -/

def wloop (w h : ℕ) : ℕ → WState → WState
  | 0, st => st
  | fuel + 1, st =>
    match st.queue with
    | [] => st
    | e :: rest => wloop w h fuel (wstep w h e ⟨st.dist, rest⟩)

/-- Initial state: all water cells at distance 0 and queued, in row-major
order. -/

def winit (lm rivers lakeMask : Array ℕ) (w h : ℕ) : WState :=
  (List.range h).foldl (fun st y =>
    (List.range w).foldl (fun st x =>
      if isWaterCell lm rivers lakeMask (y * w + x) then
        ⟨aset st.dist (y * w + x) (some 0), st.queue ++ [(x, y, (0 : ℚ))]⟩
      else st) st)
    ⟨Array.mkArray (w * h) none, []⟩

/-- The observed maximum over the finite distances (0 when there are none). -/

def wmaxDist (dist : Array (Option ℚ)) (w h : ℕ) : ℚ :=
  (List.range (w * h)).foldl (fun m i =>
    match oget dist i with
    | none => m
    | some v => max m v) 0

/-- Fuel for the BFS loop; sufficiency is proved below via a strictly
decreasing measure. -/

def wfuel (w h : ℕ) : ℕ := w * h + w * h * (2 * (w * h) + 1) ^ 2 + 1

/-- `calculateWaterDistance`: multi-source BFS from water cells with diagonal
step `Math.SQRT2`, then normalisation by the observed maximum.  An entry left
at `Infinity` divided by a positive maximum gives `Infinity`, and
`Math.min(1, Infinity)` is 1, hence the `none => some 1` branch. -/

def calculateWaterDistance (lm rivers lakeMask : Array ℕ) (w h : ℕ) : Array (Option ℚ) :=
  (fun fin =>
    (fun md =>
      if 0 < md then
        (List.range (w * h)).foldl (fun a i =>
          aset a i (match oget a i with
            | none => some 1
            | some v => some (min 1 (v / md)))) fin.dist
      else fin.dist)
    (wmaxDist fin.dist w h))
  (wloop w h (wfuel w h) (winit lm rivers lakeMask w h))

/-- Strict comparison on extended distances (`Infinity` compares false). -/

def ltOO : Option ℚ → Option ℚ → Prop
  | some u, some v => u < v
  | _, _ => False

instance (a b : Option ℚ) : Decidable (ltOO a b) :=
  match a, b with
  | some u, some v => inferInstanceAs (Decidable (u < v))
  | some _, none => isFalse id
  | none, _ => isFalse id

/-- Number of in-range cells whose stored distance is strictly below cell
`i`'s.  Stored distances never exceed twice this rank. -/

def wrank (dist : Array (Option ℚ)) (w h i : ℕ) : ℕ :=
  ((Finset.range (w * h)).filter (fun j => j ≠ i ∧ ltOO (oget dist j) (oget dist i))).card

/-- Lattice of step counts that distances can take. -/

def wbox (n : ℕ) : Finset (ℕ × ℕ) := Finset.range (2 * n + 1) ×ˢ Finset.range (2 * n + 1)

/-- Rank of an extended distance in the step-count lattice: the number of
lattice values strictly below it (`Infinity` above them all). -/

def gval (n : ℕ) : Option ℚ → ℕ
  | none => (2 * n + 1) ^ 2
  | some v => ((wbox n).filter (fun p => (p.1 : ℚ) + (p.2 : ℚ) * SQRT2 < v)).card

/-- Termination measure of the BFS: queue length plus the total lattice rank
of the distance array. -/

def wmeasure (w h : ℕ) (st : WState) : ℕ :=
  st.queue.length + ∑ i ∈ Finset.range (w * h), gval (w * h) (oget st.dist i)

/-- Core invariant of the BFS state (everything except the no-improving-edge
property). -/

structure WCore (lm rivers lakeMask : Array ℕ) (w h : ℕ) (st : WState) : Prop where
  dsize : st.dist.size = w * h
  nonneg : ∀ i v, oget st.dist i = some v → 0 ≤ v
  water0 : ∀ i, i < w * h → isWaterCell lm rivers lakeMask i → oget st.dist i = some 0
  land1 : ∀ i v, i < w * h → ¬isWaterCell lm rivers lakeMask i →
      oget st.dist i = some v → 1 ≤ v
  rep : ∀ i v, oget st.dist i = some v → ∃ a b : ℕ, v = (a : ℚ) + (b : ℚ) * SQRT2
  qbound : ∀ e ∈ st.queue, e.1 < w ∧ e.2.1 < h
  qge : ∀ e ∈ st.queue, ∃ v, oget st.dist (e.2.1 * w + e.1) = some v ∧ v ≤ e.2.2
  urank : ∀ i v, i < w * h → oget st.dist i = some v → v ≤ 2 * wrank st.dist w h i

/-- A finite cell either has a live queue entry at (or below) its stored
distance, or all its neighbours already satisfy the relaxed bound. -/

def WFrontier (w h : ℕ) (st : WState) (c : ℕ) (v : ℚ) : Prop :=
  (∃ e ∈ st.queue, e.2.1 * w + e.1 = c ∧ e.2.2 ≤ v) ∨
  (∀ dd, dd < 8 → inGrid w h ((c % w : ℕ) + dxAt dd) ((c / w : ℕ) + dyAt dd) →
    ∃ u, oget st.dist ((((c / w : ℕ) : ℤ) + dyAt dd).toNat * w
        + (((c % w : ℕ) : ℤ) + dxAt dd).toNat) = some u ∧ u ≤ v + stepLen dd)

/-- Full invariant of the BFS loop. -/

structure WInv (lm rivers lakeMask : Array ℕ) (w h : ℕ) (st : WState) : Prop where
  core : WCore lm rivers lakeMask w h st
  rinv : ∀ c v, c < w * h → oget st.dist c = some v → WFrontier w h st c v

/-- Invariant during the neighbour-relaxation fold of one popped entry
`(x, y, d₀)`: the core is maintained, the centre keeps its distance, every
already-processed direction satisfies the relaxed bound, and every other
finite cell keeps the frontier property. -/

structure RInv (lm rivers lakeMask : Array ℕ) (w h : ℕ) (x y : ℕ) (d₀ : ℚ)
    (done : List ℕ) (st : WState) : Prop where
  core : WCore lm rivers lakeMask w h st
  center : oget st.dist (y * w + x) = some d₀
  part : ∀ dd ∈ done, inGrid w h ((x : ℤ) + dxAt dd) ((y : ℤ) + dyAt dd) →
      ∃ u, oget st.dist ((((y : ℤ) + dyAt dd).toNat) * w + (((x : ℤ) + dxAt dd).toNat))
          = some u ∧ u ≤ d₀ + stepLen dd
  others : ∀ c v, c < w * h → c ≠ y * w + x → oget st.dist c = some v → WFrontier w h st c v

/-- One axis-aligned unit step from `c` toward `t` (used only in proofs). -/

def stepToward (c t : ℕ) : ℕ :=
  if c < t then c + 1 else if t < c then c - 1 else c

/-! ## Settings (`types.ts`)

The generation pipeline reads the sub-records below; the `render` and
`performance` sub-records of the source's `Settings` are display-only and are
never read by any generation stage, so they are omitted from the model.
Dimensions are modelled as `ℕ` (typed-array construction requires a
non-negative integral length); every other numeric field is an arbitrary exact
rational. -/

structure MapSettings where
  width : ℕ
  height : ℕ
  seed : String
  seaLevel : ℚ
deriving Repr, DecidableEq

structure ContinentsSettings where
  continentCountMin : ℚ
  continentCountMax : ℚ
  seedSpacing : ℚ
  maskFalloff : ℚ
  coastlineNoiseFreq : ℚ
  coastlineNoiseAmp : ℚ
  archipelagoChance : ℚ
deriving Repr, DecidableEq

structure ElevationSettings where
  baseNoiseFreq : ℚ
  baseNoiseOctaves : ℚ
  baseNoisePersistence : ℚ
  ridgeNoiseFreq : ℚ
  ridgeNoiseOctaves : ℚ
  ridgeStrength : ℚ
  mountainRangeCountMin : ℚ
  mountainRangeCountMax : ℚ
  mountainRangeWidth : ℚ
  mountainRangeHeight : ℚ
  mountainRangeCurviness : ℚ
  erosionThermalIterations : ℚ
deriving Repr, DecidableEq

structure HydrologySettings where
  rainfallBias : ℚ
  riverSourceCount : ℚ
  riverMinAccum : ℚ
  lakeFillEnabled : Bool
  hydraulicErosionDrops : ℚ
  hydraulicErosionEnabled : Bool
deriving Repr, DecidableEq

structure ClimateSettings where
  latitudeTempStrength : ℚ
  elevationTempStrength : ℚ
  windDirectionDegrees : ℚ
  rainShadowStrength : ℚ
  moistureFromWaterStrength : ℚ
deriving Repr, DecidableEq

structure BiomesSettings where
  desertMoistureMax : ℚ
  snowTempMax : ℚ
  mountainElevationMin : ℚ
  beachElevationRange : ℚ
deriving Repr, DecidableEq

structure ForestsSettings where
  enabled : Bool
  densityNoiseFreq : ℚ
  densityThreshold : ℚ
  moistureInfluence : ℚ
  riverProximityBoost : ℚ
deriving Repr, DecidableEq

structure CitiesSettings where
  enabled : Bool
  count : ℚ
  minSpacing : ℚ
  coastPreference : ℚ
  riverPreference : ℚ
  flatPreference : ℚ
deriving Repr, DecidableEq

structure RoadsSettings where
  enabled : Bool
  maxConnectionsPerCity : ℚ
  costElevation : ℚ
  costWater : ℚ
  costForest : ℚ
  costMountain : ℚ
deriving Repr, DecidableEq

structure Settings where
  map : MapSettings
  continents : ContinentsSettings
  elevation : ElevationSettings
  hydrology : HydrologySettings
  climate : ClimateSettings
  biomes : BiomesSettings
  forests : ForestsSettings
  cities : CitiesSettings
  roads : RoadsSettings
deriving Repr, DecidableEq

/-- `DEFAULT_SETTINGS` of `types.ts` (generation-relevant sub-records). -/

def DEFAULT_SETTINGS : Settings :=
  ⟨⟨512, 384, "fantasy-world", 0.4⟩,
   ⟨2, 5, 0.25, 2, 4, 0.15, 0.1⟩,
   ⟨2, 6, 0.5, 3, 4, 0.3, 3, 8, 0.08, 0.4, 0.5, 5⟩,
   ⟨0.5, 50, 100, true, 0, false⟩,
   ⟨0.7, 0.5, 270, 0.3, 0.5⟩,
   ⟨0.2, 0.15, 0.75, 0.05⟩,
   ⟨true, 8, 0.4, 0.6, 0.2⟩,
   ⟨true, 20, 30, 1.5, 2, 1⟩,
   ⟨true, 3, 2, 100, 1.5, 5⟩⟩

/-! ## JavaScript loop-count helpers -/

/-- The number of iterations of `for (let i = 0; i < n; i++)` for an arbitrary
numeric bound `n`. -/

def jsLoopCount (q : ℚ) : ℕ := if q ≤ 0 then 0 else (⌈q⌉).toNat

/-- The number of iterations of `for (let v = a; v <= b; v++)` for arbitrary
numeric bounds. -/

def jsForCount (a b : ℚ) : ℕ := if b < a then 0 else (jsFloor (b - a)).toNat + 1

/-- Write to a `Float32Array` at an arbitrary numeric index: JavaScript typed
arrays silently ignore writes whose index is not a canonical non-negative
integer (as well as out-of-range writes). -/

def asetQ (a : Array ℚ) (q : ℚ) (v : ℚ) : Array ℚ :=
  if q.den = 1 ∧ 0 ≤ q.num then aset a q.num.toNat v else a

/-! ## Simplex noise (`noise.ts`) -/

/-- The 2D gradient table `GRAD2`. -/

def GRAD2 : List (ℤ × ℤ) :=
  [(1, 1), (-1, 1), (1, -1), (-1, -1), (1, 0), (-1, 0), (0, 1), (0, -1)]

/-- A built noise generator: the two 512-entry permutation tables. -/

structure SimplexNoise where
  perm : Array ℕ
  permMod8 : Array ℕ
deriving Repr, DecidableEq

/-- JavaScript's destructuring swap `[p[i], p[j]] = [p[j], p[i]]` (the right
side is evaluated before either assignment). -/

def aswap (a : Array ℕ) (i j : ℕ) : Array ℕ :=
  aset (aset a i (nget a j)) j (nget a i)

/-- The `SimplexNoise` constructor: build the identity table, Fisher–Yates
shuffle it with the PRNG (`i` from 255 down to 1), then tile it to 512 entries
together with its mod-8 companion.  Returns the advanced PRNG as well (the
caller in the pipeline discards it, as the source discards the fork). -/

def noiseCtor (prng : PRNG) : SimplexNoise × PRNG :=
  let r := (List.range 255).foldl (fun (st : Array ℕ × PRNG) k =>
    let i : ℕ := 255 - k
    let (u, pr) := st.2.next
    let j := (jsFloor (u * ((i : ℚ) + 1))).toNat
    (aswap st.1 i j, pr)) (Array.range 256, prng)
  let p := r.1
  let permA := (List.range 512).foldl (fun a i => aset a i (nget p (i % 256)))
    (Array.mkArray 512 0)
  let permB := (List.range 512).foldl (fun a i => aset a i (nget permA i % 8))
    (Array.mkArray 512 0)
  (⟨permA, permB⟩, r.2)

/-- `dot2`. -/

def dot2 (gx gy : ℤ) (x y : ℚ) : ℚ := (gx : ℚ) * x + (gy : ℚ) * y

/-- `i & 255` on a JavaScript 32-bit integer value. -/

def iand255 (z : ℤ) : ℕ := (z % 256).toNat

/-- 2D simplex noise (`noise2D`), following Gustavson's skew/unskew scheme.
`Math.sqrt(3.0)` is taken from the abstract model. -/

def noise2D (M : MathModel) (n : SimplexNoise) (x y : ℚ) : ℚ :=
  let F2 := 0.5 * (M.sqrt 3 - 1)
  let G2 := (3 - M.sqrt 3) / 6
  let s := (x + y) * F2
  let i := jsFloor (x + s)
  let j := jsFloor (y + s)
  let t := ((i : ℚ) + (j : ℚ)) * G2
  let x0 := x - ((i : ℚ) - t)
  let y0 := y - ((j : ℚ) - t)
  let i1 : ℕ := if y0 < x0 then 1 else 0
  let j1 : ℕ := if y0 < x0 then 0 else 1
  let x1 := x0 - (i1 : ℚ) + G2
  let y1 := y0 - (j1 : ℚ) + G2
  let x2 := x0 - 1 + 2 * G2
  let y2 := y0 - 1 + 2 * G2
  let ii := iand255 i
  let jj := iand255 j
  let t0 := 0.5 - x0 * x0 - y0 * y0
  let n0 := if 0 ≤ t0 then
      let gi0 := nget n.permMod8 (ii + nget n.perm jj)
      let g := GRAD2.getD gi0 (0, 0)
      (t0 * t0) * (t0 * t0) * dot2 g.1 g.2 x0 y0
    else 0
  let t1 := 0.5 - x1 * x1 - y1 * y1
  let n1 := if 0 ≤ t1 then
      let gi1 := nget n.permMod8 (ii + i1 + nget n.perm (jj + j1))
      let g := GRAD2.getD gi1 (0, 0)
      (t1 * t1) * (t1 * t1) * dot2 g.1 g.2 x1 y1
    else 0
  let t2 := 0.5 - x2 * x2 - y2 * y2
  let n2 := if 0 ≤ t2 then
      let gi2 := nget n.permMod8 (ii + 1 + nget n.perm (jj + 1))
      let g := GRAD2.getD gi2 (0, 0)
      (t2 * t2) * (t2 * t2) * dot2 g.1 g.2 x2 y2
    else 0
  70 * (n0 + n1 + n2)

/-- `noise2DNormalized`. -/

def noise2DNormalized (M : MathModel) (n : SimplexNoise) (x y : ℚ) : ℚ :=
  (noise2D M n x y + 1) * 0.5

/-- Fractal Brownian motion (`fbm`): state is
(value, amplitude, maxValue, freq). -/

def fbm (M : MathModel) (n : SimplexNoise) (x y : ℚ) (octaves frequency persistence : ℚ) :
    ℚ :=
  let r := (List.range (jsLoopCount octaves)).foldl (fun (st : ℚ × ℚ × ℚ × ℚ) _ =>
    (st.1 + st.2.1 * noise2DNormalized M n (x * st.2.2.2) (y * st.2.2.2),
     st.2.1 * persistence,
     st.2.2.1 + st.2.1,
     st.2.2.2 * 2)) (0, 1, 0, frequency)
  r.1 / r.2.2.1

/-- Ridged multifractal noise (`ridgedFbm`): state is
(value, amplitude, maxValue, freq, weight). -/

def ridgedFbm (M : MathModel) (n : SimplexNoise) (x y : ℚ)
    (octaves frequency persistence : ℚ) : ℚ :=
  let r := (List.range (jsLoopCount octaves)).foldl
    (fun (st : ℚ × ℚ × ℚ × ℚ × ℚ) _ =>
      let nv := noise2DNormalized M n (x * st.2.2.2.1) (y * st.2.2.2.1)
      let nv1 := 1 - |nv * 2 - 1|
      let nv2 := nv1 * nv1 * st.2.2.2.2
      (st.1 + st.2.1 * nv2,
       st.2.1 * persistence,
       st.2.2.1 + st.2.1,
       st.2.2.2.1 * 2,
       min 1 (max 0 (nv2 * 2)))) (0, 1, 0, frequency, 1)
  r.1 / r.2.2.1

/-! ## Continents (`continents.ts`) -/

structure ContinentSeed where
  x : ℚ
  y : ℚ
  radius : ℚ
  id : ℕ
deriving Repr, DecidableEq

/-- `generateContinentSeeds`: up to 1000 spacing-checked attempts, then a
fill loop that places the remainder unconditionally.  The PRNG is consumed
only on iterations the source actually executes: the attempt loop stops
drawing once enough seeds exist, and the radius draw happens only for a
candidate that passed the spacing check. -/

def generateContinentSeeds (M : MathModel) (s : Settings) (prng : PRNG) :
    List ContinentSeed :=
  let w : ℚ := (s.map.width : ℚ)
  let h : ℚ := (s.map.height : ℚ)
  let r0 := prng.int s.continents.continentCountMin s.continents.continentCountMax
  let count := r0.1
  let minDist := min w h * s.continents.seedSpacing
  let r1 := (List.range 1000).foldl (fun (st : List ContinentSeed × PRNG) _ =>
    if (st.1.length : ℤ) < count then
      let (x, p1) := st.2.range (w * 0.1) (w * (1 - 0.1))
      let (y, p2) := p1.range (h * 0.1) (h * (1 - 0.1))
      if st.1.any (fun sd => M.sqrt ((x - sd.x) * (x - sd.x) + (y - sd.y) * (y - sd.y))
          < minDist) then
        (st.1, p2)
      else
        let (rr, p3) := p2.range 0.15 0.35
        (st.1 ++ [⟨x, y, min w h * rr, st.1.length + 1⟩], p3)
    else st) ([], r0.2)
  let deficit : ℕ := if count ≤ (r1.1.length : ℤ) then 0 else (count - r1.1.length).toNat
  ((List.range deficit).foldl (fun (st : List ContinentSeed × PRNG) _ =>
    let (x, p1) := st.2.range (w * 0.15) (w * (1 - 0.15))
    let (y, p2) := p1.range (h * 0.15) (h * (1 - 0.15))
    let (rr, p3) := p2.range 0.1 0.25
    (st.1 ++ [⟨x, y, min w h * rr, st.1.length + 1⟩], p3)) r1).1

/-- The first pass of `generateContinentMask` for one cell: the strongest seed
influence and its id. -/

def continentInfluenceAt (M : MathModel) (s : Settings) (seeds : List ContinentSeed)
    (x y : ℕ) : ℚ × ℕ :=
  seeds.foldl (fun (best : ℚ × ℕ) sd =>
    let dx := (x : ℚ) - sd.x
    let dy := (y : ℚ) - sd.y
    let dist := M.sqrt (dx * dx + dy * dy)
    let influence := max 0 (1 - M.pow (dist / sd.radius) s.continents.maskFalloff)
    if best.1 < influence then (influence, sd.id) else best) (0, 0)

/-- The near-land scan of the archipelago pass (radius 20 box, any land). -/

def nearLandB (lm : Array ℕ) (w h : ℕ) (x y : ℕ) : Bool :=
  (List.range 41).any fun dy =>
    (List.range 41).any fun dx =>
      decide (0 ≤ (x : ℤ) + dx - 20) && decide ((x : ℤ) + dx - 20 < (w : ℤ)) &&
      decide (0 ≤ (y : ℤ) + dy - 20) && decide ((y : ℤ) + dy - 20 < (h : ℤ)) &&
      decide (nget lm (((y : ℤ) + dy - 20).toNat * w + ((x : ℤ) + dx - 20).toNat) = 1)

/-- The first pass of `generateContinentMask`: the per-cell influence and
continent-id arrays. -/

def continentInfl (M : MathModel) (s : Settings) (seeds : List ContinentSeed) :
    Array ℚ × Array ℕ :=
  (List.range s.map.height).foldl (fun (st : Array ℚ × Array ℕ) y =>
    (List.range s.map.width).foldl (fun (st : Array ℚ × Array ℕ) x =>
      (aset st.1 (y * s.map.width + x) (continentInfluenceAt M s seeds x y).1,
       aset st.2 (y * s.map.width + x) (continentInfluenceAt M s seeds x y).2)) st)
    (Array.mkArray (s.map.width * s.map.height) 0,
     Array.mkArray (s.map.width * s.map.height) 0)

/-- The second pass of `generateContinentMask`: coastline noise added to the
influence, thresholded against sea level. -/

def continentLand (M : MathModel) (s : Settings) (infl : Array ℚ)
    (noise : SimplexNoise) : Array ℕ :=
  (List.range s.map.height).foldl (fun lmk (y : ℕ) =>
    (List.range s.map.width).foldl (fun lmk (x : ℕ) =>
      if s.map.seaLevel < qget infl (y * s.map.width + x)
          + fbm M noise ((x : ℚ) / s.map.width) ((y : ℚ) / s.map.height) 4
            s.continents.coastlineNoiseFreq 0.5 * s.continents.coastlineNoiseAmp then
        aset lmk (y * s.map.width + x) 1
      else lmk) lmk) (Array.mkArray (s.map.width * s.map.height) 0)

/-- The archipelago pass of `generateContinentMask`: high-frequency island
noise can turn an ocean cell near existing land into land, drawing one
`chance` per qualifying cell. -/

def archipelagoPass (M : MathModel) (s : Settings) (islandNoise : SimplexNoise)
    (landMask continentId : Array ℕ) (prng : PRNG) : Array ℕ × Array ℕ × PRNG :=
  (List.range s.map.height).foldl (fun (st : Array ℕ × Array ℕ × PRNG) (y : ℕ) =>
    (List.range s.map.width).foldl (fun (st : Array ℕ × Array ℕ × PRNG) (x : ℕ) =>
      if nget st.1 (y * s.map.width + x) = 0 then
        if 1 - s.continents.archipelagoChance * 0.5
            < fbm M islandNoise ((x : ℚ) / s.map.width) ((y : ℚ) / s.map.height)
              3 20 0.5 then
          if nearLandB st.1 s.map.width s.map.height x y then
            let (c, p') := st.2.2.chance s.continents.archipelagoChance
            if c then
              (aset st.1 (y * s.map.width + x) 1,
               aset st.2.1 (y * s.map.width + x)
                 (if nget st.2.1 (max 0 ((y * s.map.width + x : ℤ) - 1)).toNat = 0
                  then 1
                  else nget st.2.1 (max 0 ((y * s.map.width + x : ℤ) - 1)).toNat),
               p')
            else (st.1, st.2.1, p')
          else st
        else st
      else st) st) (landMask, continentId, prng)

/-- `generateContinentMask`: influence pass, coastline-noise threshold pass,
then the optional archipelago pass (which forks a PRNG for island noise). -/

def generateContinentMask (M : MathModel) (s : Settings) (seeds : List ContinentSeed)
    (noise : SimplexNoise) (prng : PRNG) : Array ℕ × Array ℕ :=
  let infl := continentInfl M s seeds
  let landMask := continentLand M s infl.1 noise
  if 0 < s.continents.archipelagoChance then
    let r := archipelagoPass M s (noiseCtor prng.fork.1).1 landMask infl.2 prng.fork.2
    (r.1, r.2.1)
  else (landMask, infl.2)

/-! ## Elevation and mountains (`elevation.ts`) -/

structure MountainRange where
  points : List (ℚ × ℚ)
  width : ℚ
  height : ℚ
deriving Repr, DecidableEq

/-- The random-walk state of one mountain-range spine: collected points, the
current angle and position, and whether the walk is still alive (a step out of
bounds breaks the loop, consuming nothing further). -/

structure WalkState where
  points : List (ℚ × ℚ)
  angle : ℚ
  cx : ℚ
  cy : ℚ
  prng : PRNG
  alive : Bool

/-- `generateMountainRanges`: for each of `count` ranges, search a land start
cell (at most 100 draws, stopping once found), random-walk a spine, and keep
the range only when the spine has more than 5 points (the width/height draws
happen only in that case). -/

def generateMountainRanges (M : MathModel) (s : Settings) (lm : Array ℕ)
    (prng : PRNG) : List MountainRange :=
  let w := s.map.width
  let h := s.map.height
  let r0 := prng.int s.elevation.mountainRangeCountMin s.elevation.mountainRangeCountMax
  let count : ℕ := if r0.1 ≤ 0 then 0 else r0.1.toNat
  ((List.range count).foldl (fun (st : List MountainRange × PRNG) _ =>
    let f := (List.range 100).foldl
      (fun (fs : Bool × ℤ × ℤ × PRNG) _ =>
        if fs.1 then fs
        else
          let (sx, p1) := fs.2.2.2.int 0 ((w : ℚ) - 1)
          let (sy, p2) := p1.int 0 ((h : ℚ) - 1)
          (decide (nget lm (sy.toNat * w + sx.toNat) = 1), sx, sy, p2))
      (false, 0, 0, st.2)
    if f.1 then
      let startX := f.2.1
      let startY := f.2.2.1
      let (rangeLength, p3) := f.2.2.2.int 20 80
      let (baseAngle, p4) := p3.range 0 (M.pi * 2)
      let wk := (List.range rangeLength.toNat).foldl (fun (ws : WalkState) _ =>
        if ws.alive then
          let (da, q1) := ws.prng.range (-s.elevation.mountainRangeCurviness)
            s.elevation.mountainRangeCurviness
          let a1 := ws.angle + da
          let (step, q2) := q1.range 3 8
          let cx' := ws.cx + M.cos a1 * step
          let cy' := ws.cy + M.sin a1 * step
          let ix := jsRound cx'
          let iy := jsRound cy'
          if 0 ≤ ix ∧ ix < (w : ℤ) ∧ 0 ≤ iy ∧ iy < (h : ℤ) then
            if nget lm (iy.toNat * w + ix.toNat) = 1 then
              ⟨ws.points ++ [(cx', cy')], a1, cx', cy', q2, true⟩
            else
              ⟨ws.points, a1 + M.pi / 4, cx', cy', q2, true⟩
          else
            ⟨ws.points, a1, cx', cy', q2, false⟩
        else ws)
        ⟨[((startX : ℚ), (startY : ℚ))], baseAngle, (startX : ℚ), (startY : ℚ), p4, true⟩
      if 5 < wk.points.length then
        let (rw, q3) := wk.prng.range 0.8 1.2
        let (rh, q4) := q3.range 0.7 1.3
        (st.1 ++ [⟨wk.points, s.elevation.mountainRangeWidth * min (w : ℚ) (h : ℚ) * rw,
          s.elevation.mountainRangeHeight * rh⟩], q4)
      else (st.1, wk.prng)
    else (st.1, f.2.2.2)) ([], r0.2)).1

/-- `distanceToPolyline`: least distance from `(x, y)` to any segment of the
polyline; `none` models the initial `Infinity` (fewer than two points). -/

def distanceToPolyline (M : MathModel) (x y : ℚ) (points : List (ℚ × ℚ)) : Option ℚ :=
  (points.zip points.tail).foldl (fun md pq =>
    let p1 := pq.1
    let p2 := pq.2
    let dx := p2.1 - p1.1
    let dy := p2.2 - p1.2
    let len2 := dx * dx + dy * dy
    let d :=
      if len2 = 0 then
        M.sqrt ((x - p1.1) * (x - p1.1) + (y - p1.2) * (y - p1.2))
      else
        let t := max 0 (min 1 (((x - p1.1) * dx + (y - p1.2) * dy) / len2))
        let projX := p1.1 + t * dx
        let projY := p1.2 + t * dy
        M.sqrt ((x - projX) * (x - projX) + (y - projY) * (y - projY))
    some (match md with
      | none => d
      | some m => min m d)) none

/-- The mountain-influence fold of `generateHeightMap` for one cell. -/

def mountainInfluenceAt (M : MathModel) (ranges : List MountainRange) (x y : ℕ) : ℚ :=
  ranges.foldl (fun mi rg =>
    match distanceToPolyline M (x : ℚ) (y : ℚ) rg.points with
    | none => mi
    | some dist =>
      let nd := dist / rg.width
      if nd < 1 then max mi (M.pow (1 - nd) 2 * rg.height) else mi) 0

/-- One thermal-erosion pass: averaged map of interior land cells (neighbours
joining the average only when the height difference exceeds 0.1), then the
80/20 blend into the height map. -/

def erosionPass (lm : Array ℕ) (w h : ℕ) (hm : Array ℚ) : Array ℚ :=
  let tempMap := ((List.range (h - 1)).drop 1).foldl (fun tm (y : ℕ) =>
    ((List.range (w - 1)).drop 1).foldl (fun tm (x : ℕ) =>
      if nget lm (y * w + x) = 0 then tm
      else
        let hv := qget hm (y * w + x)
        let tc := ([-1, 0, 1] : List ℤ).foldl (fun (tc : ℚ × ℚ) dy =>
          ([-1, 0, 1] : List ℤ).foldl (fun (tc : ℚ × ℚ) dx =>
            if dx = 0 ∧ dy = 0 then tc
            else
              let nidx := (((y : ℤ) + dy) * w + ((x : ℤ) + dx)).toNat
              if nget lm nidx = 1 then
                if 0.1 < |hv - qget hm nidx| then
                  (tc.1 + qget hm nidx, tc.2 + 1)
                else tc
              else tc) tc) (hv, 1)
        aset tm (y * w + x) (tc.1 / tc.2)) tm) hm
  (List.range (w * h)).foldl (fun a i =>
    aset a i (qget hm i * 0.8 + qget tempMap i * 0.2)) hm

/-- The base-terrain pass of `generateHeightMap`: ocean-floor noise below sea
level; on land, base noise raised above sea level plus mountain influence with
ridged detail. -/

def heightBase (M : MathModel) (s : Settings) (lm : Array ℕ)
    (ranges : List MountainRange) (noise ridgeNoise : SimplexNoise) :
    Array ℚ × Array ℕ :=
  (List.range s.map.height).foldl (fun (st : Array ℚ × Array ℕ) (y : ℕ) =>
    (List.range s.map.width).foldl (fun (st : Array ℚ × Array ℕ) (x : ℕ) =>
      let w := s.map.width
      let idx := y * w + x
      let nx := (x : ℚ) / w
      let ny := (y : ℚ) / s.map.height
      if nget lm idx = 0 then
        (aset st.1 idx (fbm M noise nx ny 3 s.elevation.baseNoiseFreq 0.5
          * s.map.seaLevel * 0.8), st.2)
      else
        let elev0 := fbm M noise nx ny s.elevation.baseNoiseOctaves
          s.elevation.baseNoiseFreq s.elevation.baseNoisePersistence
        let elev1 := s.map.seaLevel + elev0 * (1 - s.map.seaLevel) * 0.5
        let mi := mountainInfluenceAt M ranges x y
        if 0.1 < mi then
          let ridge := ridgedFbm M ridgeNoise nx ny s.elevation.ridgeNoiseOctaves
            s.elevation.ridgeNoiseFreq 0.5
          (aset st.1 idx (min 1 (elev1 + mi * (0.7 + ridge * s.elevation.ridgeStrength))),
           aset st.2 idx (min 255 (jsFloor (mi * 255))).toNat)
        else
          (aset st.1 idx (min 1 elev1), st.2))
      st)
    (Array.mkArray (s.map.width * s.map.height) 0,
     Array.mkArray (s.map.width * s.map.height) 0)

/-- `generateHeightMap`: the base pass (with a freshly forked ridge-noise
generator) followed by the thermal erosion passes. -/

def generateHeightMap (M : MathModel) (s : Settings) (lm : Array ℕ)
    (ranges : List MountainRange) (noise : SimplexNoise) (prng : PRNG) :
    Array ℚ × Array ℕ :=
  let base := heightBase M s lm ranges noise (noiseCtor prng.fork.1).1
  ((List.range (jsLoopCount s.elevation.erosionThermalIterations)).foldl
    (fun hm _ => erosionPass lm s.map.width s.map.height hm) base.1, base.2)

/-! ## Rivers and lakes (`hydrology.ts`, continued) -/

/-- `generateRivers`: land cells whose accumulation reaches the threshold get
a logarithmic intensity clamped into 1..255.  (The `flowDir` and `heightMap`
parameters are accepted but unused, exactly as in the source.) -/

def generateRivers (M : MathModel) (flowAccum : Array ℚ) (_flowDir : Array ℤ)
    (lm : Array ℕ) (_hm : Array ℚ) (s : Settings) (w h : ℕ) : Array ℕ :=
  (List.range (w * h)).foldl (fun rv i =>
    if nget lm i = 1 ∧ s.hydrology.riverMinAccum ≤ qget flowAccum i then
      aset rv i (max 1 (min 255 (jsFloor
        (M.log (qget flowAccum i / s.hydrology.riverMinAccum + 1) * 50)))).toNat
    else rv) (Array.mkArray (w * h) 0)

/-- State of one lake flood fill: the lake mask being painted, the FIFO queue,
the visited set (insertion order) and the lake size so far. -/

structure LakeState where
  lakeMask : Array ℕ
  queue : List ℕ
  visited : List ℕ
  lakeSize : ℕ

/-- One lake flood fill (`while (queue.length > 0 && lakeSize < maxLakeSize)`),
with fuel.  Each iteration pops one entry; an entry is expanded (possibly
pushing up to 8 neighbours) only the first time its cell is seen, so the
number of iterations is at most `1 + 8 * (w * h)` and the fuel
`9 * (w * h) + 9` that `detectLakes` passes always suffices. -/

def lakeFill (hm : Array ℚ) (lm : Array ℕ) (w h : ℕ) (lakeHeight : ℚ) :
    ℕ → LakeState → LakeState
  | 0, st => st
  | fuel + 1, st =>
    match st.queue with
    | [] => st
    | current :: rest =>
      if 100 ≤ st.lakeSize then st
      else if current ∈ st.visited then
        lakeFill hm lm w h lakeHeight fuel ⟨st.lakeMask, rest, st.visited, st.lakeSize⟩
      else
        let visited' := st.visited ++ [current]
        if qget hm current ≤ lakeHeight + 0.02 then
          let queue' := (List.range 8).foldl (fun q dd =>
            if inGrid w h ((current % w : ℕ) + dxAt dd) ((current / w : ℕ) + dyAt dd) then
              if nget lm ((((current / w : ℕ) : ℤ) + dyAt dd).toNat * w
                    + (((current % w : ℕ) : ℤ) + dxAt dd).toNat) = 1
                  ∧ ¬((((current / w : ℕ) : ℤ) + dyAt dd).toNat * w
                    + (((current % w : ℕ) : ℤ) + dxAt dd).toNat) ∈ visited' then
                q ++ [(((current / w : ℕ) : ℤ) + dyAt dd).toNat * w
                  + (((current % w : ℕ) : ℤ) + dxAt dd).toNat]
              else q
            else q) rest
          lakeFill hm lm w h lakeHeight fuel
            ⟨aset st.lakeMask current 1, queue', visited', st.lakeSize + 1⟩
        else
          lakeFill hm lm w h lakeHeight fuel ⟨st.lakeMask, rest, visited', st.lakeSize⟩

/-- `detectLakes`: no-op when lake filling is disabled; otherwise each interior
land sink (no outflow) seeds a bounded flood fill painting the shared lake
mask. -/

def detectLakes (hm : Array ℚ) (lm : Array ℕ) (fd : Array ℤ) (s : Settings)
    (w h : ℕ) : Array ℕ :=
  if s.hydrology.lakeFillEnabled then
    ((List.range (h - 1)).drop 1).foldl (fun lk (y : ℕ) =>
      ((List.range (w - 1)).drop 1).foldl (fun lk (x : ℕ) =>
        if nget lm (y * w + x) = 0 then lk
        else if 0 ≤ zget fd (y * w + x) then lk
        else
          (lakeFill hm lm w h (qget hm (y * w + x)) (9 * (w * h) + 9)
            ⟨lk, [y * w + x], [], 0⟩).lakeMask) lk) (Array.mkArray (w * h) 0)
  else Array.mkArray (w * h) 0

/-! ## Climate (`climate.ts`) -/

/-- `generateTemperature`: latitude gradient, elevation cooling on land, and a
small noise perturbation, clamped into `[0, 1]`. -/

def generateTemperature (M : MathModel) (hm : Array ℚ) (lm : Array ℕ) (s : Settings)
    (w h : ℕ) (noise : SimplexNoise) : Array ℚ :=
  (List.range h).foldl (fun tp (y : ℕ) =>
    (List.range w).foldl (fun tp (x : ℕ) =>
      let idx := y * w + x
      let nx := (x : ℚ) / w
      let ny := (y : ℚ) / h
      let latitudeFactor := 1 - |ny - 0.5| * 2
      let t0 := latitudeFactor * s.climate.latitudeTempStrength
        + (1 - s.climate.latitudeTempStrength)
      let t1 := if nget lm idx = 1 then
          t0 - (qget hm idx - s.map.seaLevel) / (1 - s.map.seaLevel)
            * s.climate.elevationTempStrength
        else t0
      let t2 := t1 + (fbm M noise (nx + 10) (ny + 10) 2 4 0.5 * 0.1 - 0.05)
      aset tp idx (max 0 (min 1 t2))) tp) (Array.mkArray (w * h) 0)

/-- The upwind mountain-block scan of `generateMoisture` for one land cell
(50 unit steps against the wind). -/

def mountainBlockAt (hm : Array ℚ) (w h : ℕ) (x y : ℕ) (windX windY : ℚ) : ℚ :=
  (List.range 50).foldl (fun mb k =>
    let d : ℚ := (k : ℚ) + 1
    let checkX := jsRound ((x : ℚ) - windX * d)
    let checkY := jsRound ((y : ℚ) - windY * d)
    if 0 ≤ checkX ∧ checkX < (w : ℤ) ∧ 0 ≤ checkY ∧ checkY < (h : ℤ) then
      let checkElev := qget hm (checkY.toNat * w + checkX.toNat)
      let currentElev := qget hm (y * w + x)
      if currentElev + 0.1 < checkElev then
        max mb ((checkElev - currentElev) * (1 - d / 50))
      else mb
    else mb) 0

/-- `generateMoisture`: base rainfall, water-proximity bonus, rain shadow and
noise, clamped into `[0, 1]`.  A cell whose water distance is `Infinity`
(`none`, possible only on a map with no water at all) makes the proximity term
`-Infinity`; for a positive `moistureFromWaterStrength` the clamped result is
0 and for a negative one it is 1; the indeterminate product at strength 0
(`NaN` in the source, which every later comparison treats as out of range) is
collapsed to 0. -/

def generateMoisture (M : MathModel) (hm : Array ℚ) (lm : Array ℕ)
    (waterDistance : Array (Option ℚ)) (s : Settings) (w h : ℕ)
    (noise : SimplexNoise) : Array ℚ :=
  let windRad := s.climate.windDirectionDegrees * M.pi / 180
  let windX := M.cos windRad
  let windY := M.sin windRad
  (List.range h).foldl (fun mo (y : ℕ) =>
    (List.range w).foldl (fun mo (x : ℕ) =>
      let idx := y * w + x
      let nx := (x : ℚ) / w
      let ny := (y : ℚ) / h
      match oget waterDistance idx with
      | none =>
        aset mo idx (if 0 < s.climate.moistureFromWaterStrength then 0
          else if s.climate.moistureFromWaterStrength < 0 then 1 else 0)
      | some wd =>
        let m0 := s.hydrology.rainfallBias
          + (1 - wd) * s.climate.moistureFromWaterStrength
        let m1 := if nget lm idx = 1 ∧ 0 < s.climate.rainShadowStrength then
            m0 - mountainBlockAt hm w h x y windX windY * s.climate.rainShadowStrength
          else m0
        let m2 := m1 + (fbm M noise (nx + 20) (ny + 20) 3 6 0.5 * 0.3 - 0.15)
        aset mo idx (max 0 (min 1 m2))) mo) (Array.mkArray (w * h) 0)

/-! ## Biomes (`biomes.ts`) -/

/-- The near-ocean scan of the beach rule (radius 3 box, any ocean cell). -/

def nearOceanB (lm : Array ℕ) (w h : ℕ) (x y : ℕ) : Bool :=
  (List.range 7).any fun dy =>
    (List.range 7).any fun dx =>
      decide (0 ≤ (x : ℤ) + dx - 3) && decide ((x : ℤ) + dx - 3 < (w : ℤ)) &&
      decide (0 ≤ (y : ℤ) + dy - 3) && decide ((y : ℤ) + dy - 3 < (h : ℤ)) &&
      decide (nget lm (((y : ℤ) + dy - 3).toNat * w + ((x : ℤ) + dx - 3).toNat) = 0)

/-- The per-cell decision chain of `classifyBiomes`, with the source's biome
numbers (Ocean 0, Beach 1, Lake 2, Snow 3, Tundra 4, Taiga 5, Grassland 6,
TemperateForest 7, Rainforest 8, Desert 9, Savanna 10, MountainRock 11).  The
beach branch of the source assigns only when the near-ocean scan succeeds and
otherwise falls through, which is the conjunction written here. -/

def classifyCell (s : Settings) (lm lakeMask : Array ℕ) (w h x y : ℕ)
    (elev temp moist : ℚ) : ℕ :=
  if nget lm (y * w + x) = 0 then 0
  else if nget lakeMask (y * w + x) = 1 then 2
  else if (elev - s.map.seaLevel) / (1 - s.map.seaLevel) < s.biomes.beachElevationRange
      ∧ nearOceanB lm w h x y then 1
  else if s.biomes.mountainElevationMin
      ≤ (elev - s.map.seaLevel) / (1 - s.map.seaLevel) then
    if temp < s.biomes.snowTempMax * 1.5 then 3 else 11
  else if temp < s.biomes.snowTempMax then 3
  else if temp < s.biomes.snowTempMax * 2 then
    if moist < 0.3 then 4 else 5
  else if temp < 0.5 then
    if moist < s.biomes.desertMoistureMax then 6
    else if moist < 0.5 then 6
    else 7
  else if temp < 0.75 then
    if moist < s.biomes.desertMoistureMax then 9
    else if moist < 0.4 then 10
    else if moist < 0.7 then 6
    else 7
  else
    if moist < s.biomes.desertMoistureMax then 9
    else if moist < 0.35 then 10
    else if moist < 0.6 then 6
    else 8

/-- `classifyBiomes`: the per-cell decision chain over the whole grid. -/

def classifyBiomes (hm : Array ℚ) (lm lakeMask : Array ℕ)
    (temperature moisture : Array ℚ) (s : Settings) (w h : ℕ) : Array ℕ :=
  (List.range h).foldl (fun b (y : ℕ) =>
    (List.range w).foldl (fun b (x : ℕ) =>
      aset b (y * w + x) (classifyCell s lm lakeMask w h x y
        (qget hm (y * w + x)) (qget temperature (y * w + x))
        (qget moisture (y * w + x)))) b) (Array.mkArray (w * h) 0)

/-! ## Forests (`forests.ts`) -/

/-- `FOREST_BIOMES`: Taiga, TemperateForest, Rainforest, Grassland, Savanna. -/

def FOREST_BIOMES : List ℕ := [5, 7, 8, 6, 10]

/-- `generateForests`: noise-based density plus moisture and river-proximity
terms and a per-biome bias, thresholded and rescaled into 1..255.  A cell with
water distance `Infinity` (`none`; only on a map without water) has proximity
term `-Infinity` for a positive `riverProximityBoost`, which keeps the cell
below any threshold; the model leaves such a cell unforested (the remaining
sign combinations, `±Infinity`/`NaN` in the source, are collapsed the same
way). -/

def generateForests (M : MathModel) (biome : Array ℕ) (moisture : Array ℚ)
    (waterDistance : Array (Option ℚ)) (s : Settings) (w h : ℕ)
    (noise : SimplexNoise) : Array ℕ :=
  if s.forests.enabled then
    (List.range h).foldl (fun fo (y : ℕ) =>
      (List.range w).foldl (fun fo (x : ℕ) =>
        let idx := y * w + x
        if nget biome idx ∈ FOREST_BIOMES then
          match oget waterDistance idx with
          | none => fo
          | some wd =>
            let d0 := fbm M noise ((x : ℚ) / w) ((y : ℚ) / h) 4
              s.forests.densityNoiseFreq 0.6
            let d1 := d0 + qget moisture idx * s.forests.moistureInfluence
            let d2 := d1 + (1 - wd) * s.forests.riverProximityBoost
            let d3 := d2 + (if nget biome idx = 8 then (0.3 : ℚ)
              else if nget biome idx = 7 then 0.2
              else if nget biome idx = 5 then 0.1
              else if nget biome idx = 10 then -0.2
              else if nget biome idx = 6 then -0.1
              else 0)
            if s.forests.densityThreshold < d3 then
              aset fo idx (max 1 (min 255 (jsFloor ((d3 - s.forests.densityThreshold)
                / (1 - s.forests.densityThreshold) * 255)))).toNat
            else fo
        else fo) fo) (Array.mkArray (w * h) 0)
  else Array.mkArray (w * h) 0

/-! ## Cities (`cities.ts`) -/

inductive CityType where
  | capital
  | city
  | town
  | port
deriving Repr, DecidableEq

structure City where
  id : ℕ
  x : ℕ
  y : ℕ
  size : ℚ
  type : CityType
  name : String
deriving Repr, DecidableEq

/-- `NAME_PREFIXES`. -/

def namePres : List String :=
  ["New", "Old", "East", "West", "North", "South", "Great", "Little", "Upper", "Lower"]

/-- `NAME_ROOTS`. -/

def nameRoots : List String :=
  ["haven", "port", "ford", "bridge", "burg", "ton", "ville", "dale", "wood", "field",
   "castle", "keep", "hold", "watch", "guard", "stone", "rock", "cliff", "hill", "mount",
   "river", "lake", "bay", "cove", "shore", "marsh", "glen", "vale", "moor", "heath"]

/-- `NAME_SUFFIXES`. -/

def nameSuffixes : List String :=
  ["ia", "heim", "grad", "opolis", "minster", "wick", "worth", "stead", ""]

/-- `root.charAt(0).toUpperCase() + root.slice(1)`. -/

def capFirst (s : String) : String :=
  match s.data with
  | [] => ""
  | c :: cs => String.mk (c.toUpper :: cs)

/-- `generateCityName`: optional prefix word, capitalised root, optional
suffix; the word picks are drawn only when the corresponding chance
succeeded. -/

def generateCityName (p : PRNG) : String × PRNG :=
  let (usePre, p1) := p.chance 0.2
  let (useSuf, p2) := p1.chance 0.5
  let pr := if usePre then
      (fun (r : String × PRNG) => (r.1 ++ " ", r.2)) (p2.pick namePres)
    else ("", p2)
  let (root, p4) := pr.2.pick nameRoots
  let sr := if useSuf then p4.pick nameSuffixes else ("", p4)
  (pr.1 ++ capFirst root ++ sr.1, sr.2)

/-- `CITY_BIOMES`: Beach, Grassland, TemperateForest, Savanna, Taiga. -/

def CITY_BIOMES : List ℕ := [1, 6, 7, 10, 5]

/-- `calculateSlope`: 1 on the border, otherwise the largest absolute height
difference to one of the 8 neighbours. -/

def calculateSlope (hm : Array ℚ) (x y w h : ℕ) : ℚ :=
  if x = 0 ∨ w - 1 ≤ x ∨ y = 0 ∨ h - 1 ≤ y then 1
  else
    ([-1, 0, 1] : List ℤ).foldl (fun md dy =>
      ([-1, 0, 1] : List ℤ).foldl (fun md dx =>
        if dx = 0 ∧ dy = 0 then md
        else max md |qget hm ((((y : ℤ) + dy) * w + ((x : ℤ) + dx)).toNat)
          - qget hm (y * w + x)|) md) 0

/-- `isNearCoast` (radius 5 box, any ocean cell). -/

def isNearCoast (lm : Array ℕ) (x y w h : ℕ) : Bool :=
  (List.range 11).any fun dy =>
    (List.range 11).any fun dx =>
      decide (0 ≤ (x : ℤ) + dx - 5) && decide ((x : ℤ) + dx - 5 < (w : ℤ)) &&
      decide (0 ≤ (y : ℤ) + dy - 5) && decide ((y : ℤ) + dy - 5 < (h : ℤ)) &&
      decide (nget lm (((y : ℤ) + dy - 5).toNat * w + ((x : ℤ) + dx - 5).toNat) = 0)

/-- The near-river scan of the suitability score (radius 3 box). -/

def nearRiverB (rivers : Array ℕ) (w h : ℕ) (x y : ℕ) : Bool :=
  (List.range 7).any fun dy =>
    (List.range 7).any fun dx =>
      decide (0 ≤ (x : ℤ) + dx - 3) && decide ((x : ℤ) + dx - 3 < (w : ℤ)) &&
      decide (0 ≤ (y : ℤ) + dy - 3) && decide ((y : ℤ) + dy - 3 < (h : ℤ)) &&
      decide (0 < nget rivers (((y : ℤ) + dy - 3).toNat * w + ((x : ℤ) + dx - 3).toNat))

/-- The suitability-score pass of `placeCities`: water and wrong-biome cells
score 0 (and consume no randomness); every other cell gets terrain, coast and
river terms plus one random jitter draw. -/

def cityScores (_M : MathModel) (hm : Array ℚ) (lm biome rivers : Array ℕ)
    (s : Settings) (w h : ℕ) (prng : PRNG) : Array ℚ × PRNG :=
  (List.range h).foldl (fun (st : Array ℚ × PRNG) (y : ℕ) =>
    (List.range w).foldl (fun (st : Array ℚ × PRNG) (x : ℕ) =>
      let idx := y * w + x
      if nget lm idx = 0 then (aset st.1 idx 0, st.2)
      else if ¬ nget biome idx ∈ CITY_BIOMES then (aset st.1 idx 0, st.2)
      else
        let sc0 := 1 + (1 - calculateSlope hm x y w h * 10) * s.cities.flatPreference
        let sc1 := if isNearCoast lm x y w h then sc0 + s.cities.coastPreference else sc0
        let sc2 := if 0 < nget rivers idx then sc1 + s.cities.riverPreference
          else if nearRiverB rivers w h x y then sc1 + s.cities.riverPreference * 0.5
          else sc1
        let (u, p') := st.2.next
        (aset st.1 idx (max 0 (sc2 + u * 0.5)), p')) st)
    (Array.mkArray (w * h) 0, prng)

/-- The sampling loop of one placement iteration: up to `sampleCount` draws;
a draw becomes the new best when its score strictly beats the best so far and
it is not within `minSpacing` of an already-placed city. -/

def citySample (M : MathModel) (scores : Array ℚ) (placed : List ℕ) (s : Settings)
    (w h : ℕ) (prng : PRNG) : Option ℕ × ℚ × PRNG :=
  (List.range (min 1000 (w * h))).foldl
    (fun (st : Option ℕ × ℚ × PRNG) _ =>
      let (u, p') := st.2.2.next
      let idx := (jsFloor (u * (w * h : ℕ))).toNat
      if qget scores idx ≤ st.2.1 then (st.1, st.2.1, p')
      else
        let x := idx % w
        let y := idx / w
        if placed.any (fun cidx => M.sqrt (((x : ℚ) - (cidx % w : ℕ))
              * ((x : ℚ) - (cidx % w : ℕ))
              + ((y : ℚ) - (cidx / w : ℕ)) * ((y : ℚ) - (cidx / w : ℕ)))
            < s.cities.minSpacing) then
          (st.1, st.2.1, p')
        else (some idx, qget scores idx, p'))
    (none, 0, prng)

/-- The score-suppression pass after a placement: every cell within
`minSpacing` of the new city is zeroed.  For a non-integral `minSpacing` the
loop variables are non-integral and the source's typed-array writes at
non-integral indices are silently ignored (`asetQ`). -/

def suppressScores (M : MathModel) (scores : Array ℚ) (x y : ℕ) (m : ℚ)
    (w h : ℕ) : Array ℚ :=
  (List.range (jsForCount (-m) m)).foldl (fun sc ky =>
    (List.range (jsForCount (-m) m)).foldl (fun sc kx =>
      let dy := -m + ky
      let dx := -m + kx
      let nx := (x : ℚ) + dx
      let ny := (y : ℚ) + dy
      if 0 ≤ nx ∧ nx < (w : ℕ) ∧ 0 ≤ ny ∧ ny < (h : ℕ) then
        if M.sqrt (dx * dx + dy * dy) < m then asetQ sc (ny * w + nx) 0 else sc
      else sc) sc) scores

/-- State of the placement loop: the cities so far, the placed-cell set, the
(mutating) score array and the PRNG. -/

structure PlaceState where
  cities : List City
  placed : List ℕ
  scores : Array ℚ
  prng : PRNG

/-- One placement iteration `i` of `placeCities`: sample a best cell; if one
was found, determine the type (capital for iteration 0), size and name, append
the city, record the cell and suppress nearby scores. -/

def placeIter (M : MathModel) (lm rivers : Array ℕ) (s : Settings) (w h : ℕ)
    (i : ℕ) (st : PlaceState) : PlaceState :=
  let r := citySample M st.scores st.placed s w h st.prng
  match r.1 with
  | none => ⟨st.cities, st.placed, st.scores, r.2.2⟩
  | some bi =>
    let x := bi % w
    let y := bi / w
    let isCoastal := isNearCoast lm x y w h
    let hasRiver := 0 < nget rivers bi
    let tr : CityType × PRNG :=
      if i = 0 then (CityType.capital, r.2.2)
      else if isCoastal ∧ hasRiver then
        (fun (c : Bool × PRNG) => (if c.1 then CityType.port else CityType.city, c.2))
          (r.2.2.chance 0.7)
      else if isCoastal then
        (fun (c : Bool × PRNG) => (if c.1 then CityType.port else CityType.city, c.2))
          (r.2.2.chance 0.5)
      else if 3 < r.2.1 then (CityType.city, r.2.2)
      else (CityType.town, r.2.2)
    let sr : ℚ × PRNG := if i = 0 then (1, tr.2) else tr.2.range 0.3 0.9
    let nr := generateCityName sr.2
    ⟨st.cities ++ [⟨i, x, y, sr.1, tr.1, nr.1⟩],
     st.placed ++ [bi],
     suppressScores M st.scores x y s.cities.minSpacing w h,
     nr.2⟩

/-- `placeCities`: empty when disabled; otherwise the scoring pass followed by
`count` placement iterations. -/

def placeCities (M : MathModel) (hm : Array ℚ) (lm biome rivers : Array ℕ)
    (s : Settings) (w h : ℕ) (prng : PRNG) : List City :=
  if s.cities.enabled then
    let sc := cityScores M hm lm biome rivers s w h prng
    ((List.range (jsLoopCount s.cities.count)).foldl
      (fun st i => placeIter M lm rivers s w h i st) ⟨[], [], sc.1, sc.2⟩).cities
  else []

/-! ## Roads (`cities.ts`, continued) -/

structure Road where
  fromCityId : ℕ
  toCityId : ℕ
  path : List (ℕ × ℕ)
deriving Repr, DecidableEq

/-- One A* node, as stored in the open set. -/

structure ANode where
  x : ℕ
  y : ℕ
  g : ℚ
  f : ℚ
  parent : Option ℕ
deriving Repr, DecidableEq

/-- JavaScript `Map.set`: an existing key keeps its insertion position and is
updated in place; a new key is appended. -/

def mapSet {α : Type} (m : List (ℕ × α)) (k : ℕ) (v : α) : List (ℕ × α) :=
  if m.any (fun e => e.1 = k) then
    m.map (fun e => if e.1 = k then (k, v) else e)
  else m ++ [(k, v)]

/-- JavaScript `Map.get`. -/

def mapGet {α : Type} (m : List (ℕ × α)) (k : ℕ) : Option α :=
  (m.find? (fun e => e.1 = k)).map (fun e => e.2)

/-- JavaScript `Map.delete`. -/

def mapDelete {α : Type} (m : List (ℕ × α)) (k : ℕ) : List (ℕ × α) :=
  m.filter (fun e => ¬ e.1 = k)

/-- The Manhattan heuristic of `findPath`. -/

def heuristic (tox toy x y : ℕ) : ℚ :=
  ((|(x : ℤ) - (tox : ℤ)| + |(y : ℤ) - (toy : ℤ)| : ℤ) : ℚ)

/-- The terrain cost of stepping onto `(x, y)` from `(px, py)`. -/

def getCost (hm : Array ℚ) (lm forest : Array ℕ) (s : Settings) (w : ℕ)
    (x y px py : ℕ) : ℚ :=
  if nget lm (y * w + x) = 0 then s.roads.costWater
  else
    let elev := qget hm (y * w + x)
    let c1 := 1 + |elev - qget hm (py * w + px)| * s.roads.costElevation * 10
    let c2 := if s.map.seaLevel + 0.5 < elev then c1 + s.roads.costMountain else c1
    if 0 < nget forest (y * w + x) then
      c2 + s.roads.costForest * (nget forest (y * w + x) / 255 : ℚ)
    else c2

/-- The open-set scan for the node with the strictly lowest `f` (first wins on
ties, as the source's strict `<` keeps the earliest minimum in iteration
order). -/

def findLowest (open_ : List (ℕ × ANode)) : Option ℕ :=
  (open_.foldl (fun (b : Option (ℕ × ℚ)) e =>
    match b with
    | none => some (e.1, e.2.f)
    | some bf => if e.2.f < bf.2 then some (e.1, e.2.f) else some bf) none).map
    (fun bf => bf.1)

/-- Trace parent pointers through the copied node map, with fuel; the source's
loop ends as soon as a parent is missing from the copy. -/

def traceBack (pathNodes : List (ℕ × ANode)) (w : ℕ) :
    ℕ → Option ℕ → List (ℕ × ℕ) → List (ℕ × ℕ)
  | 0, _, path => path
  | _ + 1, none, path => path
  | fuel + 1, some traceIdx, path =>
    let path' := (traceIdx % w, traceIdx / w) :: path
    match mapGet pathNodes traceIdx with
    | none => path'
    | some node => traceBack pathNodes w fuel node.parent path'

/-- `perpendicularDistance` of the Ramer–Douglas–Peucker simplification. -/

def perpendicularDistance (M : MathModel) (p ls le : ℚ × ℚ) : ℚ :=
  let dx := le.1 - ls.1
  let dy := le.2 - ls.2
  let len := M.sqrt (dx * dx + dy * dy)
  if len = 0 then
    M.sqrt ((p.1 - ls.1) * (p.1 - ls.1) + (p.2 - ls.2) * (p.2 - ls.2))
  else
    |dy * p.1 - dx * p.2 + le.1 * ls.2 - le.2 * ls.1| / len

/-- `simplifyPath` (RDP, `epsilon = 2`), with fuel; each recursive call is on
a strictly shorter list, so fuel `path.length` (supplied by `findPath`)
suffices. -/

def simplifyPath (M : MathModel) : ℕ → List (ℕ × ℕ) → List (ℕ × ℕ)
  | 0, path => path
  | fuel + 1, path =>
    if path.length ≤ 2 then path
    else
      let start := path.headI
      let stop := path.getLastI
      let md := (List.range (path.length - 2)).foldl (fun (md : ℚ × ℕ) k =>
        let i := k + 1
        let q := path.getD i (0, 0)
        let dist := perpendicularDistance M ((q.1 : ℚ), (q.2 : ℚ))
          ((start.1 : ℚ), (start.2 : ℚ)) ((stop.1 : ℚ), (stop.2 : ℚ))
        if md.1 < dist then (dist, i) else md) (0, 0)
      if 2 < md.1 then
        let left := simplifyPath M fuel (path.take (md.2 + 1))
        let right := simplifyPath M fuel (path.drop md.2)
        left.dropLast ++ right
      else [start, stop]

/-- State of the A* loop. -/

structure AState where
  open_ : List (ℕ × ANode)
  closed : List ℕ

/-- The A* loop of `findPath`, with the source's own iteration bound as fuel.
When the end cell holds the minimum `f`, the source reconstructs the path from
a copy of the *open set only*, so any parent that was already expanded (and
hence removed from the open set) cuts the trace short. -/

def astarLoop (M : MathModel) (hm : Array ℚ) (lm forest : Array ℕ) (s : Settings)
    (w h : ℕ) (endIdx : ℕ) (tox toy : ℕ) :
    ℕ → AState → Option (List (ℕ × ℕ))
  | 0, _ => none
  | fuel + 1, st =>
    match findLowest st.open_ with
    | none => none
    | some currentIdx =>
      if currentIdx = endIdx then
        some (simplifyPath M
          (traceBack st.open_ w (st.open_.length + 2) (some currentIdx) []).length
          (traceBack st.open_ w (st.open_.length + 2) (some currentIdx) []))
      else
        match mapGet st.open_ currentIdx with
        | none => none
        | some current =>
          let open1 := mapDelete st.open_ currentIdx
          let closed1 := st.closed ++ [currentIdx]
          let open2 := ([-1, 0, 1] : List ℤ).foldl (fun op dy =>
            ([-1, 0, 1] : List ℤ).foldl (fun op dx =>
              if dx = 0 ∧ dy = 0 then op
              else
                let nx := (current.x : ℤ) + dx
                let ny := (current.y : ℤ) + dy
                if nx < 0 ∨ (w : ℤ) ≤ nx ∨ ny < 0 ∨ (h : ℤ) ≤ ny then op
                else
                  let nidx := ny.toNat * w + nx.toNat
                  if nidx ∈ closed1 then op
                  else
                    let g := current.g + getCost hm lm forest s w nx.toNat ny.toNat
                      current.x current.y
                    match mapGet op nidx with
                    | some existing =>
                      if existing.g ≤ g then op
                      else mapSet op nidx ⟨nx.toNat, ny.toNat, g,
                        g + heuristic tox toy nx.toNat ny.toNat, some currentIdx⟩
                    | none => mapSet op nidx ⟨nx.toNat, ny.toNat, g,
                        g + heuristic tox toy nx.toNat ny.toNat, some currentIdx⟩)
              op) open1
          astarLoop M hm lm forest s w h endIdx tox toy fuel ⟨open2, closed1⟩

/-- `findPath`: A* from one city cell to another with at most 10000
iterations. -/

def findPath (M : MathModel) (fromx fromy tox toy : ℕ) (hm : Array ℚ)
    (lm forest : Array ℕ) (s : Settings) (w h : ℕ) : Option (List (ℕ × ℕ)) :=
  astarLoop M hm lm forest s w h (toy * w + tox) tox toy 10000
    ⟨[(fromy * w + fromx, ⟨fromx, fromy, 0, heuristic tox toy fromx fromy, none⟩)], []⟩

/-- Placeholder city for indexed access. -/

def dummyCity : City := ⟨0, 0, 0, 0, CityType.town, ""⟩

/-- The distance-sorted list of unordered city pairs: the nested `i < j` loops
of the source written as a flat enumeration, then a stable sort by distance
(JavaScript's `Array.prototype.sort` is required to be stable, and Lean's
`mergeSort` is). -/

def cityPairs (M : MathModel) (cities : List City) : List (City × City × ℚ) :=
  ((List.range cities.length).flatMap (fun i =>
    (List.range (cities.length - (i + 1))).map (fun k =>
      (cities.getD i dummyCity, cities.getD (i + 1 + k) dummyCity,
        M.sqrt (((cities.getD i dummyCity).x - ((cities.getD (i + 1 + k) dummyCity).x : ℚ))
            * ((cities.getD i dummyCity).x - ((cities.getD (i + 1 + k) dummyCity).x : ℚ))
          + ((cities.getD i dummyCity).y - ((cities.getD (i + 1 + k) dummyCity).y : ℚ))
            * ((cities.getD i dummyCity).y
              - ((cities.getD (i + 1 + k) dummyCity).y : ℚ))))))).mergeSort
    (fun a b => decide (a.2.2 ≤ b.2.2))

/-- `generateRoads`: process pairs in distance order, skipping any pair with a
saturated endpoint; a found path becomes a road and increments both endpoint
connection counts. -/

def roadStep (M : MathModel) (hm : Array ℚ) (lm forest : Array ℕ)
    (s : Settings) (w h : ℕ) (st : List Road × List (ℕ × ℕ))
    (pr : City × City × ℚ) : List Road × List (ℕ × ℕ) :=
  let fromC := pr.1
  let toC := pr.2.1
  let fromConns := (mapGet st.2 fromC.id).getD 0
  let toConns := (mapGet st.2 toC.id).getD 0
  if s.roads.maxConnectionsPerCity ≤ (fromConns : ℚ)
      ∨ s.roads.maxConnectionsPerCity ≤ (toConns : ℚ) then st
  else
    match findPath M fromC.x fromC.y toC.x toC.y hm lm forest s w h with
    | some path =>
      (st.1 ++ [⟨fromC.id, toC.id, path⟩],
       mapSet (mapSet st.2 fromC.id (fromConns + 1)) toC.id (toConns + 1))
    | none => st

def generateRoads (M : MathModel) (cities : List City) (hm : Array ℚ)
    (lm forest : Array ℕ) (s : Settings) (w h : ℕ) : List Road :=
  if s.roads.enabled = false ∨ cities.length < 2 then []
  else
    ((cityPairs M cities).foldl (roadStep M hm lm forest s w h) ([], [])).1

/-- The number of roads having a given city id as an endpoint. -/

def degCount (roads : List Road) (cid : ℕ) : ℕ :=
  roads.countP (fun r => decide (r.fromCityId = cid) || decide (r.toCityId = cid))

/-! ## The orchestrator (`index.ts`) -/

/-- The generated world (`WorldData`); the source's `debug` sub-object is
flattened into the last three fields.  The progress callback of the source is
notification-only and does not influence any output. -/

structure WorldData where
  width : ℕ
  height : ℕ
  heightMap : Array ℚ
  landMask : Array ℕ
  temperature : Array ℚ
  moisture : Array ℚ
  biome : Array ℕ
  flowDir : Array ℤ
  flowAccum : Array ℚ
  rivers : Array ℕ
  forest : Array ℕ
  cities : List City
  roads : List Road
  continentId : Array ℕ
  mountainMask : Array ℕ
  lakeMask : Array ℕ
deriving Repr, DecidableEq

/-- `generateWorld`: the full pipeline, with the PRNG forks in the exact
argument-evaluation order of the source.  No validation of the settings is
performed anywhere (the source has none). -/

def generateWorld (M : MathModel) (s : Settings) : WorldData :=
  let w := s.map.width
  let h := s.map.height
  let prng := PRNG.ofString s.map.seed
  let r1 := prng.fork
  let continentSeeds := generateContinentSeeds M s r1.1
  let r2 := r1.2.fork
  let n1 := (noiseCtor r2.1).1
  let r3 := r2.2.fork
  let cm := generateContinentMask M s continentSeeds n1 r3.1
  let landMask := cm.1
  let continentId := cm.2
  let r4 := r3.2.fork
  let mountainRanges := generateMountainRanges M s landMask r4.1
  let r5 := r4.2.fork
  let n2 := (noiseCtor r5.1).1
  let r6 := r5.2.fork
  let hmm := generateHeightMap M s landMask mountainRanges n2 r6.1
  let heightMap := hmm.1
  let mountainMask := hmm.2
  let flowDir := calculateFlowDirection heightMap landMask w h
  let flowAccum := calculateFlowAccumulation flowDir landMask w h
  let rivers := generateRivers M flowAccum flowDir landMask heightMap s w h
  let lakeMask := detectLakes heightMap landMask flowDir s w h
  let waterDistance := calculateWaterDistance landMask rivers lakeMask w h
  let r7 := r6.2.fork
  let n3 := (noiseCtor r7.1).1
  let temperature := generateTemperature M heightMap landMask s w h n3
  let r8 := r7.2.fork
  let n4 := (noiseCtor r8.1).1
  let moisture := generateMoisture M heightMap landMask waterDistance s w h n4
  let biome := classifyBiomes heightMap landMask lakeMask temperature moisture s w h
  let r9 := r8.2.fork
  let n5 := (noiseCtor r9.1).1
  let forest := generateForests M biome moisture waterDistance s w h n5
  let r10 := r9.2.fork
  let cities := placeCities M heightMap landMask biome rivers s w h r10.1
  let roads := generateRoads M cities heightMap landMask forest s w h
  ⟨w, h, heightMap, landMask, temperature, moisture, biome, flowDir, flowAccum,
   rivers, forest, cities, roads, continentId, mountainMask, lakeMask⟩

/-- A concrete interpretation of the abstract `Math` functions, used to
instantiate witnesses (any fixed interpretation gives one deterministic run of
the source). -/

def M0 : MathModel := ⟨fun _ => 0, fun _ => 0, fun _ => 0, fun _ => 0, fun _ _ => 0, 0⟩

/-- A settings record violating two of the documented validity constraints at
once: `seaLevel = 3/2 ∉ (0,1)` and `continentCountMin = 5 > 2 =
continentCountMax`. -/

def invalidSettings : Settings :=
  ⟨⟨1, 1, "x", 3/2⟩,
   ⟨5, 2, 0.25, 2, 4, 0.15, 0⟩,
   ⟨2, 2, 0.5, 3, 2, 0.3, 0, 0, 0.08, 0.4, 0.5, 1⟩,
   ⟨0.5, 50, 100, true, 0, false⟩,
   ⟨0.7, 0.5, 270, 0.3, 0.5⟩,
   ⟨0.2, 0.15, 0.75, 0.05⟩,
   ⟨true, 8, 0.4, 0.6, 0.2⟩,
   ⟨true, 2, 5, 0, 0, 0⟩,
   ⟨true, 3, 2, 100, 1.5, 5⟩⟩

/-! ### The biome decision table as an ordered rule list (C9)

`biomeRules` is written from the specification's description of the
classifier: an ordered list of guarded rules — ocean, lake, beach-near-ocean,
the two high-mountain rules, then the cold/cool/temperate/warm/hot temperature
bands with their moisture thresholds — where the first matching rule wins.
`classifyCell` above is the source's nested-if chain; the theorem below shows
the two agree and that some rule always fires. -/

/-- One biome rule: a decidable guard and the biome it assigns. -/

def biomeRules (s : Settings) (lm lakeMask : Array ℕ) (w h x y : ℕ)
    (elev temp moist : ℚ) : List (Bool × ℕ) :=
  [(decide (nget lm (y * w + x) = 0), 0),
   (decide (nget lakeMask (y * w + x) = 1), 2),
   (decide ((elev - s.map.seaLevel) / (1 - s.map.seaLevel)
      < s.biomes.beachElevationRange) && nearOceanB lm w h x y, 1),
   (decide (s.biomes.mountainElevationMin
      ≤ (elev - s.map.seaLevel) / (1 - s.map.seaLevel))
      && decide (temp < s.biomes.snowTempMax * 1.5), 3),
   (decide (s.biomes.mountainElevationMin
      ≤ (elev - s.map.seaLevel) / (1 - s.map.seaLevel)), 11),
   (decide (temp < s.biomes.snowTempMax), 3),
   (decide (temp < s.biomes.snowTempMax * 2) && decide (moist < 0.3), 4),
   (decide (temp < s.biomes.snowTempMax * 2), 5),
   (decide (temp < 0.5) && decide (moist < s.biomes.desertMoistureMax), 6),
   (decide (temp < 0.5) && decide (moist < 0.5), 6),
   (decide (temp < 0.5), 7),
   (decide (temp < 0.75) && decide (moist < s.biomes.desertMoistureMax), 9),
   (decide (temp < 0.75) && decide (moist < 0.4), 10),
   (decide (temp < 0.75) && decide (moist < 0.7), 6),
   (decide (temp < 0.75), 7),
   (decide (moist < s.biomes.desertMoistureMax), 9),
   (decide (moist < 0.35), 10),
   (decide (moist < 0.6), 6),
   (true, 8)]

/-- The first rule whose guard holds. -/

def firstMatch (rules : List (Bool × ℕ)) : Option ℕ :=
  (rules.find? (fun r => r.1)).map (fun r => r.2)

/-- Concrete city settings used by witnesses: two cities, spacing 0, all
preferences 0. -/

def witnessCitySettings : Settings :=
  {DEFAULT_SETTINGS with cities := ⟨true, 2, 0, 0, 0, 0⟩}

/-! ### Road-list invariants (C8) -/

/-- Two directed id pairs name the same unordered connection. -/

def unconn (p q : ℕ × ℕ) : Prop :=
  (p.1 = q.1 ∧ p.2 = q.2) ∨ (p.1 = q.2 ∧ p.2 = q.1)

def roadWitnessCities : List City :=
  [⟨1, 0, 0, 1, CityType.capital, "A"⟩, ⟨2, 1, 0, 1, CityType.town, "B"⟩]

/-! ## Theorems -/

/-- `jsFloor` is the mathematical floor. -/

theorem jsFloor_eq_floor (q : ℚ) : jsFloor q = ⌊q⌋ := Rat.floor_def.symm

theorem size_aset {α : Type} (a : Array α) (i : ℕ) (v : α) :
    (aset a i v).size = a.size := Array.size_setD a i v

theorem getD_aset_eq {α : Type} (a : Array α) (i : ℕ) (v d : α) (h : i < a.size) :
    (aset a i v).getD i d = v := by
  unfold aset Array.setD
  simp only [h, dite_true]
  simp [Array.getD, Array.size_set, h, Array.get_set_eq]

theorem getD_aset_ne {α : Type} (a : Array α) (i j : ℕ) (v d : α) (h : i ≠ j) :
    (aset a i v).getD j d = a.getD j d := by
  unfold aset Array.setD
  split
  · next hi =>
    by_cases hj : j < a.size
    · simp only [Array.getD, Array.size_set, hj, dite_true]
      exact Array.get_set_ne a ⟨i, hi⟩ v hj h
    · simp [Array.getD, Array.size_set, hj]
  · rfl

theorem getD_aset {α : Type} (a : Array α) (i j : ℕ) (v d : α) :
    (aset a i v).getD j d = if j = i ∧ i < a.size then v else a.getD j d := by
  by_cases hij : j = i
  · subst hij
    by_cases h : j < a.size
    · simp [getD_aset_eq a j v d h, h]
    · simp [h, aset, Array.setD]
  · simp [getD_aset_ne a i j v d (fun h => hij h.symm), hij]

/-! ## General fold and grid-index lemmas -/

theorem foldl_size {α β : Type} (step : Array α → β → Array α)
    (hstep : ∀ a b, (step a b).size = a.size) :
    ∀ (l : List β) (a : Array α), (l.foldl step a).size = a.size := by
  intro l
  induction l with
  | nil => intro a; rfl
  | cons b l ih => intro a; rw [List.foldl_cons, ih, hstep]

theorem foldl_getD_untouched {α β : Type} (step : Array α → β → Array α) (j : ℕ) (d : α) :
    ∀ (l : List β), (∀ a b, b ∈ l → (step a b).getD j d = a.getD j d) →
      ∀ a, (l.foldl step a).getD j d = a.getD j d := by
  intro l
  induction l with
  | nil => intro _ a; rfl
  | cons b l ih =>
    intro hl a
    rw [List.foldl_cons, ih (fun a b hb => hl a b (List.mem_cons_of_mem _ hb)),
      hl a b (List.mem_cons_self b l)]

/-- Decode a row-major index: the two coordinates are recovered by `%`/`/`. -/

theorem idx_mod (w x y : ℕ) (hx : x < w) : (y * w + x) % w = x := by
  rw [Nat.mul_comm, Nat.add_comm, Nat.add_mul_mod_self_left, Nat.mod_eq_of_lt hx]

theorem idx_div (w x y : ℕ) (hx : x < w) : (y * w + x) / w = y := by
  rw [Nat.mul_comm, Nat.add_comm, Nat.add_mul_div_left _ _ (by omega : 0 < w),
    Nat.div_eq_of_lt hx, Nat.zero_add]

theorem idx_inj {w x y x' y' : ℕ} (hx : x < w) (hx' : x' < w)
    (hyx : y * w + x = y' * w + x') : y = y' ∧ x = x' := by
  have h1 : (y * w + x) % w = (y' * w + x') % w := by rw [hyx]
  have h2 : (y * w + x) / w = (y' * w + x') / w := by rw [hyx]
  rw [idx_mod w x y hx, idx_mod w x' y' hx'] at h1
  rw [idx_div w x y hx, idx_div w x' y' hx'] at h2
  exact ⟨h2, h1⟩

theorem idx_lt {w h x y : ℕ} (hx : x < w) (hy : y < h) : y * w + x < w * h := by
  calc y * w + x < y * w + w := by omega
  _ = (y + 1) * w := by ring
  _ ≤ h * w := Nat.mul_le_mul_right w hy
  _ = w * h := Nat.mul_comm h w

theorem foldl_inv {α β : Type} (P : α → Prop) (step : α → β → α) :
    ∀ (l : List β), (∀ a b, b ∈ l → P a → P (step a b)) → ∀ a, P a → P (l.foldl step a) := by
  intro l
  induction l with
  | nil => intro _ a ha; exact ha
  | cons b l ih =>
    intro hl a ha
    exact ih (fun a b hb => hl a b (List.mem_cons_of_mem _ hb)) _
      (hl a b (List.mem_cons_self b l) ha)

theorem getD_mkArray {α : Type} (n : ℕ) (v d : α) (i : ℕ) :
    (Array.mkArray n v).getD i d = if i < n then v else d := by
  by_cases h : i < n
  · simp [Array.getD, Array.size_mkArray, h, Array.getElem_mkArray]
  · simp [Array.getD, Array.size_mkArray, h]

/-- Characterisation of a row-major double fold over the grid: provided each
cell body writes only its own cell (as a function `V` of the cell's previous
content), the final content of cell `(x, y)` is `V x y` of its initial
content. -/

theorem gridFold_getD {α : Type} (d : α) (w h n : ℕ) (f : Array α → ℕ → ℕ → Array α)
    (V : ℕ → ℕ → α → α) (a₀ : Array α) (hn : a₀.size = n)
    (hsz : ∀ a x y, (f a x y).size = a.size)
    (hloc : ∀ a x y j, j ≠ y * w + x → (f a x y).getD j d = a.getD j d)
    (hval : ∀ a x y, a.size = n → x < w → y < h →
      (f a x y).getD (y * w + x) d = V x y (a.getD (y * w + x) d))
    {x y : ℕ} (hx : x < w) (hy : y < h) :
    ((List.range h).foldl (fun a y => (List.range w).foldl (fun a x => f a x y) a) a₀).getD
        (y * w + x) d = V x y (a₀.getD (y * w + x) d) := by
  have hrowsize : ∀ (y : ℕ) (a : Array α),
      ((List.range w).foldl (fun a x => f a x y) a).size = a.size := fun y a =>
    foldl_size _ (fun a x => hsz a x y) _ a
  -- a row with index different from y never touches cell (x, y)
  have hrowloc : ∀ (y' : ℕ), y' ≠ y → ∀ (a : Array α),
      ((List.range w).foldl (fun a x => f a x y') a).getD (y * w + x) d = a.getD (y * w + x) d := by
    intro y' hne a
    refine foldl_getD_untouched _ _ _ _ ?_ a
    intro a' x' hx'
    refine hloc a' x' y' _ fun hcontra => ?_
    exact hne ((idx_inj hx (List.mem_range.mp hx') hcontra).1).symm
  -- the value of cell (x, y) after processing row y
  have hrow : ∀ (a : Array α), a.size = n →
      ((List.range w).foldl (fun a x => f a x y) a).getD (y * w + x) d
        = V x y (a.getD (y * w + x) d) := by
    intro a ha
    have main : ∀ m : ℕ,
        ((List.range m).foldl (fun a x => f a x y) a).getD (y * w + x) d
          = if x < m then V x y (a.getD (y * w + x) d) else a.getD (y * w + x) d := by
      intro m
      induction m with
      | zero => simp
      | succ m ih =>
        rw [List.range_succ, List.foldl_append, List.foldl_cons, List.foldl_nil]
        have hAsize : ((List.range m).foldl (fun a x => f a x y) a).size = n := by
          rw [foldl_size _ (fun a x => hsz a x y) _ a, ha]
        by_cases hxm : x = m
        · subst hxm
          rw [hval _ x y hAsize hx hy, ih, if_neg (lt_irrefl x), if_pos (Nat.lt_succ_self x)]
        · rw [hloc _ m y _ (fun hc => hxm (by omega)), ih]
          by_cases hxlt : x < m
          · rw [if_pos hxlt, if_pos (by omega)]
          · rw [if_neg hxlt, if_neg (by omega)]
    rw [main w, if_pos hx]
  -- outer fold over the rows
  have outer : ∀ k : ℕ, k ≤ h →
      ((List.range k).foldl (fun a y => (List.range w).foldl (fun a x => f a x y) a) a₀).getD
          (y * w + x) d
        = if y < k then V x y (a₀.getD (y * w + x) d) else a₀.getD (y * w + x) d := by
    intro k
    induction k with
    | zero => intro _; simp
    | succ k ih =>
      intro hk
      rw [List.range_succ, List.foldl_append, List.foldl_cons, List.foldl_nil]
      have hAsize :
          ((List.range k).foldl
            (fun a y => (List.range w).foldl (fun a x => f a x y) a) a₀).size = n := by
        rw [foldl_size _ (fun a b => hrowsize b a) _ a₀, hn]
      by_cases hyk : y = k
      · subst hyk
        rw [hrow _ hAsize, ih (by omega), if_neg (lt_irrefl y), if_pos (Nat.lt_succ_self y)]
      · rw [hrowloc k (fun hc => hyk hc.symm) _, ih (by omega)]
        by_cases hylt : y < k
        · rw [if_pos hylt, if_pos (by omega)]
        · rw [if_neg hylt, if_neg (by omega)]
  rw [outer h le_rfl, if_pos hy]

theorem accAux_ge_one (fd : Array ℤ) (lm : Array ℕ) (w h : ℕ) :
    ∀ f c, 1 ≤ accAux fd lm w h f c := by
  intro f
  induction f with
  | zero => intro c; simp [accAux]
  | succ f ih =>
    intro c
    have : (0:ℚ) ≤ ∑ i ∈ predSet fd lm w h c, accAux fd lm w h f i :=
      Finset.sum_nonneg fun i _ => le_trans zero_le_one (ih i)
    simp only [accAux]
    linarith

/-- A followed flow direction stays inside the grid. -/

theorem flowTarget_lt {fd : Array ℤ} {w h i t : ℕ}
    (ht : flowTarget fd w h i = some t) : t < w * h := by
  unfold flowTarget at ht
  split at ht
  · split at ht
    · next hg =>
      obtain ⟨h1, h2, h3, h4⟩ := hg
      injection ht with ht
      subst ht
      exact idx_lt (by omega) (by omega)
    · cases ht
  · cases ht

theorem SQRT2_pos : (0 : ℚ) < SQRT2 := by unfold SQRT2; norm_num

theorem stepLen_pos (d : ℕ) : 0 < stepLen d := by
  unfold stepLen
  split
  · norm_num
  · exact SQRT2_pos

/-- The fold inside `steepestDir` either keeps the sentinel `(-1, 0)` or holds
a strictly positive slope toward an in-bounds, strictly lower neighbour. -/

theorem steepestDir_spec (hm : Array ℚ) (w h x y : ℕ) :
    steepestDir hm w h x y = -1 ∨
    ∃ d : ℕ, d < 8 ∧ steepestDir hm w h x y = (d : ℤ) ∧
      inGrid w h ((x : ℤ) + dxAt d) ((y : ℤ) + dyAt d) ∧
      qget hm ((((y : ℤ) + dyAt d).toNat) * w + (((x : ℤ) + dxAt d).toNat))
        < qget hm (y * w + x) := by
  unfold steepestDir
  have key := foldl_inv (fun (st : ℤ × ℚ) =>
      st = (-1, 0) ∨
      ∃ d : ℕ, d < 8 ∧ st.1 = (d : ℤ) ∧
        inGrid w h ((x : ℤ) + dxAt d) ((y : ℤ) + dyAt d) ∧
        0 < st.2 ∧
        st.2 = (qget hm (y * w + x)
          - qget hm ((((y : ℤ) + dyAt d).toNat) * w + (((x : ℤ) + dxAt d).toNat))) / stepLen d)
    (fun st d =>
      if inGrid w h ((x : ℤ) + dxAt d) ((y : ℤ) + dyAt d) then
        if st.2 < (qget hm (y * w + x)
            - qget hm ((((y : ℤ) + dyAt d).toNat) * w + (((x : ℤ) + dxAt d).toNat)))
              / stepLen d then
          ((d : ℤ), (qget hm (y * w + x)
            - qget hm ((((y : ℤ) + dyAt d).toNat) * w + (((x : ℤ) + dxAt d).toNat)))
              / stepLen d)
        else st
      else st)
    (List.range 8) ?_ (-1, 0) (Or.inl rfl)
  · rcases key with hk | ⟨d, hd8, hd1, hgrid, hpos, hslope⟩
    · left
      rw [hk]
    · right
      refine ⟨d, hd8, hd1, hgrid, ?_⟩
      have hsl : 0 < (qget hm (y * w + x)
          - qget hm ((((y : ℤ) + dyAt d).toNat) * w + (((x : ℤ) + dxAt d).toNat)))
            / stepLen d := hslope ▸ hpos
      have := (div_pos_iff.mp hsl)
      rcases this with ⟨hnum, _⟩ | ⟨_, hden⟩
      · linarith
      · exact absurd (stepLen_pos d) (by linarith)
  · intro st d hd hst
    dsimp only
    split
    · next hgrid =>
      split
      · next hlt =>
        right
        refine ⟨d, List.mem_range.mp hd, rfl, hgrid, ?_, rfl⟩
        rcases hst with h0 | ⟨_, _, _, _, hpos, _⟩
        · rw [h0] at hlt
          exact hlt
        · exact lt_trans hpos hlt
      · exact hst
    · exact hst

/-- The value `calculateFlowDirection` stores at an in-range cell. -/

theorem zget_calcFD (hm : Array ℚ) (lm : Array ℕ) (w h : ℕ) {x y : ℕ}
    (hx : x < w) (hy : y < h) :
    zget (calculateFlowDirection hm lm w h) (y * w + x)
      = if nget lm (y * w + x) = 0 then -1 else steepestDir hm w h x y := by
  unfold calculateFlowDirection zget
  rw [gridFold_getD 0 w h (w * h)
    (fun fd x y => if nget lm (y * w + x) = 0 then fd else aset fd (y * w + x) (steepestDir hm w h x y))
    (fun x y old => if nget lm (y * w + x) = 0 then old else steepestDir hm w h x y)
    (Array.mkArray (w * h) (-1)) (Array.size_mkArray _ _) ?_ ?_ ?_ hx hy]
  · rw [getD_mkArray, if_pos (idx_lt hx hy)]
  · intro a x y
    dsimp only
    split
    · rfl
    · exact size_aset a _ _
  · intro a x y j hj
    dsimp only
    split
    · rfl
    · exact getD_aset_ne a _ j _ 0 (fun hc => hj hc.symm)
  · intro a x y ha hxw hyh
    dsimp only
    split
    · rfl
    · exact getD_aset_eq a _ _ 0 (by rw [ha]; exact idx_lt hxw hyh)

theorem size_calcFD (hm : Array ℚ) (lm : Array ℕ) (w h : ℕ) :
    (calculateFlowDirection hm lm w h).size = w * h := by
  unfold calculateFlowDirection
  rw [foldl_size, Array.size_mkArray]
  intro a y
  rw [foldl_size]
  intro a x
  split
  · rfl
  · exact size_aset a _ _

/-- Flow always runs strictly downhill: wherever
`calculateFlowAccumulation` would follow a direction computed by
`calculateFlowDirection`, the receiving cell is strictly lower. -/

theorem flowTarget_downhill (hm : Array ℚ) (lm : Array ℕ) (w h : ℕ) {i t : ℕ}
    (hi : i < w * h)
    (ht : flowTarget (calculateFlowDirection hm lm w h) w h i = some t) :
    qget hm t < qget hm i := by
  set fd := calculateFlowDirection hm lm w h with hfd
  unfold flowTarget at ht
  split at ht
  case isFalse => cases ht
  case isTrue hdir =>
    split at ht
    case isFalse => cases ht
    case isTrue hgrid =>
      injection ht with ht
      have hxw : i % w < w := by
        rcases Nat.eq_zero_or_pos w with hw | hw
        · subst hw; omega
        · exact Nat.mod_lt i hw
      have hyh : i / w < h := by
        rcases Nat.eq_zero_or_pos w with hw | hw
        · subst hw; omega
        · exact Nat.div_lt_of_lt_mul (by omega)
      have hi_eq : i / w * w + i % w = i := by
        rw [Nat.mul_comm, Nat.div_add_mod]
      have hfdi := zget_calcFD hm lm w h hxw hyh
      rw [hi_eq] at hfdi
      rw [← hfd] at hfdi
      by_cases hlm : nget lm i = 0
      · rw [if_pos hlm] at hfdi
        rw [hfdi] at hdir
        omega
      · rw [if_neg hlm] at hfdi
        rcases steepestDir_spec hm w h (i % w) (i / w) with hneg | ⟨d, hd8, hd1, hgrid', hlt⟩
        · rw [hfdi, hneg] at hdir
          omega
        · rw [hfdi, hd1, Int.toNat_natCast] at ht
          rw [hi_eq] at hlt
          rw [← ht]
          exact hlt

theorem mem_predSet {fd : Array ℤ} {lm : Array ℕ} {w h i c : ℕ} :
    i ∈ predSet fd lm w h c ↔
      i < w * h ∧ nget lm i = 1 ∧ flowTarget fd w h i = some c := by
  simp [predSet, Finset.mem_filter, Finset.mem_range, and_assoc]

theorem hrank_le (hm : Array ℚ) (w h c : ℕ) : hrank hm w h c ≤ w * h := by
  calc hrank hm w h c ≤ (Finset.range (w * h)).card := Finset.card_filter_le _ _
  _ = w * h := Finset.card_range _

section Conservation

variable {fd : Array ℤ} {lm : Array ℕ} {hm : Array ℚ} {w h : ℕ}

theorem hrank_pred_lt (DH : DownhillPred fd lm hm w h) {i c : ℕ}
    (hi : i ∈ predSet fd lm w h c) : hrank hm w h i < hrank hm w h c := by
  apply Finset.card_lt_card
  constructor
  · intro j hj
    rw [Finset.mem_filter] at hj ⊢
    exact ⟨hj.1, lt_trans (DH c i hi) hj.2⟩
  · intro hsub
    have himem : i ∈ (Finset.range (w * h)).filter (fun j => qget hm c < qget hm j) := by
      rw [Finset.mem_filter, Finset.mem_range]
      exact ⟨(mem_predSet.mp hi).1, DH c i hi⟩
    have := hsub himem
    rw [Finset.mem_filter] at this
    exact lt_irrefl _ this.2

theorem accAux_stab (DH : DownhillPred fd lm hm w h) :
    ∀ (r c : ℕ), hrank hm w h c = r → ∀ f g : ℕ, r ≤ f → r ≤ g →
      accAux fd lm w h f c = accAux fd lm w h g c := by
  intro r
  induction r using Nat.strong_induction_on with
  | _ r IH =>
    intro c hr f g hf hg
    rcases Finset.eq_empty_or_nonempty (predSet fd lm w h c) with hemp | ⟨i0, hi0⟩
    · -- no predecessors: the value is 1 at every fuel
      have hval : ∀ k, accAux fd lm w h k c = 1 := by
        intro k
        cases k with
        | zero => rfl
        | succ k => simp [accAux, hemp]
      rw [hval f, hval g]
    · -- some predecessor exists, so the rank is at least 1 and both fuels unfold
      have hrpos : 1 ≤ r := by
        rw [← hr]
        have : i0 ∈ (Finset.range (w * h)).filter (fun j => qget hm c < qget hm j) := by
          rw [Finset.mem_filter, Finset.mem_range]
          exact ⟨(mem_predSet.mp hi0).1, DH c i0 hi0⟩
        exact Finset.card_pos.mpr ⟨i0, this⟩
      obtain ⟨f', rfl⟩ : ∃ f', f = f' + 1 := ⟨f - 1, by omega⟩
      obtain ⟨g', rfl⟩ : ∃ g', g = g' + 1 := ⟨g - 1, by omega⟩
      simp only [accAux]
      congr 1
      apply Finset.sum_congr rfl
      intro i hi
      have hlt := hrank_pred_lt DH hi
      rw [hr] at hlt
      exact IH _ hlt i rfl f' g' (by omega) (by omega)

/-- The reference accumulation satisfies the drainage recurrence. -/

theorem specAcc_eq (DH : DownhillPred fd lm hm w h) (c : ℕ) :
    specAcc fd lm w h c = 1 + ∑ i ∈ predSet fd lm w h c, specAcc fd lm w h i := by
  rcases Finset.eq_empty_or_nonempty (predSet fd lm w h c) with hemp | ⟨i0, hi0⟩
  · unfold specAcc
    cases hwh : w * h with
    | zero => simp [accAux, hemp]
    | succ k => simp [accAux, hemp]
  · have hpos : 0 < w * h := by
      have := (mem_predSet.mp hi0).1
      omega
    obtain ⟨k, hk⟩ : ∃ k, w * h = k + 1 := ⟨w * h - 1, by omega⟩
    unfold specAcc
    rw [hk]
    simp only [accAux]
    congr 1
    apply Finset.sum_congr rfl
    intro i hi
    have h1 : hrank hm w h i < hrank hm w h c := hrank_pred_lt DH hi
    have h2 : hrank hm w h c ≤ w * h := hrank_le hm w h c
    exact accAux_stab DH _ i rfl k (k + 1) (by omega) (by omega)

theorem specAcc_ge_one (fd : Array ℤ) (lm : Array ℕ) (w h c : ℕ) :
    1 ≤ specAcc fd lm w h c := accAux_ge_one fd lm w h _ c

end Conservation

/-- Processing the front cell of the queue preserves the invariant, with the
processed set growing by that cell. -/

theorem kinv_step {fd : Array ℤ} {lm : Array ℕ} {hm : Array ℚ} {w h : ℕ}
    (DH : DownhillPred fd lm hm w h)
    {S : Finset ℕ} {acc : Array ℚ} {deg : Array ℤ} {i : ℕ} {rest : List ℕ}
    (hinv : KInv fd lm w h S ⟨acc, deg, i :: rest⟩) :
    KInv fd lm w h (insert i S) (kstep fd lm w h i ⟨acc, deg, rest⟩) := by
  obtain ⟨accsize, degsize, ssub, qsub, qnodup, qdisj, sdone, rdy, dval, k4, aval⟩ := hinv
  have hiq : i ∈ i :: rest := List.mem_cons_self i rest
  have hiwh : i < w * h := (qsub i hiq).1
  have hiland : nget lm i = 1 := (qsub i hiq).2
  have hiS : i ∉ S := qdisj i hiq
  have hirest : i ∉ rest := (List.nodup_cons.mp qnodup).1
  have restnodup : rest.Nodup := (List.nodup_cons.mp qnodup).2
  cases htgt : flowTarget fd w h i with
  | none =>
    have hnopred : ∀ c, i ∉ predSet fd lm w h c := by
      intro c hc
      rw [mem_predSet, htgt] at hc
      cases hc.2.2
    have hfilt : ∀ c, (predSet fd lm w h c).filter (fun j => j ∉ insert i S)
        = (predSet fd lm w h c).filter (fun j => j ∉ S) := by
      intro c
      apply Finset.filter_congr
      intro j hj
      have hji : j ≠ i := fun hcontra => hnopred c (hcontra ▸ hj)
      simp [Finset.mem_insert, hji]
    have hfilt2 : ∀ c, (predSet fd lm w h c).filter (fun j => j ∈ insert i S)
        = (predSet fd lm w h c).filter (fun j => j ∈ S) := by
      intro c
      apply Finset.filter_congr
      intro j hj
      have hji : j ≠ i := fun hcontra => hnopred c (hcontra ▸ hj)
      simp [Finset.mem_insert, hji]
    simp only [kstep, htgt]
    refine ⟨accsize, degsize, ?_, ?_, restnodup, ?_, ?_, ?_, ?_, ?_, ?_⟩
    · intro j hj
      rcases Finset.mem_insert.mp hj with hj | hj
      · exact hj ▸ ⟨hiwh, hiland⟩
      · exact ssub j hj
    · exact fun j hj => qsub j (List.mem_cons_of_mem _ hj)
    · intro j hj
      rw [Finset.mem_insert]
      push_neg
      exact ⟨fun hcontra => hirest (hcontra ▸ hj), qdisj j (List.mem_cons_of_mem _ hj)⟩
    · intro c hc j hj
      rcases Finset.mem_insert.mp hc with hc | hc
      · exact Finset.mem_insert_of_mem (rdy i hiq j (hc ▸ hj))
      · exact Finset.mem_insert_of_mem (sdone c hc j hj)
    · exact fun c hc j hj =>
        Finset.mem_insert_of_mem (rdy c (List.mem_cons_of_mem _ hc) j hj)
    · intro t
      rw [hfilt t]
      exact dval t
    · intro c hcwh hcland hcS hcq
      obtain ⟨p, hp, hpS⟩ := k4 c hcwh hcland (fun hcontra => hcS (Finset.mem_insert_of_mem hcontra))
        (by
          intro hcontra
          rcases List.mem_cons.mp hcontra with hcontra | hcontra
          · exact hcS (hcontra ▸ Finset.mem_insert_self i S)
          · exact hcq hcontra)
      refine ⟨p, hp, ?_⟩
      rw [Finset.mem_insert]
      push_neg
      exact ⟨fun hcontra => hnopred c (hcontra ▸ hp), hpS⟩
    · intro c hc
      rw [hfilt2 c]
      exact aval c hc
  | some t =>
    have hit : i ∈ predSet fd lm w h t := mem_predSet.mpr ⟨hiwh, hiland, htgt⟩
    have htwh : t < w * h := flowTarget_lt htgt
    have hti : t ≠ i := by
      intro hcontra
      exact lt_irrefl _ (hcontra ▸ DH t i hit)
    have hmempred : ∀ c j, j ∈ predSet fd lm w h c → j = i → c = t := by
      intro c j hj hji
      subst hji
      rw [mem_predSet, htgt] at hj
      injection hj.2.2 with hcz
      exact hcz.symm
    -- the set of unprocessed predecessors of t, before this step
    have hiA : i ∈ (predSet fd lm w h t).filter (fun j => j ∉ S) :=
      Finset.mem_filter.mpr ⟨hit, hiS⟩
    have hcardpos : 0 < ((predSet fd lm w h t).filter (fun j => j ∉ S)).card :=
      Finset.card_pos.mpr ⟨i, hiA⟩
    have herase : (predSet fd lm w h t).filter (fun j => j ∉ insert i S)
        = ((predSet fd lm w h t).filter (fun j => j ∉ S)).erase i := by
      ext j
      rw [Finset.mem_erase, Finset.mem_filter, Finset.mem_filter, Finset.mem_insert]
      constructor
      · intro ⟨hj1, hj2⟩
        push_neg at hj2
        exact ⟨hj2.1, hj1, hj2.2⟩
      · intro ⟨hj1, hj2, hj3⟩
        refine ⟨hj2, ?_⟩
        push_neg
        exact ⟨hj1, hj3⟩
    have hfiltne : ∀ c, c ≠ t → (predSet fd lm w h c).filter (fun j => j ∉ insert i S)
        = (predSet fd lm w h c).filter (fun j => j ∉ S) := by
      intro c hc
      apply Finset.filter_congr
      intro j hj
      have hji : j ≠ i := fun hcontra => hc (hmempred c j hj hcontra)
      simp [Finset.mem_insert, hji]
    have hfiltne2 : ∀ c, c ≠ t → (predSet fd lm w h c).filter (fun j => j ∈ insert i S)
        = (predSet fd lm w h c).filter (fun j => j ∈ S) := by
      intro c hc
      apply Finset.filter_congr
      intro j hj
      have hji : j ≠ i := fun hcontra => hc (hmempred c j hj hcontra)
      simp [Finset.mem_insert, hji]
    have hdegt : zget (aset deg t (zget deg t - 1)) t = zget deg t - 1 := by
      unfold zget
      rw [getD_aset, if_pos ⟨rfl, by rw [degsize]; exact htwh⟩]
    have hdegother : ∀ c, c ≠ t → zget (aset deg t (zget deg t - 1)) c = zget deg c := by
      intro c hc
      unfold zget
      rw [getD_aset, if_neg (fun hcontra => hc hcontra.1)]
    -- whether t is pushed is decided by its new in-degree and land flag
    simp only [kstep, htgt]
    by_cases hpush : zget (aset deg t (zget deg t - 1)) t = 0 ∧ nget lm t = 1
    case pos =>
      -- i was t's last unprocessed predecessor
      have hA1 : ((predSet fd lm w h t).filter (fun j => j ∉ S)).card = 1 := by
        have := hpush.1
        rw [hdegt, dval t] at this
        omega
      have hAsingleton : (predSet fd lm w h t).filter (fun j => j ∉ S) = {i} := by
        obtain ⟨a, ha⟩ := Finset.card_eq_one.mp hA1
        rw [ha] at hiA ⊢
        rw [Finset.mem_singleton] at hiA
        rw [hiA]
      have hpredt : ∀ j ∈ predSet fd lm w h t, j ∈ insert i S := by
        intro j hj
        by_cases hjS : j ∈ S
        · exact Finset.mem_insert_of_mem hjS
        · have : j ∈ (predSet fd lm w h t).filter (fun j => j ∉ S) :=
            Finset.mem_filter.mpr ⟨hj, hjS⟩
          rw [hAsingleton, Finset.mem_singleton] at this
          exact this ▸ Finset.mem_insert_self i S
      have htnotrest : t ∉ rest := by
        intro hcontra
        exact hiS (rdy t (List.mem_cons_of_mem _ hcontra) i hit)
      have htnotS : t ∉ S := by
        intro hcontra
        exact hiS (sdone t hcontra i hit)
      rw [if_pos hpush]
      refine ⟨by rw [size_aset]; exact accsize, by rw [size_aset]; exact degsize,
        ?_, ?_, ?_, ?_, ?_, ?_, ?_, ?_, ?_⟩
      · intro j hj
        rcases Finset.mem_insert.mp hj with hj | hj
        · exact hj ▸ ⟨hiwh, hiland⟩
        · exact ssub j hj
      · intro j hj
        rcases List.mem_append.mp hj with hj | hj
        · exact qsub j (List.mem_cons_of_mem _ hj)
        · rw [List.mem_singleton] at hj
          exact hj ▸ ⟨htwh, hpush.2⟩
      · rw [List.nodup_append]
        exact ⟨restnodup, List.nodup_singleton t,
          by intro a ha hb; rw [List.mem_singleton] at hb; exact htnotrest (hb ▸ ha)⟩
      · intro j hj
        rcases List.mem_append.mp hj with hj | hj
        · rw [Finset.mem_insert]
          push_neg
          exact ⟨fun hcontra => hirest (hcontra ▸ hj), qdisj j (List.mem_cons_of_mem _ hj)⟩
        · rw [List.mem_singleton] at hj
          subst hj
          rw [Finset.mem_insert]
          push_neg
          exact ⟨hti, htnotS⟩
      · intro c hc j hj
        rcases Finset.mem_insert.mp hc with hc | hc
        · exact Finset.mem_insert_of_mem (rdy i hiq j (hc ▸ hj))
        · exact Finset.mem_insert_of_mem (sdone c hc j hj)
      · intro c hc j hj
        rcases List.mem_append.mp hc with hc | hc
        · exact Finset.mem_insert_of_mem (rdy c (List.mem_cons_of_mem _ hc) j hj)
        · rw [List.mem_singleton] at hc
          subst hc
          exact hpredt j hj
      · intro c
        by_cases hct : c = t
        · subst hct
          rw [hdegt, dval c, herase, Finset.card_erase_of_mem hiA]
          have := hcardpos
          push_cast [Nat.cast_sub (by omega : 1 ≤ ((predSet fd lm w h c).filter (fun j => j ∉ S)).card)]
          ring
        · rw [hdegother c hct, dval c, hfiltne c hct]
      · intro c hcwh hcland hcS hcq
        have hcnq : c ∉ i :: rest := by
          intro hcontra
          rcases List.mem_cons.mp hcontra with hcontra | hcontra
          · exact hcS (hcontra ▸ Finset.mem_insert_self i S)
          · exact hcq (List.mem_append_left _ hcontra)
        obtain ⟨p, hp, hpS⟩ := k4 c hcwh hcland
          (fun hcontra => hcS (Finset.mem_insert_of_mem hcontra)) hcnq
        have hct : c ≠ t := by
          intro hcontra
          exact hcq (List.mem_append_right _ (hcontra ▸ List.mem_singleton_self t))
        refine ⟨p, hp, ?_⟩
        rw [Finset.mem_insert]
        push_neg
        exact ⟨fun hcontra => hct (hmempred c p hp hcontra), hpS⟩
      · intro c hcwh
        by_cases hct : c = t
        · subst hct
          unfold qget
          rw [getD_aset, if_pos ⟨rfl, by rw [accsize]; exact htwh⟩]
          have hacci : qget acc i = specAcc fd lm w h i := by
            rw [aval i hiwh,
              Finset.filter_true_of_mem (fun j hj => rdy i hiq j hj),
              ← specAcc_eq DH i]
          have hinsert : (predSet fd lm w h c).filter (fun j => j ∈ insert i S)
              = insert i ((predSet fd lm w h c).filter (fun j => j ∈ S)) := by
            ext j
            rw [Finset.mem_insert, Finset.mem_filter, Finset.mem_filter, Finset.mem_insert]
            constructor
            · intro ⟨hj1, hj2⟩
              rcases hj2 with hj2 | hj2
              · exact Or.inl hj2
              · exact Or.inr ⟨hj1, hj2⟩
            · intro hj
              rcases hj with hj | ⟨hj1, hj2⟩
              · exact ⟨hj ▸ hit, Or.inl hj⟩
              · exact ⟨hj1, Or.inr hj2⟩
          rw [hinsert, Finset.sum_insert (fun hcontra =>
            hiS (Finset.mem_filter.mp hcontra).2)]
          show qget acc c + qget acc i = _
          rw [aval c hcwh, hacci]
          ring
        · unfold qget
          rw [getD_aset, if_neg (fun hcontra => hct hcontra.1), hfiltne2 c hct]
          exact aval c hcwh
    case neg =>
      -- t still waits for other predecessors; the queue is unchanged
      rw [if_neg hpush]
      refine ⟨by rw [size_aset]; exact accsize, by rw [size_aset]; exact degsize,
        ?_, ?_, restnodup, ?_, ?_, ?_, ?_, ?_, ?_⟩
      · intro j hj
        rcases Finset.mem_insert.mp hj with hj | hj
        · exact hj ▸ ⟨hiwh, hiland⟩
        · exact ssub j hj
      · exact fun j hj => qsub j (List.mem_cons_of_mem _ hj)
      · intro j hj
        rw [Finset.mem_insert]
        push_neg
        exact ⟨fun hcontra => hirest (hcontra ▸ hj), qdisj j (List.mem_cons_of_mem _ hj)⟩
      · intro c hc j hj
        rcases Finset.mem_insert.mp hc with hc | hc
        · exact Finset.mem_insert_of_mem (rdy i hiq j (hc ▸ hj))
        · exact Finset.mem_insert_of_mem (sdone c hc j hj)
      · exact fun c hc j hj =>
          Finset.mem_insert_of_mem (rdy c (List.mem_cons_of_mem _ hc) j hj)
      · intro c
        by_cases hct : c = t
        · subst hct
          rw [hdegt, dval c, herase, Finset.card_erase_of_mem hiA]
          have := hcardpos
          push_cast [Nat.cast_sub (by omega : 1 ≤ ((predSet fd lm w h c).filter (fun j => j ∉ S)).card)]
          ring
        · rw [hdegother c hct, dval c, hfiltne c hct]
      · intro c hcwh hcland hcS hcq
        have hcnq : c ∉ i :: rest := by
          intro hcontra
          rcases List.mem_cons.mp hcontra with hcontra | hcontra
          · exact hcS (hcontra ▸ Finset.mem_insert_self i S)
          · exact hcq hcontra
        obtain ⟨p, hp, hpS⟩ := k4 c hcwh hcland
          (fun hcontra => hcS (Finset.mem_insert_of_mem hcontra)) hcnq
        by_cases hpi : p = i
        · -- i was c's witness, so c = t; t was not pushed, so other
          -- predecessors remain
          have hct : c = t := hmempred c p hp hpi
          subst hct
          have hland : nget lm c = 1 := hcland
          have hdegne : zget (aset deg c (zget deg c - 1)) c ≠ 0 := by
            intro hcontra
            exact hpush ⟨hcontra, hland⟩
          rw [hdegt, dval c] at hdegne
          have hcard2 : 2 ≤ ((predSet fd lm w h c).filter (fun j => j ∉ S)).card := by
            omega
          have : 0 < (((predSet fd lm w h c).filter (fun j => j ∉ S)).erase i).card := by
            rw [Finset.card_erase_of_mem hiA]
            omega
          obtain ⟨p', hp'⟩ := Finset.card_pos.mp this
          rw [Finset.mem_erase, Finset.mem_filter] at hp'
          refine ⟨p', hp'.2.1, ?_⟩
          rw [Finset.mem_insert]
          push_neg
          exact ⟨hp'.1, hp'.2.2⟩
        · refine ⟨p, hp, ?_⟩
          rw [Finset.mem_insert]
          push_neg
          exact ⟨hpi, hpS⟩
      · intro c hcwh
        by_cases hct : c = t
        · subst hct
          unfold qget
          rw [getD_aset, if_pos ⟨rfl, by rw [accsize]; exact htwh⟩]
          have hacci : qget acc i = specAcc fd lm w h i := by
            rw [aval i hiwh,
              Finset.filter_true_of_mem (fun j hj => rdy i hiq j hj),
              ← specAcc_eq DH i]
          have hinsert : (predSet fd lm w h c).filter (fun j => j ∈ insert i S)
              = insert i ((predSet fd lm w h c).filter (fun j => j ∈ S)) := by
            ext j
            rw [Finset.mem_insert, Finset.mem_filter, Finset.mem_filter, Finset.mem_insert]
            constructor
            · intro ⟨hj1, hj2⟩
              rcases hj2 with hj2 | hj2
              · exact Or.inl hj2
              · exact Or.inr ⟨hj1, hj2⟩
            · intro hj
              rcases hj with hj | ⟨hj1, hj2⟩
              · exact ⟨hj ▸ hit, Or.inl hj⟩
              · exact ⟨hj1, Or.inr hj2⟩
          rw [hinsert, Finset.sum_insert (fun hcontra =>
            hiS (Finset.mem_filter.mp hcontra).2)]
          show qget acc c + qget acc i = _
          rw [aval c hcwh, hacci]
          ring
        · unfold qget
          rw [getD_aset, if_neg (fun hcontra => hct hcontra.1), hfiltne2 c hct]
          exact aval c hcwh

theorem kmeasure_step {fd : Array ℤ} {lm : Array ℕ} {w h : ℕ}
    {S : Finset ℕ} {acc : Array ℚ} {deg : Array ℤ} {i : ℕ} {rest : List ℕ}
    (hinv : KInv fd lm w h S ⟨acc, deg, i :: rest⟩) :
    kmeasure fd lm w h (insert i S) (kstep fd lm w h i ⟨acc, deg, rest⟩)
      < kmeasure fd lm w h S ⟨acc, deg, i :: rest⟩ := by
  obtain ⟨accsize, degsize, ssub, qsub, qnodup, qdisj, sdone, rdy, dval, k4, aval⟩ := hinv
  have hiq : i ∈ i :: rest := List.mem_cons_self i rest
  have hiwh : i < w * h := (qsub i hiq).1
  have hiland : nget lm i = 1 := (qsub i hiq).2
  have hiS : i ∉ S := qdisj i hiq
  cases htgt : flowTarget fd w h i with
  | none =>
    have hnopred : ∀ c, i ∉ predSet fd lm w h c := by
      intro c hc
      rw [mem_predSet, htgt] at hc
      cases hc.2.2
    have hfilt : ∀ c, (predSet fd lm w h c).filter (fun j => j ∉ insert i S)
        = (predSet fd lm w h c).filter (fun j => j ∉ S) := by
      intro c
      apply Finset.filter_congr
      intro j hj
      have hji : j ≠ i := fun hcontra => hnopred c (hcontra ▸ hj)
      simp [Finset.mem_insert, hji]
    simp only [kmeasure, kstep, htgt]
    have : ∀ t ∈ Finset.range (w * h),
        ((predSet fd lm w h t).filter (fun j => j ∉ insert i S)).card
          = ((predSet fd lm w h t).filter (fun j => j ∉ S)).card := fun t _ => by rw [hfilt t]
    rw [Finset.sum_congr rfl this]
    simp
  | some t =>
    have hit : i ∈ predSet fd lm w h t := mem_predSet.mpr ⟨hiwh, hiland, htgt⟩
    have htwh : t < w * h := flowTarget_lt htgt
    have hmempred : ∀ c j, j ∈ predSet fd lm w h c → j = i → c = t := by
      intro c j hj hji
      subst hji
      rw [mem_predSet, htgt] at hj
      injection hj.2.2 with hcz
      exact hcz.symm
    have hiA : i ∈ (predSet fd lm w h t).filter (fun j => j ∉ S) :=
      Finset.mem_filter.mpr ⟨hit, hiS⟩
    have herase : (predSet fd lm w h t).filter (fun j => j ∉ insert i S)
        = ((predSet fd lm w h t).filter (fun j => j ∉ S)).erase i := by
      ext j
      rw [Finset.mem_erase, Finset.mem_filter, Finset.mem_filter, Finset.mem_insert]
      constructor
      · intro ⟨hj1, hj2⟩
        push_neg at hj2
        exact ⟨hj2.1, hj1, hj2.2⟩
      · intro ⟨hj1, hj2, hj3⟩
        refine ⟨hj2, ?_⟩
        push_neg
        exact ⟨hj1, hj3⟩
    have hfiltne : ∀ c, c ≠ t → (predSet fd lm w h c).filter (fun j => j ∉ insert i S)
        = (predSet fd lm w h c).filter (fun j => j ∉ S) := by
      intro c hc
      apply Finset.filter_congr
      intro j hj
      have hji : j ≠ i := fun hcontra => hc (hmempred c j hj hcontra)
      simp [Finset.mem_insert, hji]
    -- split the edge sum at t; only that summand changes, and it drops by one
    have hsplit : ∀ (T : Finset ℕ),
        ∑ c ∈ Finset.range (w * h), ((predSet fd lm w h c).filter (fun j => j ∉ T)).card
          = ((predSet fd lm w h t).filter (fun j => j ∉ T)).card
            + ∑ c ∈ (Finset.range (w * h)).erase t,
                ((predSet fd lm w h c).filter (fun j => j ∉ T)).card := by
      intro T
      exact (Finset.add_sum_erase _ _ (Finset.mem_range.mpr htwh)).symm
    have herasesum : ∀ c ∈ (Finset.range (w * h)).erase t,
        ((predSet fd lm w h c).filter (fun j => j ∉ insert i S)).card
          = ((predSet fd lm w h c).filter (fun j => j ∉ S)).card := by
      intro c hc
      rw [hfiltne c (Finset.mem_erase.mp hc).1]
    have hcardpos : 0 < ((predSet fd lm w h t).filter (fun j => j ∉ S)).card :=
      Finset.card_pos.mpr ⟨i, hiA⟩
    have htcard : ((predSet fd lm w h t).filter (fun j => j ∉ insert i S)).card
        = ((predSet fd lm w h t).filter (fun j => j ∉ S)).card - 1 := by
      rw [herase, Finset.card_erase_of_mem hiA]
    simp only [kmeasure, kstep, htgt]
    rw [hsplit (insert i S), hsplit S, Finset.sum_congr rfl herasesum, htcard]
    split
    · simp only [List.length_append, List.length_cons, List.length_nil]
      omega
    · simp only [List.length_cons]
      omega

/-- Run the loop to completion: from any invariant state, enough fuel yields a
final state with an empty queue that still satisfies the invariant. -/

theorem kloop_reaches {fd : Array ℤ} {lm : Array ℕ} {hm : Array ℚ} {w h : ℕ}
    (DH : DownhillPred fd lm hm w h) :
    ∀ (fuel : ℕ) (S : Finset ℕ) (st : KState),
      KInv fd lm w h S st → kmeasure fd lm w h S st < fuel →
      ∃ S', S ⊆ S' ∧ KInv fd lm w h S' (kloop fd lm w h fuel st) ∧
        (kloop fd lm w h fuel st).queue = [] := by
  intro fuel
  induction fuel with
  | zero => intro S st _ hms; omega
  | succ fuel ih =>
    intro S st hinv hms
    obtain ⟨acc, deg, q⟩ := st
    cases q with
    | nil => exact ⟨S, Finset.Subset.refl S, hinv, rfl⟩
    | cons i rest =>
      have hstep := kinv_step DH hinv
      have hmstep := kmeasure_step hinv
      show ∃ S', S ⊆ S' ∧ KInv fd lm w h S'
          (kloop fd lm w h fuel (kstep fd lm w h i ⟨acc, deg, rest⟩)) ∧ _
      obtain ⟨S', hsub, hinv', hq'⟩ :=
        ih (insert i S) (kstep fd lm w h i ⟨acc, deg, rest⟩) hstep (by omega)
      exact ⟨S', Finset.Subset.trans (Finset.subset_insert i S) hsub, hinv', hq'⟩

theorem card_filter_range_eq_length (n : ℕ) (P : ℕ → Prop) [DecidablePred P] :
    ((Finset.range n).filter P).card
      = ((List.range n).filter (fun i => decide (P i))).length := by
  induction n with
  | zero => simp
  | succ n ih =>
    rw [Finset.range_succ, List.range_succ, Finset.filter_insert, List.filter_append]
    by_cases hP : P n
    · rw [if_pos hP, Finset.card_insert_of_not_mem (by
        intro hcontra
        exact absurd (Finset.mem_range.mp (Finset.mem_filter.mp hcontra).1) (lt_irrefl n)),
        ih]
      simp [hP]
    · rw [if_neg hP, ih]
      simp [hP]

/-- The initial in-degree array counts each cell's drainage predecessors. -/

theorem kinitDeg_val (fd : Array ℤ) (lm : Array ℕ) (w h : ℕ)
    (hbin : ∀ i, i < w * h → nget lm i = 0 ∨ nget lm i = 1) (t : ℕ) :
    zget (kinitDeg fd lm w h) t = ((predSet fd lm w h t).card : ℤ) := by
  have main : ∀ (l : List ℕ) (a : Array ℤ), a.size = w * h →
      zget (l.foldl (fun dg i =>
        if nget lm i = 0 then dg
        else match flowTarget fd w h i with
          | some t => aset dg t (zget dg t + 1)
          | none => dg) a) t
        = zget a t + ((l.filter (fun i =>
            decide (¬nget lm i = 0) && decide (flowTarget fd w h i = some t))).length : ℤ) := by
    intro l
    induction l with
    | nil => intro a _; simp
    | cons i l ihl =>
      intro a ha
      rw [List.foldl_cons]
      by_cases hlmi : nget lm i = 0
      · rw [if_pos hlmi] at *
        rw [ihl a ha]
        simp [hlmi]
      · rw [if_neg hlmi]
        cases htgt : flowTarget fd w h i with
        | none =>
          simp only [htgt]
          rw [ihl a ha]
          simp [hlmi, htgt]
        | some t' =>
          simp only [htgt]
          have hsz : (aset a t' (zget a t' + 1)).size = w * h := by rw [size_aset]; exact ha
          rw [ihl _ hsz]
          by_cases htt : t' = t
          · subst htt
            have : zget (aset a t' (zget a t' + 1)) t' = zget a t' + 1 := by
              unfold zget
              rw [getD_aset, if_pos ⟨rfl, by rw [ha]; exact flowTarget_lt htgt⟩]
            rw [this]
            simp [hlmi, htgt]
            ring
          · have : zget (aset a t' (zget a t' + 1)) t = zget a t := by
              unfold zget
              rw [getD_aset, if_neg (fun hcontra => htt hcontra.1.symm)]
            rw [this]
            simp [List.filter_cons, htgt, htt]
  unfold kinitDeg
  rw [main (List.range (w * h)) _ (Array.size_mkArray _ _)]
  have hz : zget (Array.mkArray (w * h) 0) t = 0 := by
    unfold zget
    rw [getD_mkArray]
    split <;> rfl
  rw [hz, zero_add]
  congr 1
  rw [predSet, card_filter_range_eq_length]
  congr 1
  apply List.filter_congr
  intro i hi
  have hiwh : i < w * h := List.mem_range.mp hi
  rcases hbin i hiwh with h0 | h1
  · simp [h0]
  · simp [h1]

theorem size_kinitDeg (fd : Array ℤ) (lm : Array ℕ) (w h : ℕ) :
    (kinitDeg fd lm w h).size = w * h := by
  unfold kinitDeg
  rw [foldl_size, Array.size_mkArray]
  intro a i
  split
  · rfl
  · split
    · exact size_aset _ _ _
    · rfl

theorem mem_kinitQueue {lm : Array ℕ} {deg : Array ℤ} {w h i : ℕ} :
    i ∈ kinitQueue lm deg w h ↔ i < w * h ∧ nget lm i = 1 ∧ zget deg i = 0 := by
  simp [kinitQueue, List.mem_filter, List.mem_range, and_assoc]

/-- The invariant holds before the loop starts (no cell processed yet). -/

theorem kinv_init (fd : Array ℤ) (lm : Array ℕ) (w h : ℕ)
    (hbin : ∀ i, i < w * h → nget lm i = 0 ∨ nget lm i = 1) :
    KInv fd lm w h ∅
      ⟨Array.mkArray (w * h) 1, kinitDeg fd lm w h,
        kinitQueue lm (kinitDeg fd lm w h) w h⟩ := by
  have hdegval := kinitDeg_val fd lm w h hbin
  refine ⟨Array.size_mkArray _ _, size_kinitDeg fd lm w h, ?_, ?_, ?_, ?_, ?_, ?_, ?_, ?_, ?_⟩
  · intro i hi
    cases hi
  · intro i hi
    have := mem_kinitQueue.mp hi
    exact ⟨this.1, this.2.1⟩
  · exact List.Nodup.filter _ (List.nodup_range _)
  · intro i _
    exact Finset.not_mem_empty i
  · intro c hc
    cases hc
  · intro c hc j hj
    have hdeg0 := (mem_kinitQueue.mp hc).2.2
    rw [hdegval c] at hdeg0
    have : (predSet fd lm w h c).card = 0 := by omega
    rw [Finset.card_eq_zero.mp this] at hj
    cases hj
  · intro t
    rw [hdegval t]
    congr 1
    rw [Finset.filter_true_of_mem (fun j _ => Finset.not_mem_empty j)]
  · intro c hcwh hcland hcS hcq
    have : ¬zget (kinitDeg fd lm w h) c = 0 := by
      intro hcontra
      exact hcq (mem_kinitQueue.mpr ⟨hcwh, hcland, hcontra⟩)
    rw [hdegval c] at this
    have : 0 < (predSet fd lm w h c).card := by omega
    obtain ⟨p, hp⟩ := Finset.card_pos.mp this
    exact ⟨p, hp, Finset.not_mem_empty p⟩
  · intro c hc
    have h1 : qget (Array.mkArray (w * h) 1) c = 1 := by
      unfold qget
      rw [getD_mkArray, if_pos hc]
    rw [h1, Finset.filter_false_of_mem (fun j _ => Finset.not_mem_empty j)]
    simp

/-- Total number of drainage edges is at most the number of cells (each land
cell has at most one outgoing direction). -/

theorem sum_pred_card_le (fd : Array ℤ) (lm : Array ℕ) (w h : ℕ) :
    ∑ t ∈ Finset.range (w * h), (predSet fd lm w h t).card ≤ w * h := by
  have hcard : ∀ t, (predSet fd lm w h t).card
      = ∑ i ∈ Finset.range (w * h),
          if nget lm i = 1 ∧ flowTarget fd w h i = some t then 1 else 0 := by
    intro t
    rw [predSet, Finset.card_filter]
  calc ∑ t ∈ Finset.range (w * h), (predSet fd lm w h t).card
      = ∑ t ∈ Finset.range (w * h), ∑ i ∈ Finset.range (w * h),
          if nget lm i = 1 ∧ flowTarget fd w h i = some t then 1 else 0 := by
        exact Finset.sum_congr rfl fun t _ => hcard t
    _ = ∑ i ∈ Finset.range (w * h), ∑ t ∈ Finset.range (w * h),
          if nget lm i = 1 ∧ flowTarget fd w h i = some t then 1 else 0 :=
        Finset.sum_comm
    _ ≤ ∑ _i ∈ Finset.range (w * h), 1 := by
        apply Finset.sum_le_sum
        intro i _
        rw [← Finset.card_filter]
        rw [Finset.card_le_one]
        intro a ha b hb
        have ha' := (Finset.mem_filter.mp ha).2.2
        have hb' := (Finset.mem_filter.mp hb).2.2
        rw [ha'] at hb'
        injection hb'
    _ = w * h := by simp

/-- **Flow conservation** (spec §8.3): in the array returned by
`calculateFlowAccumulation` (fed with `calculateFlowDirection`'s output),
every land cell has accumulation at least 1, and every cell's accumulation
equals 1 plus the sum of the accumulations of all land cells whose flow
direction points into it. -/

theorem flow_conservation (hm : Array ℚ) (lm : Array ℕ) (w h : ℕ)
    (hbin : ∀ i, i < w * h → nget lm i = 0 ∨ nget lm i = 1) :
    (∀ i, i < w * h → nget lm i = 1 →
      1 ≤ qget (calculateFlowAccumulation (calculateFlowDirection hm lm w h) lm w h) i) ∧
    (∀ c, c < w * h →
      qget (calculateFlowAccumulation (calculateFlowDirection hm lm w h) lm w h) c
        = 1 + ∑ i ∈ predSet (calculateFlowDirection hm lm w h) lm w h c,
            qget (calculateFlowAccumulation (calculateFlowDirection hm lm w h) lm w h) i) := by
  set fd := calculateFlowDirection hm lm w h with hfd
  have DH : DownhillPred fd lm hm w h := by
    intro c i hi
    have hmem := mem_predSet.mp hi
    exact flowTarget_downhill hm lm w h hmem.1 hmem.2.2
  -- run the loop to completion
  have hminit : kmeasure fd lm w h ∅
      ⟨Array.mkArray (w * h) 1, kinitDeg fd lm w h,
        kinitQueue lm (kinitDeg fd lm w h) w h⟩ < 2 * (w * h) + 1 := by
    unfold kmeasure
    dsimp only
    have h1 : (kinitQueue lm (kinitDeg fd lm w h) w h).length ≤ w * h := by
      calc (kinitQueue lm (kinitDeg fd lm w h) w h).length
          ≤ (List.range (w * h)).length := List.length_filter_le _ _
        _ = w * h := List.length_range _
    have h2 : ∑ t ∈ Finset.range (w * h),
        ((predSet fd lm w h t).filter (fun i => i ∉ (∅ : Finset ℕ))).card ≤ w * h := by
      calc ∑ t ∈ Finset.range (w * h),
            ((predSet fd lm w h t).filter (fun i => i ∉ (∅ : Finset ℕ))).card
          = ∑ t ∈ Finset.range (w * h), (predSet fd lm w h t).card := by
            apply Finset.sum_congr rfl
            intro t _
            rw [Finset.filter_true_of_mem (fun j _ => Finset.not_mem_empty j)]
        _ ≤ w * h := sum_pred_card_le fd lm w h
    omega
  obtain ⟨S', hsub, hinv, hq⟩ := kloop_reaches DH (2 * (w * h) + 1) ∅ _
    (kinv_init fd lm w h hbin) hminit
  have hfa : calculateFlowAccumulation fd lm w h
      = (kloop fd lm w h (2 * (w * h) + 1)
          ⟨Array.mkArray (w * h) 1, kinitDeg fd lm w h,
            kinitQueue lm (kinitDeg fd lm w h) w h⟩).acc := rfl
  -- completeness: every land cell is processed
  have hall : ∀ c, c < w * h → nget lm c = 1 → c ∈ S' := by
    intro c hcwh hcland
    by_contra hcS
    have hUne : ((Finset.range (w * h)).filter
        (fun c => nget lm c = 1 ∧ c ∉ S')).Nonempty :=
      ⟨c, Finset.mem_filter.mpr ⟨Finset.mem_range.mpr hcwh, hcland, hcS⟩⟩
    obtain ⟨cm, hcmU, hmax⟩ := Finset.exists_max_image _ (fun c => qget hm c) hUne
    have hcm := Finset.mem_filter.mp hcmU
    obtain ⟨p, hp, hpS'⟩ := hinv.k4 cm (Finset.mem_range.mp hcm.1) hcm.2.1 hcm.2.2
      (by rw [hq]; exact List.not_mem_nil cm)
    have hpmem := mem_predSet.mp hp
    have hpU : p ∈ (Finset.range (w * h)).filter (fun c => nget lm c = 1 ∧ c ∉ S') :=
      Finset.mem_filter.mpr ⟨Finset.mem_range.mpr hpmem.1, hpmem.2.1, hpS'⟩
    exact absurd (hmax p hpU) (not_le.mpr (DH cm p hp))
  -- the final accumulation of every cell is one plus the reference values of
  -- all its predecessors
  have hfull : ∀ c, (predSet fd lm w h c).filter (fun i => i ∈ S') = predSet fd lm w h c := by
    intro c
    apply Finset.filter_true_of_mem
    intro j hj
    have := mem_predSet.mp hj
    exact hall j this.1 this.2.1
  have haval : ∀ c, c < w * h →
      qget (calculateFlowAccumulation fd lm w h) c
        = 1 + ∑ i ∈ predSet fd lm w h c, specAcc fd lm w h i := by
    intro c hc
    rw [hfa]
    rw [hinv.aval c hc, hfull c]
  have hspec : ∀ i, i < w * h → nget lm i = 1 →
      qget (calculateFlowAccumulation fd lm w h) i = specAcc fd lm w h i := by
    intro i hi hland
    rw [haval i hi, ← specAcc_eq DH i]
  constructor
  · intro i hi hland
    rw [hspec i hi hland]
    exact specAcc_ge_one fd lm w h i
  · intro c hc
    rw [haval c hc]
    congr 1
    apply Finset.sum_congr rfl
    intro i hi
    have := mem_predSet.mp hi
    rw [hspec i this.1 this.2.1]

theorem flow_conservation_witness :
    (∀ i, i < 2 * 1 → nget #[1, 1] i = 0 ∨ nget #[1, 1] i = 1) ∧
    1 ≤ qget (calculateFlowAccumulation
        (calculateFlowDirection #[(1 : ℚ), 0] #[1, 1] 2 1) #[1, 1] 2 1) 0 :=
  ⟨by decide,
    (flow_conservation #[(1 : ℚ), 0] #[1, 1] 2 1 (by decide)).1 0 (by decide) (by decide)⟩

/-! ### Helper lemmas for the water-distance proof -/

/-- Once a fold step has established a persistent property, the whole fold
has it. -/

theorem foldl_pred_from {α β : Type} (P : α → Prop) (step : α → β → α) (l : List β) (b₀ : β)
    (hmem : b₀ ∈ l) (hpres : ∀ a b, b ∈ l → P a → P (step a b))
    (hest : ∀ a, P (step a b₀)) :
    ∀ a₀, P (l.foldl step a₀) := by
  intro a₀
  obtain ⟨l₁, l₂, rfl⟩ := List.append_of_mem hmem
  rw [List.foldl_append, List.foldl_cons]
  refine foldl_inv P step l₂ ?_ _ (hest _)
  intro a b hb
  exact hpres a b (by simp [hb])

/-- Characterisation of a one-dimensional index fold that rewrites each cell
from its own previous content. -/

theorem lineFold_getD {α : Type} (d : α) (n : ℕ) (F : ℕ → α → α) (a₀ : Array α)
    (hn : a₀.size = n) {i : ℕ} (hi : i < n) :
    ((List.range n).foldl (fun a j => aset a j (F j (a.getD j d))) a₀).getD i d
      = F i (a₀.getD i d) := by
  have hsz : ∀ (l : List ℕ) (a : Array α),
      (l.foldl (fun a j => aset a j (F j (a.getD j d))) a).size = a.size :=
    fun l a => foldl_size _ (fun a j => size_aset a j _) l a
  have main : ∀ m : ℕ,
      ((List.range m).foldl (fun a j => aset a j (F j (a.getD j d))) a₀).getD i d
        = if i < m then F i (a₀.getD i d) else a₀.getD i d := by
    intro m
    induction m with
    | zero => simp
    | succ m ih =>
      rw [List.range_succ, List.foldl_append, List.foldl_cons, List.foldl_nil]
      by_cases him : i = m
      · subst him
        rw [getD_aset _ _ _ _ d, if_pos ⟨rfl, by rw [hsz, hn]; exact hi⟩, ih,
          if_neg (lt_irrefl i), if_pos (Nat.lt_succ_self i)]
      · rw [getD_aset _ _ _ _ d, if_neg (fun hc => him hc.1), ih]
        by_cases hilt : i < m
        · rw [if_pos hilt, if_pos (by omega)]
        · rw [if_neg hilt, if_neg (by omega)]
  rw [main n, if_pos hi]

/-- The distance array built by `winit` does not depend on the queue. -/

theorem winit_dist_eq (lm rivers lakeMask : Array ℕ) (w h : ℕ) :
    (winit lm rivers lakeMask w h).dist
      = (List.range h).foldl (fun a y =>
          (List.range w).foldl (fun a x =>
            if isWaterCell lm rivers lakeMask (y * w + x) then
              aset a (y * w + x) (some (0 : ℚ))
            else a) a)
        (Array.mkArray (w * h) none) := by
  have inner : ∀ (y : ℕ) (l : List ℕ) (st : WState),
      (l.foldl (fun st x =>
        if isWaterCell lm rivers lakeMask (y * w + x) then
          WState.mk (aset st.dist (y * w + x) (some 0)) (st.queue ++ [(x, y, (0 : ℚ))])
        else st) st).dist
        = l.foldl (fun a x =>
            if isWaterCell lm rivers lakeMask (y * w + x) then aset a (y * w + x) (some 0)
            else a) st.dist := by
    intro y l
    induction l with
    | nil => intro st; rfl
    | cons x l ih =>
      intro st
      rw [List.foldl_cons, List.foldl_cons, ih]
      congr 1
      split
      · rfl
      · rfl
  have outer : ∀ (l : List ℕ) (st : WState),
      (l.foldl (fun st y =>
        (List.range w).foldl (fun st x =>
          if isWaterCell lm rivers lakeMask (y * w + x) then
            WState.mk (aset st.dist (y * w + x) (some 0)) (st.queue ++ [(x, y, (0 : ℚ))])
          else st) st) st).dist
        = l.foldl (fun a y =>
            (List.range w).foldl (fun a x =>
              if isWaterCell lm rivers lakeMask (y * w + x) then aset a (y * w + x) (some 0)
              else a) a) st.dist := by
    intro l
    induction l with
    | nil => intro st; rfl
    | cons y l ih =>
      intro st
      rw [List.foldl_cons, List.foldl_cons, ih, inner y]
  exact outer (List.range h) ⟨Array.mkArray (w * h) none, []⟩

theorem size_winit_dist (lm rivers lakeMask : Array ℕ) (w h : ℕ) :
    (winit lm rivers lakeMask w h).dist.size = w * h := by
  rw [winit_dist_eq]
  rw [foldl_size, Array.size_mkArray]
  intro a y
  rw [foldl_size]
  intro a x
  split
  · exact size_aset _ _ _
  · rfl

/-- Initial distance of each in-range cell: 0 on water, `Infinity` elsewhere. -/

theorem winit_dist_val (lm rivers lakeMask : Array ℕ) (w h : ℕ) {x y : ℕ}
    (hx : x < w) (hy : y < h) :
    oget (winit lm rivers lakeMask w h).dist (y * w + x)
      = if isWaterCell lm rivers lakeMask (y * w + x) then some 0 else none := by
  rw [winit_dist_eq]
  unfold oget
  rw [gridFold_getD none w h (w * h)
    (fun a x y => if isWaterCell lm rivers lakeMask (y * w + x) then
        aset a (y * w + x) (some 0) else a)
    (fun x y old => if isWaterCell lm rivers lakeMask (y * w + x) then some 0 else old)
    (Array.mkArray (w * h) none) (Array.size_mkArray _ _) ?_ ?_ ?_ hx hy]
  · rw [getD_mkArray, if_pos (idx_lt hx hy)]
  · intro a x y
    dsimp only
    split
    · exact size_aset _ _ _
    · rfl
  · intro a x y j hj
    dsimp only
    split
    · exact getD_aset_ne a _ j _ none (fun hc => hj hc.symm)
    · rfl
  · intro a x y ha hxw hyh
    dsimp only
    split
    · exact getD_aset_eq a _ _ none (by rw [ha]; exact idx_lt hxw hyh)
    · rfl

/-- Every queued initial entry is an in-range water cell at distance 0. -/

theorem winit_queue_prop (lm rivers lakeMask : Array ℕ) (w h : ℕ) :
    ∀ e ∈ (winit lm rivers lakeMask w h).queue,
      e.1 < w ∧ e.2.1 < h ∧ e.2.2 = 0 ∧
        isWaterCell lm rivers lakeMask (e.2.1 * w + e.1) := by
  unfold winit
  refine foldl_inv (fun (st : WState) => ∀ e ∈ st.queue, e.1 < w ∧ e.2.1 < h ∧ e.2.2 = 0 ∧
      isWaterCell lm rivers lakeMask (e.2.1 * w + e.1)) _ (List.range h) ?_ _ ?_
  · intro st y hy hst
    refine foldl_inv (fun (st : WState) => ∀ e ∈ st.queue, e.1 < w ∧ e.2.1 < h ∧ e.2.2 = 0 ∧
      isWaterCell lm rivers lakeMask (e.2.1 * w + e.1)) _ (List.range w) ?_ st hst
    intro st x hx hst'
    dsimp only
    split
    · next hw =>
      intro e he
      rcases List.mem_append.mp he with he | he
      · exact hst' e he
      · rw [List.mem_singleton] at he
        subst he
        exact ⟨List.mem_range.mp hx, List.mem_range.mp hy, rfl, hw⟩
    · exact hst'
  · intro e he
    cases he

/-- Every in-range water cell got an initial queue entry. -/

theorem winit_queue_mem (lm rivers lakeMask : Array ℕ) (w h : ℕ) {x y : ℕ}
    (hx : x < w) (hy : y < h) (hw : isWaterCell lm rivers lakeMask (y * w + x)) :
    (x, y, (0 : ℚ)) ∈ (winit lm rivers lakeMask w h).queue := by
  unfold winit
  refine foldl_pred_from (fun (st : WState) => (x, y, (0 : ℚ)) ∈ st.queue) _
    (List.range h) y (List.mem_range.mpr hy) ?_ ?_ _
  · intro st y' _
    refine foldl_inv (fun (st : WState) => (x, y, (0 : ℚ)) ∈ st.queue) _ (List.range w) ?_ st
    intro st x' _ hst
    dsimp only
    split
    · exact List.mem_append_left _ hst
    · exact hst
  · intro st
    refine foldl_pred_from (fun (st : WState) => (x, y, (0 : ℚ)) ∈ st.queue) _
      (List.range w) x (List.mem_range.mpr hx) ?_ ?_ st
    · intro st x' _ hst
      dsimp only
      split
      · exact List.mem_append_left _ hst
      · exact hst
    · intro st
      dsimp only
      rw [if_pos hw]
      exact List.mem_append_right _ (List.mem_singleton_self _)

/-! ### Measure and invariants of the BFS loop -/

theorem one_le_stepLen (d : ℕ) : 1 ≤ stepLen d := by
  unfold stepLen
  split
  · norm_num
  · unfold SQRT2; norm_num

theorem stepLen_le_two (d : ℕ) : stepLen d ≤ 2 := by
  unfold stepLen
  split
  · norm_num
  · unfold SQRT2; norm_num

theorem SQRT2_nonneg : (0 : ℚ) ≤ SQRT2 := le_of_lt SQRT2_pos

theorem one_le_SQRT2 : (1 : ℚ) ≤ SQRT2 := by unfold SQRT2; norm_num

theorem dxdy_ne_zero : ∀ d, d < 8 → ¬(dxAt d = 0 ∧ dyAt d = 0) := by decide

/-- A step stays a sum of unit and diagonal steps. -/

theorem rep_add_step (v : ℚ) (a b : ℕ) (hv : v = (a : ℚ) + (b : ℚ) * SQRT2) (dd : ℕ) :
    ∃ a' b' : ℕ, v + stepLen dd = (a' : ℚ) + (b' : ℚ) * SQRT2 := by
  unfold stepLen
  split
  · exact ⟨a + 1, b, by push_cast; rw [hv]; ring⟩
  · exact ⟨a, b + 1, by push_cast; rw [hv]; ring⟩

theorem oget_none_of_ge (a : Array (Option ℚ)) (w h : ℕ) (ha : a.size = w * h)
    {i : ℕ} (hi : w * h ≤ i) : oget a i = none := by
  unfold oget Array.getD
  rw [dif_neg]
  omega

theorem wrank_le (dist : Array (Option ℚ)) (w h : ℕ) {i : ℕ} (hi : i < w * h) :
    wrank dist w h i ≤ w * h - 1 := by
  unfold wrank
  have hsub : (Finset.range (w * h)).filter (fun j => j ≠ i ∧ ltOO (oget dist j) (oget dist i))
      ⊆ (Finset.range (w * h)).erase i := by
    intro j hj
    rw [Finset.mem_filter] at hj
    exact Finset.mem_erase.mpr ⟨hj.2.1, hj.1⟩
  calc _ ≤ ((Finset.range (w * h)).erase i).card := Finset.card_le_card hsub
    _ = w * h - 1 := by rw [Finset.card_erase_of_mem (Finset.mem_range.mpr hi), Finset.card_range]

theorem card_wbox (n : ℕ) : (wbox n).card = (2 * n + 1) ^ 2 := by
  rw [wbox, Finset.card_product, Finset.card_range]
  ring

theorem gval_lt_of_le (n : ℕ) (v : ℚ) (hv : v ≤ 2 * n) :
    gval n (some v) < (2 * n + 1) ^ 2 := by
  have hmem : ((2 * n : ℕ), (2 * n : ℕ)) ∈ wbox n := by
    simp only [wbox, Finset.mem_product, Finset.mem_range]
    omega
  have hnot : ¬((((2 * n : ℕ) : ℚ)) + (((2 * n : ℕ) : ℚ)) * SQRT2 < v) := by
    push_neg
    have h1 : (0 : ℚ) ≤ ((2 * n : ℕ) : ℚ) * SQRT2 :=
      mul_nonneg (by positivity) SQRT2_nonneg
    calc v ≤ (2 * n : ℚ) := hv
      _ = ((2 * n : ℕ) : ℚ) := by push_cast; ring
      _ ≤ ((2 * n : ℕ) : ℚ) + ((2 * n : ℕ) : ℚ) * SQRT2 := by linarith
  have hsub : (wbox n).filter (fun p => (p.1 : ℚ) + (p.2 : ℚ) * SQRT2 < v)
      ⊂ wbox n := by
    rw [Finset.ssubset_def]
    refine ⟨Finset.filter_subset _ _, ?_⟩
    intro hsub
    exact hnot (Finset.mem_filter.mp (hsub hmem)).2
  calc gval n (some v) < (wbox n).card := Finset.card_lt_card hsub
    _ = (2 * n + 1) ^ 2 := card_wbox n

theorem gval_le (n : ℕ) (o : Option ℚ) : gval n o ≤ (2 * n + 1) ^ 2 := by
  cases o with
  | none => exact le_refl _
  | some v =>
    calc gval n (some v) ≤ (wbox n).card := Finset.card_filter_le _ _
      _ = (2 * n + 1) ^ 2 := card_wbox n

theorem gval_strict_mono (n : ℕ) (u v : ℚ) (a b : ℕ)
    (hrep : u = (a : ℚ) + (b : ℚ) * SQRT2) (hu : u ≤ 2 * n) (huv : u < v) :
    gval n (some u) < gval n (some v) := by
  have hab : a ≤ 2 * n ∧ b ≤ 2 * n := by
    constructor
    · have h1 : (a : ℚ) ≤ u := by
        rw [hrep]
        have : (0 : ℚ) ≤ (b : ℚ) * SQRT2 := mul_nonneg (by positivity) SQRT2_nonneg
        linarith
      have : (a : ℚ) ≤ 2 * n := le_trans h1 hu
      exact_mod_cast this
    · have h1 : (b : ℚ) ≤ u := by
        rw [hrep]
        have h2 : (b : ℚ) ≤ (b : ℚ) * SQRT2 := by
          nlinarith [one_le_SQRT2, (by positivity : (0 : ℚ) ≤ (b : ℚ))]
        have : (0 : ℚ) ≤ (a : ℚ) := by positivity
        linarith
      have : (b : ℚ) ≤ 2 * n := le_trans h1 hu
      exact_mod_cast this
  apply Finset.card_lt_card
  rw [Finset.ssubset_def]
  constructor
  · intro p hp
    rw [Finset.mem_filter] at hp ⊢
    exact ⟨hp.1, lt_trans hp.2 huv⟩
  · intro hsub
    have hmem : (a, b) ∈ (wbox n).filter (fun p => (p.1 : ℚ) + (p.2 : ℚ) * SQRT2 < v) := by
      rw [Finset.mem_filter]
      refine ⟨?_, by rw [← hrep]; exact huv⟩
      simp only [wbox, Finset.mem_product, Finset.mem_range]
      omega
    have := hsub hmem
    rw [Finset.mem_filter] at this
    rw [← hrep] at this
    exact lt_irrefl u this.2

theorem ltOO_some_right {o : Option ℚ} {v : ℚ} :
    ltOO o (some v) ↔ ∃ u, o = some u ∧ u < v := by
  cases o <;> simp [ltOO]

theorem not_ltOO_none_right {o : Option ℚ} : ¬ltOO o none := by
  cases o <;> simp [ltOO]

theorem not_ltOO_none_left {o : Option ℚ} : ¬ltOO none o := by
  cases o <;> simp [ltOO]

/-- Relaxing one direction preserves the relaxation invariant and does not
increase the measure. -/

theorem wrelax_step {lm rivers lakeMask : Array ℕ} {w h : ℕ} {x y : ℕ}
    (hx : x < w) (hy : y < h) {d₀ : ℚ} (hd₀ : 0 ≤ d₀) {dd : ℕ} (hdd : dd < 8)
    {done : List ℕ} {st : WState}
    (hinv : RInv lm rivers lakeMask w h x y d₀ done st) :
    RInv lm rivers lakeMask w h x y d₀ (done ++ [dd]) (wrelaxBody w h x y d₀ st dd) ∧
    wmeasure w h (wrelaxBody w h x y d₀ st dd) ≤ wmeasure w h st := by
  obtain ⟨core, center, part, others⟩ := hinv
  unfold wrelaxBody
  by_cases hg : inGrid w h ((x : ℤ) + dxAt dd) ((y : ℤ) + dyAt dd)
  case neg =>
    rw [if_neg hg]
    refine ⟨⟨core, center, ?_, others⟩, le_refl _⟩
    intro dd' hdd' hgrid'
    rcases List.mem_append.mp hdd' with hdd' | hdd'
    · exact part dd' hdd' hgrid'
    · rw [List.mem_singleton] at hdd'
      subst hdd'
      exact absurd hgrid' hg
  case pos =>
    rw [if_pos hg]
    by_cases himp : ltD (d₀ + stepLen dd)
        (oget st.dist ((((y : ℤ) + dyAt dd).toNat) * w + (((x : ℤ) + dxAt dd).toNat)))
    case neg =>
      rw [if_neg himp]
      refine ⟨⟨core, center, ?_, others⟩, le_refl _⟩
      intro dd' hdd' hgrid'
      rcases List.mem_append.mp hdd' with hdd' | hdd'
      · exact part dd' hdd' hgrid'
      · rw [List.mem_singleton] at hdd'
        subst hdd'
        cases ho : oget st.dist ((((y : ℤ) + dyAt dd').toNat) * w
            + (((x : ℤ) + dxAt dd').toNat)) with
        | none => rw [ho] at himp; exact absurd trivial himp
        | some u =>
          rw [ho] at himp
          exact ⟨u, rfl, le_of_not_lt himp⟩
    case pos =>
      rw [if_pos himp]
      -- abbreviations for the relaxed neighbour
      obtain ⟨hg1, hg2, hg3, hg4⟩ := hg
      set tx : ℕ := ((x : ℤ) + dxAt dd).toNat with htx
      set ty : ℕ := ((y : ℤ) + dyAt dd).toNat with hty
      have htxw : tx < w := by omega
      have htyh : ty < h := by omega
      have htIdx : ty * w + tx < w * h := idx_lt htxw htyh
      have hc₀ : y * w + x < w * h := idx_lt hx hy
      have hQ : (1 : ℚ) ≤ stepLen dd := one_le_stepLen dd
      have hQ2 : stepLen dd ≤ 2 := stepLen_le_two dd
      have hnew1 : 1 ≤ d₀ + stepLen dd := by linarith
      have htne : ty * w + tx ≠ y * w + x := by
        intro hcontra
        obtain ⟨hy', hx'⟩ := idx_inj htxw hx hcontra
        have hxe : (x : ℤ) + dxAt dd = (x : ℤ) := by omega
        have hye : (y : ℤ) + dyAt dd = (y : ℤ) := by omega
        exact dxdy_ne_zero dd hdd ⟨by omega, by omega⟩
      have hget_t : oget (aset st.dist (ty * w + tx) (some (d₀ + stepLen dd))) (ty * w + tx)
          = some (d₀ + stepLen dd) := by
        unfold oget
        rw [getD_aset, if_pos ⟨rfl, by rw [core.dsize]; exact htIdx⟩]
      have hget_ne : ∀ j, j ≠ ty * w + tx →
          oget (aset st.dist (ty * w + tx) (some (d₀ + stepLen dd))) j = oget st.dist j := by
        intro j hj
        unfold oget
        rw [getD_aset, if_neg (fun hcontra => hj hcontra.1)]
      -- the target is not a water cell and its old value exceeds the new one
      have hd₀rank : d₀ ≤ 2 * wrank st.dist w h (y * w + x) :=
        core.urank _ d₀ hc₀ center
      have hnotwater : ¬isWaterCell lm rivers lakeMask (ty * w + tx) := by
        intro hcontra
        have h0 := core.water0 _ htIdx hcontra
        rw [h0] at himp
        have : d₀ + stepLen dd < 0 := himp
        linarith
      have hold_cases : oget st.dist (ty * w + tx) = none ∨
          ∃ u, oget st.dist (ty * w + tx) = some u ∧ d₀ + stepLen dd < u := by
        cases ho : oget st.dist (ty * w + tx) with
        | none => exact Or.inl rfl
        | some u =>
          rw [ho] at himp
          exact Or.inr ⟨u, rfl, himp⟩
      -- the rank of the target, after the update, strictly exceeds the rank
      -- of the centre before it
      have hranksub : insert (y * w + x)
          ((Finset.range (w * h)).filter
            (fun j => j ≠ y * w + x ∧ ltOO (oget st.dist j) (oget st.dist (y * w + x))))
          ⊆ (Finset.range (w * h)).filter
            (fun j => j ≠ ty * w + tx ∧
              ltOO (oget (aset st.dist (ty * w + tx) (some (d₀ + stepLen dd))) j)
                (oget (aset st.dist (ty * w + tx) (some (d₀ + stepLen dd))) (ty * w + tx))) := by
        intro j hj
        rw [Finset.mem_insert] at hj
        rw [Finset.mem_filter]
        rcases hj with hj | hj
        · subst hj
          refine ⟨Finset.mem_range.mpr hc₀, fun hcontra => htne hcontra.symm, ?_⟩
          rw [hget_ne _ (fun hcontra => htne hcontra.symm), hget_t, center]
          show d₀ < d₀ + stepLen dd
          linarith
        · rw [Finset.mem_filter, center] at hj
          obtain ⟨hj1, hj2, hj3⟩ := hj
          obtain ⟨u, hju, hud⟩ := ltOO_some_right.mp hj3
          have hjt : j ≠ ty * w + tx := by
            intro hcontra
            subst hcontra
            rcases hold_cases with hnone | ⟨u', hu', hlt⟩
            · rw [hju] at hnone; cases hnone
            · rw [hju] at hu'
              injection hu' with hu'
              subst hu'
              linarith
          refine ⟨hj1, hjt, ?_⟩
          rw [hget_ne _ hjt, hget_t, hju]
          show u < d₀ + stepLen dd
          linarith
      have hrank_t : wrank st.dist w h (y * w + x) + 1
          ≤ wrank (aset st.dist (ty * w + tx) (some (d₀ + stepLen dd))) w h (ty * w + tx) := by
        have hcnotin : (y * w + x) ∉ (Finset.range (w * h)).filter
            (fun j => j ≠ y * w + x ∧ ltOO (oget st.dist j) (oget st.dist (y * w + x))) := by
          intro hcontra
          exact (Finset.mem_filter.mp hcontra).2.1 rfl
        calc wrank st.dist w h (y * w + x) + 1
            = (insert (y * w + x) ((Finset.range (w * h)).filter
                (fun j => j ≠ y * w + x ∧
                  ltOO (oget st.dist j) (oget st.dist (y * w + x))))).card := by
              rw [Finset.card_insert_of_not_mem hcnotin, wrank]
          _ ≤ _ := Finset.card_le_card hranksub
      have hnew_rank : d₀ + stepLen dd
          ≤ 2 * wrank (aset st.dist (ty * w + tx) (some (d₀ + stepLen dd))) w h
              (ty * w + tx) := by
        have : (wrank st.dist w h (y * w + x) + 1 : ℚ)
            ≤ (wrank (aset st.dist (ty * w + tx) (some (d₀ + stepLen dd))) w h
                (ty * w + tx) : ℚ) := by exact_mod_cast hrank_t
        linarith
      have hnew_le : d₀ + stepLen dd ≤ 2 * (w * h) := by
        have h1 := wrank_le (aset st.dist (ty * w + tx) (some (d₀ + stepLen dd))) w h htIdx
        have h2 : (wrank (aset st.dist (ty * w + tx) (some (d₀ + stepLen dd))) w h
            (ty * w + tx) : ℚ) ≤ ((w * h : ℕ) : ℚ) := by
          have : wrank (aset st.dist (ty * w + tx) (some (d₀ + stepLen dd))) w h
              (ty * w + tx) ≤ w * h := by omega
          exact_mod_cast this
        calc d₀ + stepLen dd ≤ 2 * wrank (aset st.dist (ty * w + tx)
            (some (d₀ + stepLen dd))) w h (ty * w + tx) := hnew_rank
          _ ≤ 2 * ((w * h : ℕ) : ℚ) := by linarith
          _ = 2 * (w * h) := by push_cast; ring
      -- other cells keep (or improve) their rank
      have hrank_other : ∀ i, i ≠ ty * w + tx →
          wrank st.dist w h i
            ≤ wrank (aset st.dist (ty * w + tx) (some (d₀ + stepLen dd))) w h i := by
        intro i hi
        apply Finset.card_le_card
        intro j hj
        rw [Finset.mem_filter] at hj ⊢
        obtain ⟨hj1, hj2, hj3⟩ := hj
        refine ⟨hj1, hj2, ?_⟩
        rw [hget_ne i hi]
        by_cases hjt : j = ty * w + tx
        · subst hjt
          rcases hold_cases with hnone | ⟨u', hu', hlt⟩
          · rw [hnone] at hj3
            exact absurd hj3 not_ltOO_none_left
          · rw [hu'] at hj3
            cases hoi : oget st.dist i with
            | none => rw [hoi] at hj3; exact absurd hj3 not_ltOO_none_right
            | some vi =>
              rw [hoi] at hj3
              have hvi : u' < vi := hj3
              rw [hget_t]
              show d₀ + stepLen dd < vi
              linarith
        · rw [hget_ne j hjt]
          exact hj3
      constructor
      · refine ⟨⟨?_, ?_, ?_, ?_, ?_, ?_, ?_, ?_⟩, ?_, ?_, ?_⟩
        · rw [size_aset]; exact core.dsize
        · intro i v hv
          by_cases hit : i = ty * w + tx
          · subst hit
            rw [hget_t] at hv
            injection hv with hv
            subst hv
            linarith
          · rw [hget_ne i hit] at hv
            exact core.nonneg i v hv
        · intro i hi hwi
          have hit : i ≠ ty * w + tx := fun hcontra => hnotwater (hcontra ▸ hwi)
          rw [hget_ne i hit]
          exact core.water0 i hi hwi
        · intro i v hi hwi hv
          by_cases hit : i = ty * w + tx
          · subst hit
            rw [hget_t] at hv
            injection hv with hv
            subst hv
            exact hnew1
          · rw [hget_ne i hit] at hv
            exact core.land1 i v hi hwi hv
        · intro i v hv
          by_cases hit : i = ty * w + tx
          · subst hit
            rw [hget_t] at hv
            injection hv with hv
            obtain ⟨a, b, hab⟩ := core.rep _ d₀ center
            obtain ⟨a', b', hab'⟩ := rep_add_step d₀ a b hab dd
            exact ⟨a', b', hv ▸ hab'⟩
          · rw [hget_ne i hit] at hv
            exact core.rep i v hv
        · intro e he
          rcases List.mem_append.mp he with he | he
          · exact core.qbound e he
          · rw [List.mem_singleton] at he
            subst he
            exact ⟨htxw, htyh⟩
        · intro e he
          rcases List.mem_append.mp he with he | he
          · obtain ⟨v, hv, hvle⟩ := core.qge e he
            by_cases het : e.2.1 * w + e.1 = ty * w + tx
            · rw [het] at hv ⊢
              rcases hold_cases with hnone | ⟨u', hu', hlt⟩
              · rw [hv] at hnone; cases hnone
              · rw [hv] at hu'
                injection hu' with hu'
                subst hu'
                exact ⟨d₀ + stepLen dd, hget_t, by linarith⟩
            · rw [hget_ne _ het]
              exact ⟨v, hv, hvle⟩
          · rw [List.mem_singleton] at he
            subst he
            exact ⟨d₀ + stepLen dd, hget_t, le_refl _⟩
        · intro i v hi hv
          by_cases hit : i = ty * w + tx
          · subst hit
            rw [hget_t] at hv
            injection hv with hv
            subst hv
            exact hnew_rank
          · rw [hget_ne i hit] at hv
            have h1 := core.urank i v hi hv
            have h2 := hrank_other i hit
            have h2' : (wrank st.dist w h i : ℚ)
                ≤ (wrank (aset st.dist (ty * w + tx) (some (d₀ + stepLen dd))) w h i : ℚ) := by
              exact_mod_cast h2
            linarith
        · rw [hget_ne _ (fun hcontra => htne hcontra.symm)]
          exact center
        · intro dd' hdd' hgrid'
          rcases List.mem_append.mp hdd' with hdd' | hdd'
          · obtain ⟨u, hu, hule⟩ := part dd' hdd' hgrid'
            by_cases hnt : (((y : ℤ) + dyAt dd').toNat) * w + (((x : ℤ) + dxAt dd').toNat)
                = ty * w + tx
            · rw [hnt] at hu ⊢
              rcases hold_cases with hnone | ⟨u', hu', hlt⟩
              · rw [hu] at hnone; cases hnone
              · rw [hu] at hu'
                injection hu' with hu'
                subst hu'
                exact ⟨d₀ + stepLen dd, hget_t, by linarith⟩
            · rw [hget_ne _ hnt]
              exact ⟨u, hu, hule⟩
          · rw [List.mem_singleton] at hdd'
            rw [hdd']
            exact ⟨d₀ + stepLen dd, hget_t, le_refl _⟩
        · intro c v hc hcne hv
          by_cases hct : c = ty * w + tx
          · subst hct
            rw [hget_t] at hv
            injection hv with hv
            subst hv
            left
            refine ⟨(tx, ty, d₀ + stepLen dd), List.mem_append_right _
              (List.mem_singleton_self _), rfl, le_refl _⟩
          · rw [hget_ne c hct] at hv
            rcases others c v hc hcne hv with ⟨e, he, hec, hed⟩ | hB
            · exact Or.inl ⟨e, List.mem_append_left _ he, hec, hed⟩
            · right
              intro dd' hdd' hgrid'
              obtain ⟨u, hu, hule⟩ := hB dd' hdd' hgrid'
              by_cases hnt : (((c / w : ℕ) : ℤ) + dyAt dd').toNat * w
                  + (((c % w : ℕ) : ℤ) + dxAt dd').toNat = ty * w + tx
              · rw [hnt] at hu ⊢
                rcases hold_cases with hnone | ⟨u', hu', hlt⟩
                · rw [hu] at hnone; cases hnone
                · rw [hu] at hu'
                  injection hu' with hu'
                  subst hu'
                  exact ⟨d₀ + stepLen dd, hget_t, by linarith⟩
              · rw [hget_ne _ hnt]
                exact ⟨u, hu, hule⟩
      · -- the measure does not increase: one entry is pushed, but the
        -- target's lattice rank strictly drops
        unfold wmeasure
        simp only [List.length_append, List.length_singleton]
        have hsplit : ∀ (dist : Array (Option ℚ)),
            ∑ i ∈ Finset.range (w * h), gval (w * h) (oget dist i)
              = gval (w * h) (oget dist (ty * w + tx))
                + ∑ i ∈ (Finset.range (w * h)).erase (ty * w + tx),
                    gval (w * h) (oget dist i) := fun dist =>
          (Finset.add_sum_erase _ _ (Finset.mem_range.mpr htIdx)).symm
        rw [hsplit, hsplit st.dist]
        have hsame : ∀ i ∈ (Finset.range (w * h)).erase (ty * w + tx),
            gval (w * h) (oget (aset st.dist (ty * w + tx) (some (d₀ + stepLen dd))) i)
              = gval (w * h) (oget st.dist i) := by
          intro i hi
          rw [hget_ne i (Finset.mem_erase.mp hi).1]
        rw [Finset.sum_congr rfl hsame, hget_t]
        have hdrop : gval (w * h) (some (d₀ + stepLen dd)) + 1
            ≤ gval (w * h) (oget st.dist (ty * w + tx)) := by
          rcases hold_cases with hnone | ⟨u', hu', hlt⟩
          · rw [hnone]
            have hlt := gval_lt_of_le (w * h) (d₀ + stepLen dd) (by
              calc d₀ + stepLen dd ≤ 2 * (w * h) := hnew_le
                _ = 2 * ((w * h : ℕ) : ℚ) := by push_cast; ring)
            have hnv : gval (w * h) none = (2 * (w * h) + 1) ^ 2 := rfl
            omega
          · rw [hu']
            obtain ⟨a, b, hab⟩ := core.rep _ d₀ center
            obtain ⟨a', b', hab'⟩ := rep_add_step d₀ a b hab dd
            have := gval_strict_mono (w * h) (d₀ + stepLen dd) u' a' b' hab'
              (by calc d₀ + stepLen dd ≤ 2 * (w * h) := hnew_le
                    _ = 2 * ((w * h : ℕ) : ℚ) := by push_cast; ring) hlt
            omega
        omega

theorem wrelax_aux {lm rivers lakeMask : Array ℕ} {w h : ℕ} {x y : ℕ}
    (hx : x < w) (hy : y < h) {d₀ : ℚ} (hd₀ : 0 ≤ d₀) :
    ∀ (L done : List ℕ), (∀ dd ∈ L, dd < 8) →
      ∀ st, RInv lm rivers lakeMask w h x y d₀ done st →
        RInv lm rivers lakeMask w h x y d₀ (done ++ L)
            (L.foldl (wrelaxBody w h x y d₀) st) ∧
          wmeasure w h (L.foldl (wrelaxBody w h x y d₀) st) ≤ wmeasure w h st := by
  intro L
  induction L with
  | nil =>
    intro done _ st hinv
    rw [List.append_nil]
    exact ⟨hinv, le_refl _⟩
  | cons dd L ih =>
    intro done hL st hinv
    obtain ⟨h1, h2⟩ := wrelax_step hx hy hd₀ (hL dd (List.mem_cons_self dd L)) hinv
    obtain ⟨h3, h4⟩ := ih (done ++ [dd]) (fun dd' hdd' => hL dd' (List.mem_cons_of_mem _ hdd')) _ h1
    rw [List.foldl_cons]
    constructor
    · have happ : done ++ dd :: L = (done ++ [dd]) ++ L := by simp
      rw [happ]
      exact h3
    · exact le_trans h4 h2

/-- Popping one entry preserves the invariant and strictly decreases the
measure. -/

theorem wstep_inv {lm rivers lakeMask : Array ℕ} {w h : ℕ} {e : ℕ × ℕ × ℚ}
    {dist : Array (Option ℚ)} {rest : List (ℕ × ℕ × ℚ)}
    (hinv : WInv lm rivers lakeMask w h ⟨dist, e :: rest⟩) :
    WInv lm rivers lakeMask w h (wstep w h e ⟨dist, rest⟩) ∧
    wmeasure w h (wstep w h e ⟨dist, rest⟩) + 1 ≤ wmeasure w h ⟨dist, e :: rest⟩ := by
  obtain ⟨core, rinv⟩ := hinv
  have he : e ∈ e :: rest := List.mem_cons_self e rest
  obtain ⟨hex, hey⟩ := core.qbound e he
  obtain ⟨v, hv, hvle⟩ := core.qge e he
  have hcell : e.2.1 * w + e.1 < w * h := idx_lt hex hey
  unfold wstep
  by_cases hstale : gtD e.2.2 (oget dist (e.2.1 * w + e.1))
  case pos =>
    rw [if_pos hstale]
    constructor
    · refine ⟨⟨core.dsize, core.nonneg, core.water0, core.land1, core.rep,
        fun e' he' => core.qbound e' (List.mem_cons_of_mem _ he'),
        fun e' he' => core.qge e' (List.mem_cons_of_mem _ he'), core.urank⟩, ?_⟩
      intro c vc hc hvc
      rcases rinv c vc hc hvc with ⟨e', he', hec, hed⟩ | hB
      · left
        refine ⟨e', ?_, hec, hed⟩
        rcases List.mem_cons.mp he' with he' | he'
        · exfalso
          subst he'
          rw [hec] at hv
          rw [hvc] at hv
          injection hv with hv
          rw [hec, hvc] at hstale
          have hlt : vc < e'.2.2 := hstale
          rw [hv] at hlt
          linarith
        · exact he'
      · exact Or.inr hB
    · unfold wmeasure
      simp only [List.length_cons]
      omega
  case neg =>
    rw [if_neg hstale]
    have hveq : v = e.2.2 := by
      rw [hv] at hstale
      have : ¬(v < e.2.2) := hstale
      linarith
    have hd₀ : 0 ≤ e.2.2 := hveq ▸ core.nonneg _ v hv
    have hcenter : oget dist (e.2.1 * w + e.1) = some e.2.2 := by rw [hv, hveq]
    have hRinit : RInv lm rivers lakeMask w h e.1 e.2.1 e.2.2 [] ⟨dist, rest⟩ := by
      refine ⟨⟨core.dsize, core.nonneg, core.water0, core.land1, core.rep,
        fun e' he' => core.qbound e' (List.mem_cons_of_mem _ he'),
        fun e' he' => core.qge e' (List.mem_cons_of_mem _ he'), core.urank⟩,
        hcenter, ?_, ?_⟩
      · intro dd hdd
        cases hdd
      · intro c vc hc hcne hvc
        rcases rinv c vc hc hvc with ⟨e', he', hec, hed⟩ | hB
        · left
          refine ⟨e', ?_, hec, hed⟩
          rcases List.mem_cons.mp he' with he' | he'
          · exact absurd (he' ▸ hec).symm hcne
          · exact he'
        · exact Or.inr hB
    obtain ⟨hR, hM⟩ := wrelax_aux hex hey hd₀ (List.range 8) []
      (fun dd hdd => List.mem_range.mp hdd) _ hRinit
    constructor
    · refine ⟨hR.core, ?_⟩
      intro c vc hc hvc
      unfold wrelax at hvc
      by_cases hcc : c = e.2.1 * w + e.1
      · subst hcc
        right
        intro dd hdd8 hgrid
        have hmod : (e.2.1 * w + e.1) % w = e.1 := idx_mod w e.1 e.2.1 hex
        have hdiv : (e.2.1 * w + e.1) / w = e.2.1 := idx_div w e.1 e.2.1 hex
        rw [hmod, hdiv] at hgrid ⊢
        obtain ⟨u, hu, hule⟩ := hR.part dd (by simpa using List.mem_range.mpr hdd8) hgrid
        have hveq' : vc = e.2.2 := by
          rw [hR.center] at hvc
          injection hvc with hvc
          exact hvc.symm
        exact ⟨u, hu, by rw [hveq']; exact hule⟩
      · exact hR.others c vc hc hcc hvc
    · calc wmeasure w h (wrelax w h e.1 e.2.1 e.2.2 ⟨dist, rest⟩) + 1
          ≤ wmeasure w h (⟨dist, rest⟩ : WState) + 1 := by
            unfold wrelax
            omega
      _ = wmeasure w h (⟨dist, e :: rest⟩ : WState) := by
            unfold wmeasure
            simp only [List.length_cons]
            omega

/-- Enough fuel drives the queue to empty while keeping the invariant. -/

theorem wloop_reaches {lm rivers lakeMask : Array ℕ} {w h : ℕ} :
    ∀ (fuel : ℕ) (st : WState), WInv lm rivers lakeMask w h st →
      wmeasure w h st < fuel →
      WInv lm rivers lakeMask w h (wloop w h fuel st) ∧ (wloop w h fuel st).queue = [] := by
  intro fuel
  induction fuel with
  | zero => intro st _ hms; omega
  | succ fuel ih =>
    intro st hinv hms
    obtain ⟨dist, q⟩ := st
    cases q with
    | nil => exact ⟨hinv, rfl⟩
    | cons e rest =>
      obtain ⟨h1, h2⟩ := wstep_inv hinv
      have hms' : wmeasure w h (wstep w h e ⟨dist, rest⟩) < fuel := by omega
      exact ih _ h1 hms'

theorem winv_init (lm rivers lakeMask : Array ℕ) (w h : ℕ) :
    WInv lm rivers lakeMask w h (winit lm rivers lakeMask w h) := by
  have hsize := size_winit_dist lm rivers lakeMask w h
  have hval : ∀ i, i < w * h → oget (winit lm rivers lakeMask w h).dist i
      = if isWaterCell lm rivers lakeMask i then some 0 else none := by
    intro i hi
    rcases Nat.eq_zero_or_pos w with hw | hw
    · exfalso; subst hw; simp at hi
    have hxm : i % w < w := Nat.mod_lt i hw
    have hyd : i / w < h := Nat.div_lt_of_lt_mul (by omega)
    have hieq : i / w * w + i % w = i := by rw [Nat.mul_comm, Nat.div_add_mod]
    rw [← hieq]
    exact winit_dist_val lm rivers lakeMask w h hxm hyd
  refine ⟨⟨hsize, ?_, ?_, ?_, ?_, ?_, ?_, ?_⟩, ?_⟩
  · intro i v hv
    by_cases hi : i < w * h
    · rw [hval i hi] at hv
      split at hv
      · injection hv with hv
        rw [← hv]
      · cases hv
    · rw [oget_none_of_ge _ w h hsize (by omega)] at hv
      cases hv
  · intro i hi hw
    rw [hval i hi, if_pos hw]
  · intro i v hi hw hv
    rw [hval i hi, if_neg hw] at hv
    cases hv
  · intro i v hv
    by_cases hi : i < w * h
    · rw [hval i hi] at hv
      split at hv
      · injection hv with hv
        exact ⟨0, 0, by rw [← hv]; push_cast; ring⟩
      · cases hv
    · rw [oget_none_of_ge _ w h hsize (by omega)] at hv
      cases hv
  · intro e he
    have := winit_queue_prop lm rivers lakeMask w h e he
    exact ⟨this.1, this.2.1⟩
  · intro e he
    obtain ⟨h1, h2, h3, h4⟩ := winit_queue_prop lm rivers lakeMask w h e he
    refine ⟨0, ?_, by rw [h3]⟩
    rw [hval _ (idx_lt h1 h2), if_pos h4]
  · intro i v hi hv
    rw [hval i hi] at hv
    split at hv
    · injection hv with hv
      rw [← hv]
      positivity
    · cases hv
  · intro c v hc hv
    rw [hval c hc] at hv
    split at hv
    case isTrue hwc =>
      injection hv with hv
      left
      rcases Nat.eq_zero_or_pos w with hw | hw
      · exfalso; subst hw; simp at hc
      have hxm : c % w < w := Nat.mod_lt c hw
      have hyd : c / w < h := Nat.div_lt_of_lt_mul (by omega)
      have hieq : c / w * w + c % w = c := by rw [Nat.mul_comm, Nat.div_add_mod]
      refine ⟨(c % w, c / w, 0), ?_, by rw [hieq], by rw [← hv]⟩
      exact winit_queue_mem lm rivers lakeMask w h hxm hyd (by rw [hieq]; exact hwc)
    case isFalse => cases hv

theorem winit_queue_len (lm rivers lakeMask : Array ℕ) (w h : ℕ) :
    (winit lm rivers lakeMask w h).queue.length ≤ w * h := by
  have inner : ∀ (y : ℕ) (l : List ℕ) (st : WState),
      ((l.foldl (fun st x =>
        if isWaterCell lm rivers lakeMask (y * w + x) then
          WState.mk (aset st.dist (y * w + x) (some 0)) (st.queue ++ [(x, y, (0 : ℚ))])
        else st) st).queue).length ≤ st.queue.length + l.length := by
    intro y l
    induction l with
    | nil => intro st; simp
    | cons x l ih =>
      intro st
      rw [List.foldl_cons]
      have := ih (if isWaterCell lm rivers lakeMask (y * w + x) then
          WState.mk (aset st.dist (y * w + x) (some 0)) (st.queue ++ [(x, y, (0 : ℚ))])
        else st)
      have hone : ((if isWaterCell lm rivers lakeMask (y * w + x) then
          WState.mk (aset st.dist (y * w + x) (some 0)) (st.queue ++ [(x, y, (0 : ℚ))])
        else st).queue).length ≤ st.queue.length + 1 := by
        split
        · simp
        · simp
      simp only [List.length_cons]
      omega
  have outer : ∀ (l : List ℕ) (st : WState),
      ((l.foldl (fun st y =>
        (List.range w).foldl (fun st x =>
          if isWaterCell lm rivers lakeMask (y * w + x) then
            WState.mk (aset st.dist (y * w + x) (some 0)) (st.queue ++ [(x, y, (0 : ℚ))])
          else st) st) st).queue).length ≤ st.queue.length + l.length * w := by
    intro l
    induction l with
    | nil => intro st; simp
    | cons y l ih =>
      intro st
      rw [List.foldl_cons]
      have h1 := ih ((List.range w).foldl (fun st x =>
        if isWaterCell lm rivers lakeMask (y * w + x) then
          WState.mk (aset st.dist (y * w + x) (some 0)) (st.queue ++ [(x, y, (0 : ℚ))])
        else st) st)
      have h2 := inner y (List.range w) st
      rw [List.length_range] at h2
      simp only [List.length_cons]
      calc _ ≤ _ := h1
        _ ≤ st.queue.length + w + l.length * w := by omega
        _ = st.queue.length + (l.length + 1) * w := by ring
  have := outer (List.range h) ⟨Array.mkArray (w * h) none, []⟩
  unfold winit
  rw [List.length_range] at this
  calc _ ≤ _ := this
    _ = w * h := by simp [Nat.mul_comm]

theorem wmeasure_init_lt (lm rivers lakeMask : Array ℕ) (w h : ℕ) :
    wmeasure w h (winit lm rivers lakeMask w h) < wfuel w h := by
  unfold wmeasure wfuel
  have h1 := winit_queue_len lm rivers lakeMask w h
  have h2 : ∑ i ∈ Finset.range (w * h),
      gval (w * h) (oget (winit lm rivers lakeMask w h).dist i)
        ≤ w * h * (2 * (w * h) + 1) ^ 2 := by
    calc ∑ i ∈ Finset.range (w * h), gval (w * h) (oget (winit lm rivers lakeMask w h).dist i)
        ≤ ∑ _i ∈ Finset.range (w * h), (2 * (w * h) + 1) ^ 2 :=
          Finset.sum_le_sum (fun i _ => gval_le _ _)
      _ = w * h * (2 * (w * h) + 1) ^ 2 := by
          rw [Finset.sum_const, Finset.card_range, smul_eq_mul]
  omega

theorem stepToward_lt {c t b : ℕ} (hc : c < b) (ht : t < b) : stepToward c t < b := by
  unfold stepToward
  split_ifs <;> omega

theorem stepToward_dist {c t : ℕ} (h : c ≠ t) :
    (stepToward c t - t) + (t - stepToward c t) < (c - t) + (t - c) := by
  unfold stepToward
  split_ifs <;> omega

theorem stepToward_dist_le (c t : ℕ) :
    (stepToward c t - t) + (t - stepToward c t) ≤ (c - t) + (t - c) := by
  unfold stepToward
  split_ifs <;> omega

theorem stepToward_self (c t : ℕ) (h : c = t) : stepToward c t = c := by
  unfold stepToward
  split_ifs <;> omega

theorem stepToward_ne {c t : ℕ} (h : c ≠ t) : stepToward c t ≠ c := by
  unfold stepToward
  split_ifs <;> omega

theorem stepToward_diff_lb (c t : ℕ) : -1 ≤ (c : ℤ) - stepToward c t := by
  unfold stepToward
  split_ifs <;> push_cast <;> omega

theorem stepToward_diff_ub (c t : ℕ) : (c : ℤ) - stepToward c t ≤ 1 := by
  unfold stepToward
  split_ifs <;> push_cast <;> omega

theorem dir_exists (a b : ℤ) (ha : -1 ≤ a) (ha' : a ≤ 1) (hb : -1 ≤ b) (hb' : b ≤ 1)
    (hab : ¬(a = 0 ∧ b = 0)) : ∃ dd, dd < 8 ∧ dxAt dd = a ∧ dyAt dd = b := by
  interval_cases a <;> interval_cases b
  · exact ⟨7, by decide⟩
  · exact ⟨6, by decide⟩
  · exact ⟨5, by decide⟩
  · exact ⟨0, by decide⟩
  · exact absurd ⟨rfl, rfl⟩ hab
  · exact ⟨4, by decide⟩
  · exact ⟨1, by decide⟩
  · exact ⟨2, by decide⟩
  · exact ⟨3, by decide⟩

/-- With an empty queue and the invariant, every cell of the grid is at a
finite distance, provided some in-range water cell exists: the grid is
8-connected, and the final no-improving-edge property carries finiteness one
step at a time. -/

theorem wreach {lm rivers lakeMask : Array ℕ} {w h : ℕ} {st : WState}
    (hinv : WInv lm rivers lakeMask w h st) (hq : st.queue = [])
    {w₀ : ℕ} (hw₀ : w₀ < w * h) (hw₀w : isWaterCell lm rivers lakeMask w₀) :
    ∀ cx cy, cx < w → cy < h → ∃ v, oget st.dist (cy * w + cx) = some v := by
  have hwpos : 0 < w := by
    rcases Nat.eq_zero_or_pos w with hz | hp
    · exfalso; subst hz; simp at hw₀
    · exact hp
  have hwx : w₀ % w < w := Nat.mod_lt w₀ hwpos
  have hwy : w₀ / w < h := Nat.div_lt_of_lt_mul (by omega)
  have hw₀eq : w₀ / w * w + w₀ % w = w₀ := by rw [Nat.mul_comm, Nat.div_add_mod]
  -- the no-improving-edge property of the final state
  have hB : ∀ c v, c < w * h → oget st.dist c = some v →
      ∀ dd, dd < 8 → inGrid w h ((c % w : ℕ) + dxAt dd) ((c / w : ℕ) + dyAt dd) →
        ∃ u, oget st.dist ((((c / w : ℕ) : ℤ) + dyAt dd).toNat * w
            + (((c % w : ℕ) : ℤ) + dxAt dd).toNat) = some u ∧ u ≤ v + stepLen dd := by
    intro c v hc hv
    rcases hinv.rinv c v hc hv with ⟨e, he, _, _⟩ | hBc
    · rw [hq] at he
      cases he
    · exact hBc
  have main : ∀ n cx cy, cx < w → cy < h →
      (cx - w₀ % w) + (w₀ % w - cx) + (cy - w₀ / w) + (w₀ / w - cy) ≤ n →
      ∃ v, oget st.dist (cy * w + cx) = some v := by
    intro n
    induction n using Nat.strong_induction_on with
    | _ n IH =>
      intro cx cy hcx hcy hd
      by_cases h0 : cx = w₀ % w ∧ cy = w₀ / w
      · obtain ⟨rfl, rfl⟩ := h0
        refine ⟨0, ?_⟩
        rw [hw₀eq]
        exact hinv.core.water0 w₀ hw₀ hw₀w
      · push_neg at h0
        -- one grid step from (cx, cy) toward the water cell
        have hpxw : stepToward cx (w₀ % w) < w := stepToward_lt hcx hwx
        have hpyh : stepToward cy (w₀ / w) < h := stepToward_lt hcy hwy
        have hdp : (stepToward cx (w₀ % w) - w₀ % w) + (w₀ % w - stepToward cx (w₀ % w))
              + (stepToward cy (w₀ / w) - w₀ / w) + (w₀ / w - stepToward cy (w₀ / w))
            < (cx - w₀ % w) + (w₀ % w - cx) + (cy - w₀ / w) + (w₀ / w - cy) := by
          by_cases hxe : cx = w₀ % w
          · have hyne := stepToward_dist (h0 hxe)
            have hxeq := stepToward_self cx (w₀ % w) hxe
            have := stepToward_dist_le cx (w₀ % w)
            omega
          · have hxlt := stepToward_dist hxe
            have := stepToward_dist_le cy (w₀ / w)
            omega
        obtain ⟨vp, hvp⟩ := IH ((stepToward cx (w₀ % w) - w₀ % w)
            + (w₀ % w - stepToward cx (w₀ % w))
            + (stepToward cy (w₀ / w) - w₀ / w) + (w₀ / w - stepToward cy (w₀ / w)))
          (by omega) (stepToward cx (w₀ % w)) (stepToward cy (w₀ / w)) hpxw hpyh le_rfl
        set px := stepToward cx (w₀ % w) with hpx
        set py := stepToward cy (w₀ / w) with hpy
        -- find the direction from p to c
        obtain ⟨dd, hdd8, hdx, hdy⟩ := dir_exists ((cx : ℤ) - px) ((cy : ℤ) - py)
          (stepToward_diff_lb cx (w₀ % w)) (stepToward_diff_ub cx (w₀ % w))
          (stepToward_diff_lb cy (w₀ / w)) (stepToward_diff_ub cy (w₀ / w))
          (by
            intro ⟨h1, h2⟩
            by_cases hxe : cx = w₀ % w
            · have h2' : py = cy := by omega
              exact stepToward_ne (h0 hxe) h2'
            · have h1' : px = cx := by omega
              exact stepToward_ne hxe h1')
        have hpidx : py * w + px < w * h := idx_lt hpxw hpyh
        have hpmod : (py * w + px) % w = px := idx_mod w px py hpxw
        have hpdiv : (py * w + px) / w = py := idx_div w px py hpxw
        have hgrid : inGrid w h (((py * w + px) % w : ℕ) + dxAt dd)
            (((py * w + px) / w : ℕ) + dyAt dd) := by
          rw [hpmod, hpdiv, hdx, hdy]
          refine ⟨by omega, by omega, by omega, by omega⟩
        obtain ⟨u, hu, _⟩ := hB (py * w + px) vp hpidx hvp dd hdd8 hgrid
        rw [hpmod, hpdiv, hdx, hdy] at hu
        have hix : (((px : ℕ) : ℤ) + ((cx : ℤ) - px)).toNat = cx := by omega
        have hiy : (((py : ℕ) : ℤ) + ((cy : ℤ) - py)).toNat = cy := by omega
        rw [hix, hiy] at hu
        exact ⟨u, hu⟩
  intro cx cy hcx hcy
  exact main ((cx - w₀ % w) + (w₀ % w - cx) + (cy - w₀ / w) + (w₀ / w - cy))
    cx cy hcx hcy le_rfl

theorem wmaxDist_nonneg (dist : Array (Option ℚ)) (w h : ℕ) : 0 ≤ wmaxDist dist w h := by
  unfold wmaxDist
  refine foldl_inv (fun m => 0 ≤ m) _ (List.range (w * h)) ?_ 0 le_rfl
  intro m i _ hm
  dsimp only
  cases oget dist i with
  | none => exact hm
  | some v => exact le_trans hm (le_max_left m v)

theorem wmaxDist_ge (dist : Array (Option ℚ)) (w h : ℕ) {i : ℕ} (hi : i < w * h)
    {v : ℚ} (hv : oget dist i = some v) : v ≤ wmaxDist dist w h := by
  unfold wmaxDist
  refine foldl_pred_from (fun m => v ≤ m) _ (List.range (w * h)) i
    (List.mem_range.mpr hi) ?_ ?_ 0
  · intro m j _ hm
    dsimp only
    cases oget dist j with
    | none => exact hm
    | some u => exact le_trans hm (le_max_left m u)
  · intro m
    dsimp only
    rw [hv]
    exact le_max_right m v

/-- Per-cell value of the normalisation pass over a finite cell. -/

theorem wnorm_val (dist : Array (Option ℚ)) (w h : ℕ) (md : ℚ) (hsz : dist.size = w * h)
    {i : ℕ} (hi : i < w * h) {v : ℚ} (hv : oget dist i = some v) :
    oget ((List.range (w * h)).foldl (fun a j =>
        aset a j (match oget a j with
          | none => some 1
          | some u => some (min 1 (u / md)))) dist) i = some (min 1 (v / md)) := by
  have h := lineFold_getD none (w * h) (fun _ old => match old with
    | none => some 1
    | some u => some (min 1 (u / md))) dist hsz hi
  unfold oget at hv ⊢
  rw [hv] at h
  exact h

/-- C10 (amended): provided at least one in-range cell is water, every entry
returned by `calculateWaterDistance` is a finite value in `[0, 1]`, and every
water cell (ocean, river or lake) gets exactly 0.  The water-cell hypothesis
is necessary: with no water cell the BFS never starts and every entry stays
`Infinity` (see the counterexample). -/

theorem calculateWaterDistance_bounds (lm rivers lakeMask : Array ℕ) (w h : ℕ)
    (hwater : ∃ j, j < w * h ∧ isWaterCell lm rivers lakeMask j) :
    (∀ i, i < w * h → ∃ v, oget (calculateWaterDistance lm rivers lakeMask w h) i = some v
        ∧ 0 ≤ v ∧ v ≤ 1) ∧
    (∀ i, i < w * h → isWaterCell lm rivers lakeMask i →
      oget (calculateWaterDistance lm rivers lakeMask w h) i = some 0) := by
  obtain ⟨w₀, hw₀, hw₀w⟩ := hwater
  obtain ⟨hinvF, hqF⟩ := wloop_reaches (wfuel w h) (winit lm rivers lakeMask w h)
    (winv_init lm rivers lakeMask w h) (wmeasure_init_lt lm rivers lakeMask w h)
  have hreach : ∀ i, i < w * h →
      ∃ v, oget (wloop w h (wfuel w h) (winit lm rivers lakeMask w h)).dist i = some v := by
    intro i hi
    have hwpos : 0 < w := by
      rcases Nat.eq_zero_or_pos w with hz | hp
      · exfalso
        subst hz
        simp at hi
      · exact hp
    have hxm : i % w < w := Nat.mod_lt i hwpos
    have hyd : i / w < h := Nat.div_lt_of_lt_mul (by omega)
    have hr := wreach hinvF hqF hw₀ hw₀w (i % w) (i / w) hxm hyd
    rwa [show i / w * w + i % w = i from by rw [Nat.mul_comm, Nat.div_add_mod]] at hr
  have hcell : ∀ i, i < w * h → ∀ v,
      oget (wloop w h (wfuel w h) (winit lm rivers lakeMask w h)).dist i = some v →
      oget (calculateWaterDistance lm rivers lakeMask w h) i
        = if 0 < wmaxDist (wloop w h (wfuel w h) (winit lm rivers lakeMask w h)).dist w h
          then some (min 1 (v / wmaxDist (wloop w h (wfuel w h)
              (winit lm rivers lakeMask w h)).dist w h))
          else some v := by
    intro i hi v hv
    by_cases hmd : 0 < wmaxDist (wloop w h (wfuel w h) (winit lm rivers lakeMask w h)).dist w h
    · rw [if_pos hmd]
      unfold calculateWaterDistance
      dsimp only
      rw [if_pos hmd]
      exact wnorm_val _ w h _ hinvF.core.dsize hi hv
    · rw [if_neg hmd]
      unfold calculateWaterDistance
      dsimp only
      rw [if_neg hmd]
      exact hv
  constructor
  · intro i hi
    obtain ⟨v, hv⟩ := hreach i hi
    have h0v : 0 ≤ v := hinvF.core.nonneg i v hv
    have hvmd : v ≤ wmaxDist (wloop w h (wfuel w h) (winit lm rivers lakeMask w h)).dist w h :=
      wmaxDist_ge _ w h hi hv
    rw [hcell i hi v hv]
    by_cases hmd : 0 < wmaxDist (wloop w h (wfuel w h) (winit lm rivers lakeMask w h)).dist w h
    · rw [if_pos hmd]
      refine ⟨_, rfl, ?_, min_le_left _ _⟩
      exact le_min (by norm_num) (div_nonneg h0v (le_of_lt hmd))
    · rw [if_neg hmd]
      refine ⟨v, rfl, h0v, ?_⟩
      have hv0 : v ≤ 0 := le_trans hvmd (le_of_not_lt hmd)
      linarith
  · intro i hi hiw
    have hv0 : oget (wloop w h (wfuel w h) (winit lm rivers lakeMask w h)).dist i = some 0 :=
      hinvF.core.water0 i hi hiw
    rw [hcell i hi 0 hv0]
    by_cases hmd : 0 < wmaxDist (wloop w h (wfuel w h) (winit lm rivers lakeMask w h)).dist w h
    · rw [if_pos hmd, zero_div]
      norm_num
    · rw [if_neg hmd]

/-- Witness for the amended C10 bound on a concrete 2×1 grid with one ocean
cell and one land cell. -/

theorem calculateWaterDistance_bounds_witness :
    (∃ j, j < 2 * 1 ∧ isWaterCell #[0, 1] #[0, 0] #[0, 0] j) ∧
    (∃ v, oget (calculateWaterDistance #[0, 1] #[0, 0] #[0, 0] 2 1) 1 = some v
        ∧ 0 ≤ v ∧ v ≤ 1) ∧
    oget (calculateWaterDistance #[0, 1] #[0, 0] #[0, 0] 2 1) 0 = some 0 :=
  ⟨⟨0, by decide, by decide⟩,
    (calculateWaterDistance_bounds #[0, 1] #[0, 0] #[0, 0] 2 1
      ⟨0, by decide, by decide⟩).1 1 (by decide),
    (calculateWaterDistance_bounds #[0, 1] #[0, 0] #[0, 0] 2 1
      ⟨0, by decide, by decide⟩).2 0 (by decide) (by decide)⟩

/-- C10 counterexample: on a 1×1 all-land input there is no water cell, the
BFS never starts, the observed maximum stays 0, the normalisation pass is
skipped, and the single returned entry is still `Infinity` (`none`) — not a
value in `[0, 1]` as the original claim requires of every input. -/

theorem calculateWaterDistance_cx :
    oget (calculateWaterDistance #[1] #[0] #[0] 1 1) 0 = none := by
  decide

/-- C1: `generateWorld` is a pure function of the abstract `Math` model and
the settings record (which carries the seed): two independent calls on the
same inputs produce identical layer arrays and identical city and road lists,
componentwise.  The embedding threads the PRNG — the source's only mutable
state — explicitly, so purity of the Lean function is faithfulness of this
claim. -/

theorem generateWorld_deterministic (M : MathModel) (s₁ s₂ : Settings) (h : s₁ = s₂) :
    (generateWorld M s₁).heightMap = (generateWorld M s₂).heightMap ∧
    (generateWorld M s₁).landMask = (generateWorld M s₂).landMask ∧
    (generateWorld M s₁).temperature = (generateWorld M s₂).temperature ∧
    (generateWorld M s₁).moisture = (generateWorld M s₂).moisture ∧
    (generateWorld M s₁).biome = (generateWorld M s₂).biome ∧
    (generateWorld M s₁).flowDir = (generateWorld M s₂).flowDir ∧
    (generateWorld M s₁).flowAccum = (generateWorld M s₂).flowAccum ∧
    (generateWorld M s₁).rivers = (generateWorld M s₂).rivers ∧
    (generateWorld M s₁).forest = (generateWorld M s₂).forest ∧
    (generateWorld M s₁).continentId = (generateWorld M s₂).continentId ∧
    (generateWorld M s₁).mountainMask = (generateWorld M s₂).mountainMask ∧
    (generateWorld M s₁).lakeMask = (generateWorld M s₂).lakeMask ∧
    (generateWorld M s₁).cities = (generateWorld M s₂).cities ∧
    (generateWorld M s₁).roads = (generateWorld M s₂).roads := by
  subst h
  exact ⟨rfl, rfl, rfl, rfl, rfl, rfl, rfl, rfl, rfl, rfl, rfl, rfl, rfl, rfl⟩

/-- Witness for C1 at a concrete model and concrete settings. -/

theorem generateWorld_deterministic_witness :
    (generateWorld ⟨fun _ => 0, fun _ => 0, fun _ => 0, fun _ => 0, fun _ _ => 0, 0⟩
        DEFAULT_SETTINGS).heightMap
      = (generateWorld ⟨fun _ => 0, fun _ => 0, fun _ => 0, fun _ => 0, fun _ _ => 0, 0⟩
        DEFAULT_SETTINGS).heightMap :=
  (generateWorld_deterministic
    ⟨fun _ => 0, fun _ => 0, fun _ => 0, fun _ => 0, fun _ _ => 0, 0⟩
    DEFAULT_SETTINGS DEFAULT_SETTINGS rfl).1

/-- C5: replacing the roads sub-record (e.g. disabling roads or changing any
cost) while keeping the seed and all other settings leaves every output except
the road list unchanged: no stage before road generation reads
`settings.roads`, and road generation draws no randomness. -/

theorem roads_fork_independent (M : MathModel) (s : Settings) (r' : RoadsSettings) :
    (generateWorld M {s with roads := r'}).heightMap = (generateWorld M s).heightMap ∧
    (generateWorld M {s with roads := r'}).landMask = (generateWorld M s).landMask ∧
    (generateWorld M {s with roads := r'}).temperature
      = (generateWorld M s).temperature ∧
    (generateWorld M {s with roads := r'}).moisture = (generateWorld M s).moisture ∧
    (generateWorld M {s with roads := r'}).biome = (generateWorld M s).biome ∧
    (generateWorld M {s with roads := r'}).flowDir = (generateWorld M s).flowDir ∧
    (generateWorld M {s with roads := r'}).flowAccum = (generateWorld M s).flowAccum ∧
    (generateWorld M {s with roads := r'}).rivers = (generateWorld M s).rivers ∧
    (generateWorld M {s with roads := r'}).forest = (generateWorld M s).forest ∧
    (generateWorld M {s with roads := r'}).continentId
      = (generateWorld M s).continentId ∧
    (generateWorld M {s with roads := r'}).mountainMask
      = (generateWorld M s).mountainMask ∧
    (generateWorld M {s with roads := r'}).lakeMask = (generateWorld M s).lakeMask ∧
    (generateWorld M {s with roads := r'}).cities = (generateWorld M s).cities := by
  have hmap : ({s with roads := r'}).map = s.map := rfl
  have h1 : ∀ p, generateContinentSeeds M {s with roads := r'} p
      = generateContinentSeeds M s p := fun _ => rfl
  have h2 : ∀ sd n p, generateContinentMask M {s with roads := r'} sd n p
      = generateContinentMask M s sd n p := fun _ _ _ => rfl
  have h3 : ∀ lm p, generateMountainRanges M {s with roads := r'} lm p
      = generateMountainRanges M s lm p := fun _ _ => rfl
  have h4 : ∀ lm rg n p, generateHeightMap M {s with roads := r'} lm rg n p
      = generateHeightMap M s lm rg n p := fun _ _ _ _ => rfl
  have h5 : ∀ fa fd lm hm w h, generateRivers M fa fd lm hm {s with roads := r'} w h
      = generateRivers M fa fd lm hm s w h := fun _ _ _ _ _ _ => rfl
  have h6 : ∀ hm lm fd w h, detectLakes hm lm fd {s with roads := r'} w h
      = detectLakes hm lm fd s w h := fun _ _ _ _ _ => rfl
  have h7 : ∀ hm lm w h n, generateTemperature M hm lm {s with roads := r'} w h n
      = generateTemperature M hm lm s w h n := fun _ _ _ _ _ => rfl
  have h8 : ∀ hm lm wd w h n, generateMoisture M hm lm wd {s with roads := r'} w h n
      = generateMoisture M hm lm wd s w h n := fun _ _ _ _ _ _ => rfl
  have h9 : ∀ hm lm lk tp mo w h, classifyBiomes hm lm lk tp mo {s with roads := r'} w h
      = classifyBiomes hm lm lk tp mo s w h := fun _ _ _ _ _ _ _ => rfl
  have h10 : ∀ b mo wd w h n, generateForests M b mo wd {s with roads := r'} w h n
      = generateForests M b mo wd s w h n := fun _ _ _ _ _ _ => rfl
  have h11 : ∀ hm lm b rv w h p, placeCities M hm lm b rv {s with roads := r'} w h p
      = placeCities M hm lm b rv s w h p := fun _ _ _ _ _ _ _ => rfl
  refine ⟨?_, ?_, ?_, ?_, ?_, ?_, ?_, ?_, ?_, ?_, ?_, ?_, ?_⟩ <;>
    simp only [generateWorld, hmap, h1, h2, h3, h4, h5, h6, h7, h8, h9, h10, h11]

/-! ### Layer sizes: every stage allocates `width * height` cells -/

theorem size_continentInfl (M : MathModel) (s : Settings) (seeds : List ContinentSeed) :
    (continentInfl M s seeds).1.size = s.map.width * s.map.height ∧
    (continentInfl M s seeds).2.size = s.map.width * s.map.height := by
  unfold continentInfl
  refine foldl_inv (fun (st : Array ℚ × Array ℕ) =>
      st.1.size = s.map.width * s.map.height
      ∧ st.2.size = s.map.width * s.map.height) _ (List.range s.map.height) ?_ _
    ⟨Array.size_mkArray _ _, Array.size_mkArray _ _⟩
  intro a y _ ha
  refine foldl_inv (fun (st : Array ℚ × Array ℕ) =>
      st.1.size = s.map.width * s.map.height
      ∧ st.2.size = s.map.width * s.map.height) _ (List.range s.map.width) ?_ a ha
  intro b x _ hb
  dsimp only
  rw [size_aset, size_aset]
  exact hb

theorem size_continentLand (M : MathModel) (s : Settings) (infl : Array ℚ)
    (n : SimplexNoise) : (continentLand M s infl n).size = s.map.width * s.map.height := by
  unfold continentLand
  rw [foldl_size, Array.size_mkArray]
  intro a y
  rw [foldl_size]
  intro a x
  split
  · exact size_aset a _ _
  · rfl

theorem size_archipelagoPass (M : MathModel) (s : Settings) (n : SimplexNoise)
    (lmk cid : Array ℕ) (p : PRNG) :
    (archipelagoPass M s n lmk cid p).1.size = lmk.size ∧
    (archipelagoPass M s n lmk cid p).2.1.size = cid.size := by
  unfold archipelagoPass
  refine foldl_inv (fun (st : Array ℕ × Array ℕ × PRNG) =>
      st.1.size = lmk.size ∧ st.2.1.size = cid.size) _ (List.range s.map.height) ?_ _
    ⟨rfl, rfl⟩
  intro a y _ ha
  refine foldl_inv (fun (st : Array ℕ × Array ℕ × PRNG) =>
      st.1.size = lmk.size ∧ st.2.1.size = cid.size) _ (List.range s.map.width) ?_ a ha
  intro b x _ hb
  dsimp only
  split
  · split
    · split
      · split
        · dsimp only
          rw [size_aset, size_aset]
          exact ⟨hb.1, hb.2⟩
        · exact hb
      · exact hb
    · exact hb
  · exact hb

theorem size_generateContinentMask (M : MathModel) (s : Settings)
    (seeds : List ContinentSeed) (n : SimplexNoise) (p : PRNG) :
    (generateContinentMask M s seeds n p).1.size = s.map.width * s.map.height ∧
    (generateContinentMask M s seeds n p).2.size = s.map.width * s.map.height := by
  unfold generateContinentMask
  dsimp only
  split
  · constructor
    · rw [(size_archipelagoPass M s _ _ _ _).1, size_continentLand]
    · rw [(size_archipelagoPass M s _ _ _ _).2]
      exact (size_continentInfl M s seeds).2
  · exact ⟨size_continentLand M s _ n, (size_continentInfl M s seeds).2⟩

theorem size_erosionPass (lm : Array ℕ) (w h : ℕ) (hm : Array ℚ) :
    (erosionPass lm w h hm).size = hm.size := by
  unfold erosionPass
  dsimp only
  rw [foldl_size]
  intro a i
  exact size_aset a _ _

theorem size_heightBase (M : MathModel) (s : Settings) (lm : Array ℕ)
    (ranges : List MountainRange) (n rn : SimplexNoise) :
    (heightBase M s lm ranges n rn).1.size = s.map.width * s.map.height ∧
    (heightBase M s lm ranges n rn).2.size = s.map.width * s.map.height := by
  unfold heightBase
  refine foldl_inv (fun (st : Array ℚ × Array ℕ) =>
      st.1.size = s.map.width * s.map.height
      ∧ st.2.size = s.map.width * s.map.height) _ (List.range s.map.height) ?_ _
    ⟨Array.size_mkArray _ _, Array.size_mkArray _ _⟩
  intro a y _ ha
  refine foldl_inv (fun (st : Array ℚ × Array ℕ) =>
      st.1.size = s.map.width * s.map.height
      ∧ st.2.size = s.map.width * s.map.height) _ (List.range s.map.width) ?_ a ha
  intro b x _ hb
  dsimp only
  split
  · rw [size_aset]
    exact ⟨hb.1, hb.2⟩
  · split
    · dsimp only
      rw [size_aset, size_aset]
      exact ⟨hb.1, hb.2⟩
    · rw [size_aset]
      exact ⟨hb.1, hb.2⟩

theorem size_generateHeightMap (M : MathModel) (s : Settings) (lm : Array ℕ)
    (ranges : List MountainRange) (n : SimplexNoise) (p : PRNG) :
    (generateHeightMap M s lm ranges n p).1.size = s.map.width * s.map.height ∧
    (generateHeightMap M s lm ranges n p).2.size = s.map.width * s.map.height := by
  unfold generateHeightMap
  dsimp only
  refine ⟨?_, (size_heightBase M s lm ranges n _).2⟩
  refine foldl_inv (fun (a : Array ℚ) => a.size = s.map.width * s.map.height)
    (fun hm _ => erosionPass lm s.map.width s.map.height hm)
    (List.range (jsLoopCount s.elevation.erosionThermalIterations)) ?_ _
    (size_heightBase M s lm ranges n _).1
  intro a _ _ ha
  rw [size_erosionPass]
  exact ha

theorem size_generateTemperature (M : MathModel) (hm : Array ℚ) (lm : Array ℕ)
    (s : Settings) (w h : ℕ) (n : SimplexNoise) :
    (generateTemperature M hm lm s w h n).size = w * h := by
  unfold generateTemperature
  rw [foldl_size, Array.size_mkArray]
  intro a y
  rw [foldl_size]
  intro a x
  exact size_aset a _ _

theorem size_generateMoisture (M : MathModel) (hm : Array ℚ) (lm : Array ℕ)
    (wd : Array (Option ℚ)) (s : Settings) (w h : ℕ) (n : SimplexNoise) :
    (generateMoisture M hm lm wd s w h n).size = w * h := by
  unfold generateMoisture
  dsimp only
  rw [foldl_size, Array.size_mkArray]
  intro a y
  rw [foldl_size]
  intro a x
  dsimp only
  split
  · exact size_aset a _ _
  · exact size_aset a _ _

theorem size_classifyBiomes (hm : Array ℚ) (lm lakeMask : Array ℕ)
    (tp mo : Array ℚ) (s : Settings) (w h : ℕ) :
    (classifyBiomes hm lm lakeMask tp mo s w h).size = w * h := by
  unfold classifyBiomes
  rw [foldl_size, Array.size_mkArray]
  intro a y
  rw [foldl_size]
  intro a x
  exact size_aset a _ _

theorem size_kloop_acc (fd : Array ℤ) (lm : Array ℕ) (w h : ℕ) :
    ∀ (fuel : ℕ) (st : KState), (kloop fd lm w h fuel st).acc.size = st.acc.size := by
  intro fuel
  induction fuel with
  | zero => intro st; rfl
  | succ fuel ih =>
    intro st
    obtain ⟨acc, deg, q⟩ := st
    match q with
    | [] => rfl
    | i :: rest =>
      rw [kloop, ih]
      unfold kstep
      split
      · rfl
      · exact size_aset _ _ _

theorem size_calculateFlowAccumulation (fd : Array ℤ) (lm : Array ℕ) (w h : ℕ) :
    (calculateFlowAccumulation fd lm w h).size = w * h := by
  unfold calculateFlowAccumulation
  rw [size_kloop_acc]
  exact Array.size_mkArray _ _

theorem size_generateRivers (M : MathModel) (fa : Array ℚ) (fd : Array ℤ)
    (lm : Array ℕ) (hm : Array ℚ) (s : Settings) (w h : ℕ) :
    (generateRivers M fa fd lm hm s w h).size = w * h := by
  unfold generateRivers
  rw [foldl_size, Array.size_mkArray]
  intro a i
  split
  · exact size_aset a _ _
  · rfl

theorem size_generateForests (M : MathModel) (b : Array ℕ) (mo : Array ℚ)
    (wd : Array (Option ℚ)) (s : Settings) (w h : ℕ) (n : SimplexNoise) :
    (generateForests M b mo wd s w h n).size = w * h := by
  unfold generateForests
  split
  · rw [foldl_size, Array.size_mkArray]
    intro a y
    rw [foldl_size]
    intro a x
    dsimp only
    split
    · split
      · rfl
      · split_ifs <;> first | rfl | exact size_aset a _ _
    · rfl
  · exact Array.size_mkArray _ _

theorem size_lakeFill (hm : Array ℚ) (lm : Array ℕ) (w h : ℕ) (lh : ℚ) :
    ∀ (fuel : ℕ) (st : LakeState),
      (lakeFill hm lm w h lh fuel st).lakeMask.size = st.lakeMask.size := by
  intro fuel
  induction fuel with
  | zero => intro st; rfl
  | succ fuel ih =>
    intro st
    obtain ⟨lk, q, vis, sz⟩ := st
    match q with
    | [] => rfl
    | c :: rest =>
      rw [lakeFill]
      dsimp only
      split
      · rfl
      · split
        · rw [ih]
        · split
          · rw [ih]
            exact size_aset _ _ _
          · rw [ih]

theorem size_detectLakes (hm : Array ℚ) (lm : Array ℕ) (fd : Array ℤ)
    (s : Settings) (w h : ℕ) : (detectLakes hm lm fd s w h).size = w * h := by
  unfold detectLakes
  split
  · rw [foldl_size, Array.size_mkArray]
    intro a y
    rw [foldl_size]
    intro a x
    dsimp only
    split
    · rfl
    · split
      · rfl
      · rw [size_lakeFill]
  · exact Array.size_mkArray _ _

/-- `generateWorld` allocates every raster layer at `width * height` and
echoes the dimensions, for every settings record and model — there is no
validation anywhere in the pipeline. -/

theorem generateWorld_sizes (M : MathModel) (s : Settings) :
    (generateWorld M s).width = s.map.width ∧
    (generateWorld M s).height = s.map.height ∧
    (generateWorld M s).heightMap.size = s.map.width * s.map.height ∧
    (generateWorld M s).landMask.size = s.map.width * s.map.height ∧
    (generateWorld M s).temperature.size = s.map.width * s.map.height ∧
    (generateWorld M s).moisture.size = s.map.width * s.map.height ∧
    (generateWorld M s).biome.size = s.map.width * s.map.height ∧
    (generateWorld M s).flowDir.size = s.map.width * s.map.height ∧
    (generateWorld M s).flowAccum.size = s.map.width * s.map.height ∧
    (generateWorld M s).rivers.size = s.map.width * s.map.height ∧
    (generateWorld M s).forest.size = s.map.width * s.map.height ∧
    (generateWorld M s).continentId.size = s.map.width * s.map.height ∧
    (generateWorld M s).mountainMask.size = s.map.width * s.map.height ∧
    (generateWorld M s).lakeMask.size = s.map.width * s.map.height := by
  unfold generateWorld
  dsimp only
  exact ⟨rfl, rfl,
    (size_generateHeightMap M s _ _ _ _).1,
    (size_generateContinentMask M s _ _ _).1,
    size_generateTemperature M _ _ s _ _ _,
    size_generateMoisture M _ _ _ s _ _ _,
    size_classifyBiomes _ _ _ _ _ s _ _,
    size_calcFD _ _ _ _,
    size_calculateFlowAccumulation _ _ _ _,
    size_generateRivers M _ _ _ _ s _ _,
    size_generateForests M _ _ _ s _ _ _,
    (size_generateContinentMask M s _ _ _).2,
    (size_generateHeightMap M s _ _ _ _).2,
    size_detectLakes _ _ _ s _ _⟩

/-- C2 (amended): `generateWorld` performs no configuration validation at all.
For every settings record — including one with `seaLevel` outside `(0, 1)` or
`continentCountMin > continentCountMax` — generation runs every stage and
returns a complete snapshot whose raster layers all have `width * height`
entries.  The original claim (fail fast with a field-identifying error before
any stage) describes behaviour the source does not contain; see the
counterexample. -/

theorem generateWorld_never_fails (M : MathModel) (s : Settings) :
    (generateWorld M s).width = s.map.width ∧
    (generateWorld M s).height = s.map.height ∧
    (generateWorld M s).heightMap.size = s.map.width * s.map.height ∧
    (generateWorld M s).landMask.size = s.map.width * s.map.height ∧
    (generateWorld M s).temperature.size = s.map.width * s.map.height ∧
    (generateWorld M s).moisture.size = s.map.width * s.map.height ∧
    (generateWorld M s).biome.size = s.map.width * s.map.height ∧
    (generateWorld M s).flowDir.size = s.map.width * s.map.height ∧
    (generateWorld M s).flowAccum.size = s.map.width * s.map.height ∧
    (generateWorld M s).rivers.size = s.map.width * s.map.height ∧
    (generateWorld M s).forest.size = s.map.width * s.map.height ∧
    (generateWorld M s).continentId.size = s.map.width * s.map.height ∧
    (generateWorld M s).mountainMask.size = s.map.width * s.map.height ∧
    (generateWorld M s).lakeMask.size = s.map.width * s.map.height :=
  generateWorld_sizes M s

/-- C2 counterexample: on `invalidSettings` (sea level `3/2` outside `(0,1)`
and an inverted continent-count range) `generateWorld` does not fail — it
returns a fully populated snapshot with every layer allocated.  The original
claim requires a validation failure before any stage executes. -/

theorem generateWorld_no_validation_cx :
    1 < invalidSettings.map.seaLevel ∧
    invalidSettings.continents.continentCountMax
      < invalidSettings.continents.continentCountMin ∧
    (generateWorld M0 invalidSettings).width = 1 ∧
    (generateWorld M0 invalidSettings).height = 1 ∧
    (generateWorld M0 invalidSettings).heightMap.size = 1 ∧
    (generateWorld M0 invalidSettings).landMask.size = 1 ∧
    (generateWorld M0 invalidSettings).biome.size = 1 :=
  ⟨by norm_num [invalidSettings], by norm_num [invalidSettings],
   (generateWorld_sizes M0 invalidSettings).1,
   (generateWorld_sizes M0 invalidSettings).2.1,
   (generateWorld_sizes M0 invalidSettings).2.2.1,
   (generateWorld_sizes M0 invalidSettings).2.2.2.1,
   (generateWorld_sizes M0 invalidSettings).2.2.2.2.2.2.1⟩

/-- C9: biome classification is total and follows the documented first-match
rule order.  For every cell of the grid, the ordered rule list always has a
matching rule (totality: the result is `some _`, never `none`), and the first
match is exactly the value `classifyBiomes` stores for that cell. -/

theorem classifyBiomes_firstMatch (hm : Array ℚ) (lm lakeMask : Array ℕ)
    (tp mo : Array ℚ) (s : Settings) (w h : ℕ) (x y : ℕ)
    (hx : x < w) (hy : y < h) :
    firstMatch (biomeRules s lm lakeMask w h x y (qget hm (y * w + x))
        (qget tp (y * w + x)) (qget mo (y * w + x)))
      = some (nget (classifyBiomes hm lm lakeMask tp mo s w h) (y * w + x)) := by
  have hcell : nget (classifyBiomes hm lm lakeMask tp mo s w h) (y * w + x)
      = classifyCell s lm lakeMask w h x y (qget hm (y * w + x))
        (qget tp (y * w + x)) (qget mo (y * w + x)) := by
    unfold classifyBiomes nget
    exact gridFold_getD 0 w h (w * h)
      (fun b x y => aset b (y * w + x) (classifyCell s lm lakeMask w h x y
        (qget hm (y * w + x)) (qget tp (y * w + x)) (qget mo (y * w + x))))
      (fun x y _ => classifyCell s lm lakeMask w h x y (qget hm (y * w + x))
        (qget tp (y * w + x)) (qget mo (y * w + x)))
      (Array.mkArray (w * h) 0) (Array.size_mkArray _ _)
      (fun a x y => size_aset a _ _)
      (fun a x y j hj => getD_aset_ne a _ j _ _ (fun hh => hj hh.symm))
      (fun a x y ha hx hy => getD_aset_eq a _ _ _ (by rw [ha]; exact idx_lt hx hy))
      hx hy
  rw [hcell]
  clear hcell
  unfold classifyCell firstMatch biomeRules
  by_cases a1 : nget lm (y * w + x) = 0
  · simp [List.find?, a1]
  by_cases a2 : nget lakeMask (y * w + x) = 1
  · simp [List.find?, a1, a2]
  by_cases a34 : (qget hm (y * w + x) - s.map.seaLevel) / (1 - s.map.seaLevel)
      < s.biomes.beachElevationRange ∧ nearOceanB lm w h x y = true
  · obtain ⟨a3, a4⟩ := a34
    simp [List.find?, a1, a2, a3, a4]
  have hg : (decide ((qget hm (y * w + x) - s.map.seaLevel) / (1 - s.map.seaLevel)
      < s.biomes.beachElevationRange) && nearOceanB lm w h x y) = false := by
    by_cases a3 : (qget hm (y * w + x) - s.map.seaLevel) / (1 - s.map.seaLevel)
        < s.biomes.beachElevationRange
    · have hb : nearOceanB lm w h x y = false := by
        cases hB : nearOceanB lm w h x y
        · rfl
        · exact absurd ⟨a3, hB⟩ a34
      simp [hb]
    · simp [a3]
  by_cases a5 : s.biomes.mountainElevationMin
      ≤ (qget hm (y * w + x) - s.map.seaLevel) / (1 - s.map.seaLevel)
  · by_cases a6 : qget tp (y * w + x) < s.biomes.snowTempMax * 1.5
    · simp [List.find?, a1, a2, a34, hg, a5, a6]
    · simp [List.find?, a1, a2, a34, hg, a5, a6]
  by_cases a7 : qget tp (y * w + x) < s.biomes.snowTempMax
  · simp [List.find?, a1, a2, a34, hg, a5, a7]
  by_cases a8 : qget tp (y * w + x) < s.biomes.snowTempMax * 2
  · by_cases a9 : qget mo (y * w + x) < 0.3
    · simp [List.find?, a1, a2, a34, hg, a5, a7, a8, a9]
    · simp [List.find?, a1, a2, a34, hg, a5, a7, a8, a9]
  by_cases a10 : qget tp (y * w + x) < 0.5
  · by_cases a11 : qget mo (y * w + x) < s.biomes.desertMoistureMax
    · simp [List.find?, a1, a2, a34, hg, a5, a7, a8, a10, a11]
    by_cases a12 : qget mo (y * w + x) < 0.5
    · simp [List.find?, a1, a2, a34, hg, a5, a7, a8, a10, a11, a12]
    · simp [List.find?, a1, a2, a34, hg, a5, a7, a8, a10, a11, a12]
  by_cases a13 : qget tp (y * w + x) < 0.75
  · by_cases a11 : qget mo (y * w + x) < s.biomes.desertMoistureMax
    · simp [List.find?, a1, a2, a34, hg, a5, a7, a8, a10, a13, a11]
    by_cases a14 : qget mo (y * w + x) < 0.4
    · simp [List.find?, a1, a2, a34, hg, a5, a7, a8, a10, a13, a11, a14]
    by_cases a15 : qget mo (y * w + x) < 0.7
    · simp [List.find?, a1, a2, a34, hg, a5, a7, a8, a10, a13, a11, a14, a15]
    · simp [List.find?, a1, a2, a34, hg, a5, a7, a8, a10, a13, a11, a14, a15]
  by_cases a11 : qget mo (y * w + x) < s.biomes.desertMoistureMax
  · simp [List.find?, a1, a2, a34, hg, a5, a7, a8, a10, a13, a11]
  by_cases a16 : qget mo (y * w + x) < 0.35
  · simp [List.find?, a1, a2, a34, hg, a5, a7, a8, a10, a13, a11, a16]
  by_cases a17 : qget mo (y * w + x) < 0.6
  · simp [List.find?, a1, a2, a34, hg, a5, a7, a8, a10, a13, a11, a16, a17]
  · simp [List.find?, a1, a2, a34, hg, a5, a7, a8, a10, a13, a11, a16, a17]

/-- Witness for C9 on a concrete 1×1 grid (a land cell at default settings). -/

theorem classifyBiomes_firstMatch_witness :
    ((0 : ℕ) < 1 ∧ (0 : ℕ) < 1) ∧
    firstMatch (biomeRules DEFAULT_SETTINGS #[1] #[0] 1 1 0 0
        (qget #[(1 : ℚ)] (0 * 1 + 0)) (qget #[(0.5 : ℚ)] (0 * 1 + 0))
        (qget #[(0.5 : ℚ)] (0 * 1 + 0)))
      = some (nget (classifyBiomes #[(1 : ℚ)] #[1] #[0] #[(0.5 : ℚ)] #[(0.5 : ℚ)]
        DEFAULT_SETTINGS 1 1) (0 * 1 + 0)) :=
  ⟨⟨by decide, by decide⟩,
   classifyBiomes_firstMatch #[(1 : ℚ)] #[1] #[0] #[(0.5 : ℚ)] #[(0.5 : ℚ)]
     DEFAULT_SETTINGS 1 1 0 0 (by decide) (by decide)⟩

/-! ### City spacing (C6) and capital placement (C7) -/

/-- A cell accepted by the sampling loop passed the spacing check against
every already-placed city. -/

theorem citySample_spaced (M : MathModel) (scores : Array ℚ) (placed : List ℕ)
    (s : Settings) (w h : ℕ) (p : PRNG) {bi : ℕ}
    (hbi : (citySample M scores placed s w h p).1 = some bi) :
    ∀ cidx ∈ placed,
      ¬ (M.sqrt ((((bi % w : ℕ) : ℚ) - ((cidx % w : ℕ) : ℚ))
            * (((bi % w : ℕ) : ℚ) - ((cidx % w : ℕ) : ℚ))
          + (((bi / w : ℕ) : ℚ) - ((cidx / w : ℕ) : ℚ))
            * (((bi / w : ℕ) : ℚ) - ((cidx / w : ℕ) : ℚ)))
        < s.cities.minSpacing) := by
  unfold citySample at hbi
  revert hbi
  refine (foldl_inv (fun (st : Option ℕ × ℚ × PRNG) =>
      ∀ b, st.1 = some b → ∀ cidx ∈ placed,
        ¬ (M.sqrt ((((b % w : ℕ) : ℚ) - ((cidx % w : ℕ) : ℚ))
              * (((b % w : ℕ) : ℚ) - ((cidx % w : ℕ) : ℚ))
            + (((b / w : ℕ) : ℚ) - ((cidx / w : ℕ) : ℚ))
              * (((b / w : ℕ) : ℚ) - ((cidx / w : ℕ) : ℚ)))
          < s.cities.minSpacing))
    _ (List.range (min 1000 (w * h))) ?_ _ ?_) bi
  · intro st k _ hst
    dsimp only
    rcases hnx : st.2.2.next with ⟨u, p'⟩
    split
    · exact fun b hb => hst b hb
    · split
      · exact fun b hb => hst b hb
      · next hany =>
        intro b hb
        cases hb
        intro cidx hmem
        simp only [Bool.not_eq_true] at hany
        have := List.any_eq_false.mp hany cidx hmem
        simpa using this
  · intro b hb
    cases hb

/-- C6: any two distinct cities returned by `placeCities` are at least
`minSpacing` apart.  Distance is expressed by its square (the source compares
`Math.sqrt` of the squared distance against `minSpacing`; for any
nonnegative under-estimating square root — `SqrtLB`, satisfied by the real
`Math.sqrt` — the accepted candidate's squared distance then dominates the
square of `minSpacing`).  A nonnegative `minSpacing` is assumed, as the
squared comparison does not express the claim for a negative spacing. -/

theorem placeCities_spacing (M : MathModel) (hm : Array ℚ) (lm biome rivers : Array ℕ)
    (s : Settings) (w h : ℕ) (p : PRNG) (hsq : SqrtLB M.sqrt)
    (hms : 0 ≤ s.cities.minSpacing) :
    ∀ k l, k < l → l < (placeCities M hm lm biome rivers s w h p).length →
      s.cities.minSpacing * s.cities.minSpacing
        ≤ ((((placeCities M hm lm biome rivers s w h p).getD k dummyCity).x : ℚ)
              - (((placeCities M hm lm biome rivers s w h p).getD l dummyCity).x : ℚ))
            * ((((placeCities M hm lm biome rivers s w h p).getD k dummyCity).x : ℚ)
              - (((placeCities M hm lm biome rivers s w h p).getD l dummyCity).x : ℚ))
          + ((((placeCities M hm lm biome rivers s w h p).getD k dummyCity).y : ℚ)
              - (((placeCities M hm lm biome rivers s w h p).getD l dummyCity).y : ℚ))
            * ((((placeCities M hm lm biome rivers s w h p).getD k dummyCity).y : ℚ)
              - (((placeCities M hm lm biome rivers s w h p).getD l dummyCity).y : ℚ)) := by
  unfold placeCities
  split
  · have main := foldl_inv (fun (st : PlaceState) =>
        st.placed.length = st.cities.length
        ∧ (∀ k, k < st.cities.length →
            (st.cities.getD k dummyCity).x = st.placed.getD k 0 % w
            ∧ (st.cities.getD k dummyCity).y = st.placed.getD k 0 / w)
        ∧ ∀ k l, k < l → l < st.cities.length →
            s.cities.minSpacing * s.cities.minSpacing
              ≤ (((st.cities.getD k dummyCity).x : ℚ)
                    - ((st.cities.getD l dummyCity).x : ℚ))
                  * (((st.cities.getD k dummyCity).x : ℚ)
                    - ((st.cities.getD l dummyCity).x : ℚ))
                + (((st.cities.getD k dummyCity).y : ℚ)
                    - ((st.cities.getD l dummyCity).y : ℚ))
                  * (((st.cities.getD k dummyCity).y : ℚ)
                    - ((st.cities.getD l dummyCity).y : ℚ)))
      (fun st i => placeIter M lm rivers s w h i st)
      (List.range (jsLoopCount s.cities.count)) ?_
      ⟨[], [], (cityScores M hm lm biome rivers s w h p).1,
        (cityScores M hm lm biome rivers s w h p).2⟩ ?_
    · exact main.2.2
    · intro st i _ hst
      unfold placeIter
      dsimp only
      rcases hbi : (citySample M st.scores st.placed s w h st.prng).1 with _ | bi
      · exact ⟨hst.1, hst.2.1, hst.2.2⟩
      · dsimp only
        have hsp := citySample_spaced M st.scores st.placed s w h st.prng hbi
        refine ⟨?_, ?_, ?_⟩
        · simp only [List.length_append, List.length_singleton, hst.1]
        · intro k hk
          rw [List.length_append, List.length_singleton] at hk
          rcases Nat.lt_or_ge k st.cities.length with hlt | hge
          · rw [List.getD_append _ _ _ _ hlt, List.getD_append _ _ _ _ (hst.1 ▸ hlt)]
            exact hst.2.1 k hlt
          · have hkeq : k = st.cities.length := by omega
            subst hkeq
            rw [List.getD_append_right _ _ _ _ (le_refl _),
              List.getD_append_right _ _ _ _ (le_of_eq hst.1)]
            simp [hst.1]
        · intro k l hkl hl
          rw [List.length_append, List.length_singleton] at hl
          rcases Nat.lt_or_ge l st.cities.length with hllt | hlge
          · rw [List.getD_append _ _ _ _ hllt,
              List.getD_append _ _ _ _ (Nat.lt_trans hkl hllt)]
            exact hst.2.2 k l hkl hllt
          · have hleq : l = st.cities.length := by omega
            subst hleq
            have hklt : k < st.cities.length := hkl
            rw [List.getD_append _ _ _ _ hklt,
              List.getD_append_right _ _ _ _ (le_refl _)]
            simp only [Nat.sub_self, List.getD_cons_zero]
            have hmemk : st.placed.getD k 0 ∈ st.placed := by
              have hkp : k < st.placed.length := by rw [hst.1]; exact hklt
              rw [List.getD_eq_getElem _ _ hkp]
              exact List.getElem_mem hkp
            have hns := hsp (st.placed.getD k 0) hmemk
            have hD : (0 : ℚ) ≤ (((bi % w : ℕ) : ℚ) - ((st.placed.getD k 0 % w : ℕ) : ℚ))
                  * (((bi % w : ℕ) : ℚ) - ((st.placed.getD k 0 % w : ℕ) : ℚ))
                + (((bi / w : ℕ) : ℚ) - ((st.placed.getD k 0 / w : ℕ) : ℚ))
                  * (((bi / w : ℕ) : ℚ) - ((st.placed.getD k 0 / w : ℕ) : ℚ)) :=
              add_nonneg (mul_self_nonneg _) (mul_self_nonneg _)
            have hle := le_of_not_lt hns
            have hsq2 := hsq _ hD
            have hmm := mul_le_mul hle hle hms (le_trans hms hle)
            have hfin := le_trans hmm hsq2.2
            have hcx := (hst.2.1 k hklt).1
            have hcy := (hst.2.1 k hklt).2
            rw [hcx, hcy]
            nlinarith [hfin]
    · refine ⟨rfl, ?_, ?_⟩
      · intro k hk
        simp at hk
      · intro k l _ hl
        simp at hl
  · intro k l _ hl
    simp at hl

/-- C7 (amended): the city list respects the placement-loop structure — at
most `⌈count⌉` cities are placed (`jsLoopCount` is the source loop's iteration
count, equal to `count` for the integral counts of the settings schema), and a
`capital` can only sit at the head of the list.  The original claim (a
non-empty list always contains exactly one capital, at its head) fails: when
every sample of iteration 0 misses a positive-score cell, a later iteration
can still place a city, which then has a non-capital type — see the
counterexample. -/

theorem placeCities_capital (M : MathModel) (hm : Array ℚ) (lm biome rivers : Array ℕ)
    (s : Settings) (w h : ℕ) (p : PRNG) :
    (placeCities M hm lm biome rivers s w h p).length ≤ jsLoopCount s.cities.count ∧
    (∀ j, 0 < j → j < (placeCities M hm lm biome rivers s w h p).length →
      ((placeCities M hm lm biome rivers s w h p).getD j dummyCity).type
        ≠ CityType.capital) := by
  unfold placeCities
  split
  · dsimp only
    have main : ∀ (l : List ℕ) (st : PlaceState),
        (∀ c ∈ st.cities, c.type = CityType.capital → c.id = 0) →
        List.Pairwise (fun a b => a.id < b.id) st.cities →
        (∀ c ∈ st.cities, ∀ i ∈ l, c.id < i) →
        List.Pairwise (· < ·) l →
        ((l.foldl (fun st i => placeIter M lm rivers s w h i st) st).cities.length
            ≤ st.cities.length + l.length)
        ∧ (∀ c ∈ (l.foldl (fun st i => placeIter M lm rivers s w h i st) st).cities,
            c.type = CityType.capital → c.id = 0)
        ∧ List.Pairwise (fun a b => a.id < b.id)
            (l.foldl (fun st i => placeIter M lm rivers s w h i st) st).cities := by
      intro l
      induction l with
      | nil =>
        intro st hA hB _ _
        exact ⟨by simp, hA, hB⟩
      | cons i l ih =>
        intro st hA hB hC hD
        rw [List.foldl_cons]
        have hstep : ((placeIter M lm rivers s w h i st).cities.length
              ≤ st.cities.length + 1)
            ∧ (∀ c ∈ (placeIter M lm rivers s w h i st).cities,
                c.type = CityType.capital → c.id = 0)
            ∧ List.Pairwise (fun a b => a.id < b.id)
                (placeIter M lm rivers s w h i st).cities
            ∧ (∀ c ∈ (placeIter M lm rivers s w h i st).cities, ∀ j ∈ l, c.id < j) := by
          unfold placeIter
          dsimp only
          rcases hbi : (citySample M st.scores st.placed s w h st.prng).1 with _ | bi
          · exact ⟨by simp, hA, hB, fun c hc j hj => hC c hc j (List.mem_cons_of_mem _ hj)⟩
          · dsimp only
            have hid : ∀ c ∈ st.cities, c.id < i :=
              fun c hc => hC c hc i (List.mem_cons_self _ _)
            refine ⟨by simp, ?_, ?_, ?_⟩
            · intro c hc hcap
              rcases List.mem_append.mp hc with hold1 | hnew
              · exact hA c hold1 hcap
              · rw [List.mem_singleton] at hnew
                subst hnew
                by_cases hi : i = 0
                · exact hi
                · exfalso
                  dsimp only at hcap
                  rw [if_neg hi] at hcap
                  split_ifs at hcap
            · rw [List.pairwise_append]
              refine ⟨hB, List.pairwise_singleton _ _, ?_⟩
              intro c hc c' hc'
              rw [List.mem_singleton] at hc'
              subst hc'
              exact hid c hc
            · intro c hc j hj
              rcases List.mem_append.mp hc with hold | hnew
              · exact hC c hold j (List.mem_cons_of_mem _ hj)
              · rw [List.mem_singleton] at hnew
                subst hnew
                exact (List.rel_of_pairwise_cons hD) hj
        obtain ⟨h1, h2, h3, h4⟩ := hstep
        have hrec := ih (placeIter M lm rivers s w h i st) h2 h3 h4
          (List.Pairwise.sublist (List.sublist_cons_self _ _) hD)
        refine ⟨?_, hrec.2.1, hrec.2.2⟩
        have h5 := hrec.1
        simp only [List.length_cons]
        omega
    have hres := main (List.range (jsLoopCount s.cities.count))
      ⟨[], [], (cityScores M hm lm biome rivers s w h p).1,
        (cityScores M hm lm biome rivers s w h p).2⟩
      (by simp) (by simp) (by simp) (List.pairwise_lt_range _)
    refine ⟨by simpa using hres.1, ?_⟩
    intro j hj0 hjlen hcap
    set cs := (List.foldl (fun st i => placeIter M lm rivers s w h i st)
      ⟨[], [], (cityScores M hm lm biome rivers s w h p).1,
        (cityScores M hm lm biome rivers s w h p).2⟩
      (List.range (jsLoopCount s.cities.count))).cities with hcs
    -- ids increase along the list while a capital id is 0, so j = 0
    have hpw := hres.2.2
    rw [List.pairwise_iff_getElem] at hpw
    have hj' : j < cs.length := hjlen
    have h0 : 0 < cs.length := lt_trans hj0 hj'
    have hlt := hpw 0 j h0 hj' hj0
    have hmem : cs.getD j dummyCity ∈ cs := by
      rw [List.getD_eq_getElem _ _ hj']
      exact List.getElem_mem hj'
    have hid0 := hres.2.1 _ hmem hcap
    rw [List.getD_eq_getElem _ _ hj'] at hid0
    omega
  · exact ⟨by simp, by intro j _ hj; simp at hj⟩

/-- Witness for C6: a 1×1 land grid that places two cities. -/

theorem placeCities_spacing_witness :
    SqrtLB M0.sqrt ∧ (0 : ℚ) ≤ witnessCitySettings.cities.minSpacing ∧
    0 < 1 ∧
    1 < (placeCities M0 #[(1 : ℚ)] #[1] #[6] #[0] witnessCitySettings 1 1
      (PRNG.ofNat 1)).length ∧
    witnessCitySettings.cities.minSpacing * witnessCitySettings.cities.minSpacing
      ≤ ((((placeCities M0 #[(1 : ℚ)] #[1] #[6] #[0] witnessCitySettings 1 1
              (PRNG.ofNat 1)).getD 0 dummyCity).x : ℚ)
            - (((placeCities M0 #[(1 : ℚ)] #[1] #[6] #[0] witnessCitySettings 1 1
              (PRNG.ofNat 1)).getD 1 dummyCity).x : ℚ))
          * ((((placeCities M0 #[(1 : ℚ)] #[1] #[6] #[0] witnessCitySettings 1 1
              (PRNG.ofNat 1)).getD 0 dummyCity).x : ℚ)
            - (((placeCities M0 #[(1 : ℚ)] #[1] #[6] #[0] witnessCitySettings 1 1
              (PRNG.ofNat 1)).getD 1 dummyCity).x : ℚ))
        + ((((placeCities M0 #[(1 : ℚ)] #[1] #[6] #[0] witnessCitySettings 1 1
              (PRNG.ofNat 1)).getD 0 dummyCity).y : ℚ)
            - (((placeCities M0 #[(1 : ℚ)] #[1] #[6] #[0] witnessCitySettings 1 1
              (PRNG.ofNat 1)).getD 1 dummyCity).y : ℚ))
          * ((((placeCities M0 #[(1 : ℚ)] #[1] #[6] #[0] witnessCitySettings 1 1
              (PRNG.ofNat 1)).getD 0 dummyCity).y : ℚ)
            - (((placeCities M0 #[(1 : ℚ)] #[1] #[6] #[0] witnessCitySettings 1 1
              (PRNG.ofNat 1)).getD 1 dummyCity).y : ℚ)) :=
  have hsq : SqrtLB M0.sqrt := fun q hq => ⟨le_rfl, by
    show (0 : ℚ) * 0 ≤ q
    simpa using hq⟩
  ⟨hsq, of_decide_eq_true (by with_unfolding_all rfl), by decide,
   of_decide_eq_true (by with_unfolding_all rfl),
   placeCities_spacing M0 #[(1 : ℚ)] #[1] #[6] #[0] witnessCitySettings 1 1
     (PRNG.ofNat 1) hsq (of_decide_eq_true (by with_unfolding_all rfl)) 0 1
     (by decide) (of_decide_eq_true (by with_unfolding_all rfl))⟩

/-- Witness for C7 on the same 1×1 input (two cities; the second is not a
capital, and the count bound holds). -/

theorem placeCities_capital_witness :
    0 < 1 ∧
    1 < (placeCities M0 #[(1 : ℚ)] #[1] #[6] #[0] witnessCitySettings 1 1
      (PRNG.ofNat 1)).length ∧
    ((placeCities M0 #[(1 : ℚ)] #[1] #[6] #[0] witnessCitySettings 1 1
        (PRNG.ofNat 1)).getD 1 dummyCity).type ≠ CityType.capital ∧
    (placeCities M0 #[(1 : ℚ)] #[1] #[6] #[0] witnessCitySettings 1 1
        (PRNG.ofNat 1)).length ≤ jsLoopCount witnessCitySettings.cities.count :=
  ⟨by decide, of_decide_eq_true (by with_unfolding_all rfl),
   (placeCities_capital M0 #[(1 : ℚ)] #[1] #[6] #[0] witnessCitySettings 1 1
     (PRNG.ofNat 1)).2 1 (by decide) (of_decide_eq_true (by with_unfolding_all rfl)),
   (placeCities_capital M0 #[(1 : ℚ)] #[1] #[6] #[0] witnessCitySettings 1 1
     (PRNG.ofNat 1)).1⟩

/-- C7 counterexample: on a 2×2 grid whose only suitable cell is cell 3, the
seed below makes every sample of iteration 0 miss that cell (so no city — and
in particular no capital — is placed in iteration 0), while iteration 1 hits
it.  The returned list is non-empty yet contains no capital at all, and its
head is not a capital: both parts of the original claim fail. -/

theorem placeCities_no_capital_cx :
    (placeCities M0 #[(0 : ℚ), 0, 0, 0] #[0, 0, 0, 1] #[0, 0, 0, 6] #[0, 0, 0, 0]
        witnessCitySettings 2 2 (PRNG.ofNat 23)).length = 1 ∧
    ∀ c ∈ placeCities M0 #[(0 : ℚ), 0, 0, 0] #[0, 0, 0, 1] #[0, 0, 0, 6] #[0, 0, 0, 0]
        witnessCitySettings 2 2 (PRNG.ofNat 23), c.type ≠ CityType.capital :=
  of_decide_eq_true (by with_unfolding_all rfl)

theorem unconn_symm {p q : ℕ × ℕ} (hpq : unconn p q) : unconn q p := by
  rcases hpq with ⟨h1, h2⟩ | ⟨h1, h2⟩
  · exact Or.inl ⟨h1.symm, h2.symm⟩
  · exact Or.inr ⟨h2.symm, h1.symm⟩

theorem find?_map_upd_ne {α : Type} (k k' : ℕ) (v : α) (hk : k' ≠ k) :
    ∀ (m : List (ℕ × α)),
      (m.map (fun e => if e.1 = k then (k, v) else e)).find?
          (fun e => decide (e.1 = k'))
        = m.find? (fun e => decide (e.1 = k')) := by
  intro m
  induction m with
  | nil => rfl
  | cons e m ih =>
    rw [List.map_cons]
    by_cases he : e.1 = k
    · rw [if_pos he]
      have hkk : ¬ (k = k') := fun h => hk h.symm
      rw [List.find?_cons_of_neg, List.find?_cons_of_neg]
      · exact ih
      · simp [he, hkk]
      · simp [hkk]
    · rw [if_neg he]
      by_cases he' : e.1 = k'
      · rw [List.find?_cons_of_pos, List.find?_cons_of_pos] <;> simp [he']
      · rw [List.find?_cons_of_neg, List.find?_cons_of_neg]
        · exact ih
        · simp [he']
        · simp [he']

theorem find?_map_upd_self {α : Type} (k : ℕ) (v : α) :
    ∀ (m : List (ℕ × α)), m.any (fun e => decide (e.1 = k)) = true →
      (m.map (fun e => if e.1 = k then (k, v) else e)).find?
          (fun e => decide (e.1 = k)) = some (k, v) := by
  intro m
  induction m with
  | nil => intro hm; simp at hm
  | cons e m ih =>
    intro hm
    rw [List.map_cons]
    by_cases he : e.1 = k
    · rw [if_pos he, List.find?_cons_of_pos]
      simp
    · rw [if_neg he, List.find?_cons_of_neg]
      · refine ih ?_
        simp only [List.any_cons, Bool.or_eq_true, decide_eq_true_eq] at hm
        rcases hm with hm | hm
        · exact absurd hm he
        · exact hm
      · simp [he]

/-- JavaScript `Map.set` followed by `Map.get`. -/

theorem mapGet_mapSet {α : Type} (m : List (ℕ × α)) (k k' : ℕ) (v : α) :
    mapGet (mapSet m k v) k' = if k' = k then some v else mapGet m k' := by
  unfold mapSet
  split
  · next hany =>
    by_cases hk : k' = k
    · subst hk
      rw [if_pos rfl]
      unfold mapGet
      rw [find?_map_upd_self k' v m hany]
      rfl
    · rw [if_neg hk]
      unfold mapGet
      rw [find?_map_upd_ne k k' v hk m]
  · next hany =>
    by_cases hk : k' = k
    · subst hk
      rw [if_pos rfl]
      unfold mapGet
      rw [List.find?_append]
      have hnone : m.find? (fun e => decide (e.1 = k')) = none := by
        rw [List.find?_eq_none]
        intro x hx
        simp only [Bool.not_eq_true, decide_eq_false_iff_not]
        intro hxk
        rw [Bool.not_eq_true] at hany
        have := List.any_eq_false.mp hany x hx
        simp [hxk] at this
      rw [hnone]
      simp [List.find?]
    · rw [if_neg hk]
      unfold mapGet
      rw [List.find?_append]
      have hkk : ¬ (k = k') := fun h => hk h.symm
      have hnone2 : List.find? (fun e => decide (e.1 = k')) [(k, v)] = none := by
        simp [List.find?, hkk]
      rw [hnone2]
      simp

/-- The unsorted pair enumeration: every entry is an `i < j` pair of city list
positions, and (given pairwise-distinct ids) no two entries name the same
unordered connection. -/

theorem cityPairs_facts (M : MathModel) (cities : List City)
    (hids : ∀ i j, i < cities.length → j < cities.length → i ≠ j →
      (cities.getD i dummyCity).id ≠ (cities.getD j dummyCity).id) :
    (∀ pr ∈ cityPairs M cities, pr.1.id ≠ pr.2.1.id) ∧
    List.Pairwise (fun (u v : City × City × ℚ) =>
      ¬ unconn (u.1.id, u.2.1.id) (v.1.id, v.2.1.id)) (cityPairs M cities) := by
  have hperm := List.mergeSort_perm
    ((List.range cities.length).flatMap (fun i =>
      (List.range (cities.length - (i + 1))).map (fun k =>
        (cities.getD i dummyCity, cities.getD (i + 1 + k) dummyCity,
          M.sqrt (((cities.getD i dummyCity).x
                - ((cities.getD (i + 1 + k) dummyCity).x : ℚ))
              * ((cities.getD i dummyCity).x
                - ((cities.getD (i + 1 + k) dummyCity).x : ℚ))
            + ((cities.getD i dummyCity).y
                - ((cities.getD (i + 1 + k) dummyCity).y : ℚ))
              * ((cities.getD i dummyCity).y
                - ((cities.getD (i + 1 + k) dummyCity).y : ℚ)))))))
    (fun a b => decide (a.2.2 ≤ b.2.2))
  have henum : ∀ n : ℕ,
      (∀ pr ∈ (List.range n).flatMap (fun i =>
          (List.range (cities.length - (i + 1))).map (fun k =>
            (cities.getD i dummyCity, cities.getD (i + 1 + k) dummyCity,
              M.sqrt (((cities.getD i dummyCity).x
                    - ((cities.getD (i + 1 + k) dummyCity).x : ℚ))
                  * ((cities.getD i dummyCity).x
                    - ((cities.getD (i + 1 + k) dummyCity).x : ℚ))
                + ((cities.getD i dummyCity).y
                    - ((cities.getD (i + 1 + k) dummyCity).y : ℚ))
                  * ((cities.getD i dummyCity).y
                    - ((cities.getD (i + 1 + k) dummyCity).y : ℚ)))))),
        ∃ i j, i < j ∧ j < cities.length ∧ i < n
          ∧ pr.1 = cities.getD i dummyCity ∧ pr.2.1 = cities.getD j dummyCity) ∧
      List.Pairwise (fun (u v : City × City × ℚ) =>
        ¬ unconn (u.1.id, u.2.1.id) (v.1.id, v.2.1.id))
        ((List.range n).flatMap (fun i =>
          (List.range (cities.length - (i + 1))).map (fun k =>
            (cities.getD i dummyCity, cities.getD (i + 1 + k) dummyCity,
              M.sqrt (((cities.getD i dummyCity).x
                    - ((cities.getD (i + 1 + k) dummyCity).x : ℚ))
                  * ((cities.getD i dummyCity).x
                    - ((cities.getD (i + 1 + k) dummyCity).x : ℚ))
                + ((cities.getD i dummyCity).y
                    - ((cities.getD (i + 1 + k) dummyCity).y : ℚ))
                  * ((cities.getD i dummyCity).y
                    - ((cities.getD (i + 1 + k) dummyCity).y : ℚ))))))) := by
    intro n
    induction n with
    | zero => exact ⟨by simp, by simp⟩
    | succ n ih =>
      rw [List.range_succ, List.flatMap_append, List.flatMap_cons, List.flatMap_nil,
        List.append_nil]
      constructor
      · intro pr hpr
        rcases List.mem_append.mp hpr with hold | hnew
        · obtain ⟨i, j, h1, h2, h3, h4, h5⟩ := ih.1 pr hold
          exact ⟨i, j, h1, h2, Nat.lt_succ_of_lt h3, h4, h5⟩
        · obtain ⟨k, hk, hpr'⟩ := List.mem_map.mp hnew
          rw [List.mem_range] at hk
          refine ⟨n, n + 1 + k, by omega, by omega, by omega, ?_, ?_⟩
          · rw [← hpr']
          · rw [← hpr']
      · rw [List.pairwise_append]
        refine ⟨ih.2, ?_, ?_⟩
        · rw [List.pairwise_map]
          rw [List.pairwise_iff_getElem]
          intro a b ha hb hab
          rw [List.length_range] at ha hb
          rw [List.getElem_range, List.getElem_range]
          intro hun
          rcases hun with ⟨h1, h2⟩ | ⟨h1, h2⟩
          · dsimp only at h2
            exact hids (n + 1 + a) (n + 1 + b) (by omega) (by omega) (by omega) h2
          · dsimp only at h1
            exact hids n (n + 1 + b) (by omega) (by omega) (by omega) h1
        · intro u hu v hv
          obtain ⟨i, j, h1, h2, h3, h4, h5⟩ := ih.1 u hu
          obtain ⟨k, hk, hv'⟩ := List.mem_map.mp hv
          rw [List.mem_range] at hk
          intro hun
          rcases hun with ⟨hc1, _⟩ | ⟨hc1, _⟩
          · rw [h4, ← hv'] at hc1
            exact hids i n (by omega) (by omega) (by omega) hc1
          · rw [h4, ← hv'] at hc1
            dsimp only at hc1
            exact hids i (n + 1 + k) (by omega) (by omega) (by omega) hc1
  have hsym : ∀ {u v : City × City × ℚ},
      (fun (u v : City × City × ℚ) =>
        ¬ unconn (u.1.id, u.2.1.id) (v.1.id, v.2.1.id)) u v →
      (fun (u v : City × City × ℚ) =>
        ¬ unconn (u.1.id, u.2.1.id) (v.1.id, v.2.1.id)) v u :=
    fun h hun => h (unconn_symm hun)
  constructor
  · intro pr hpr
    have hmem : pr ∈ (List.range cities.length).flatMap _ :=
      hperm.mem_iff.mp (by exact hpr)
    obtain ⟨i, j, h1, h2, _, h4, h5⟩ := (henum cities.length).1 pr hmem
    rw [h4, h5]
    exact hids i j (by omega) h2 (by omega)
  · exact ((List.Perm.pairwise_iff hsym) hperm).mpr (henum cities.length).2

theorem degCount_append_single (roads : List Road) (a b : ℕ)
    (p : List (ℕ × ℕ)) (cid : ℕ) :
    degCount (roads ++ [⟨a, b, p⟩]) cid
      = degCount roads cid + (if a = cid ∨ b = cid then 1 else 0) := by
  unfold degCount
  rw [List.countP_append]
  congr 1
  by_cases ha : a = cid <;> by_cases hb : b = cid <;>
    simp [List.countP_cons, ha, hb]

/-- The invariant of the pair-processing fold of `generateRoads`: starting from
a state whose road list is self-loop-free, pairwise-distinct as unordered id
pairs, disjoint from the remaining pairs, degree-synchronised with the
connection map, and degree-bounded, the fold preserves all of it. -/

theorem roadsFold_inv (M : MathModel) (hm : Array ℚ) (lm forest : Array ℕ)
    (s : Settings) (w h : ℕ) (n : ℕ)
    (hn : s.roads.maxConnectionsPerCity = (n : ℚ)) :
    ∀ (l : List (City × City × ℚ)) (st : List Road × List (ℕ × ℕ)),
      (∀ pr ∈ l, pr.1.id ≠ pr.2.1.id) →
      List.Pairwise (fun (u v : City × City × ℚ) =>
        ¬ unconn (u.1.id, u.2.1.id) (v.1.id, v.2.1.id)) l →
      (∀ r ∈ st.1, r.fromCityId ≠ r.toCityId) →
      List.Pairwise (fun r r' =>
        ¬ unconn (r.fromCityId, r.toCityId) (r'.fromCityId, r'.toCityId)) st.1 →
      (∀ r ∈ st.1, ∀ pr ∈ l,
        ¬ unconn (r.fromCityId, r.toCityId) (pr.1.id, pr.2.1.id)) →
      (∀ cid, (mapGet st.2 cid).getD 0 = degCount st.1 cid) →
      (∀ cid, degCount st.1 cid ≤ n) →
      (∀ r ∈ (l.foldl (roadStep M hm lm forest s w h) st).1,
          r.fromCityId ≠ r.toCityId) ∧
      List.Pairwise (fun r r' =>
        ¬ unconn (r.fromCityId, r.toCityId) (r'.fromCityId, r'.toCityId))
        (l.foldl (roadStep M hm lm forest s w h) st).1 ∧
      (∀ cid, degCount (l.foldl (roadStep M hm lm forest s w h) st).1 cid ≤ n) := by
  intro l
  induction l with
  | nil =>
    intro st _ _ h1 h2 _ h4 h5
    exact ⟨h1, h2, h5⟩
  | cons pr l ih =>
    intro st hl hpw h1 h2 h3 h4 h5
    rw [List.foldl_cons]
    have hfr : pr.1.id ≠ pr.2.1.id := hl pr (List.mem_cons_self _ _)
    have hl' : ∀ pr' ∈ l, pr'.1.id ≠ pr'.2.1.id :=
      fun pr' hp => hl pr' (List.mem_cons_of_mem _ hp)
    have hpw' := hpw.of_cons
    have hcross : ∀ pr' ∈ l,
        ¬ unconn (pr.1.id, pr.2.1.id) (pr'.1.id, pr'.2.1.id) :=
      fun pr' hp => List.rel_of_pairwise_cons hpw hp
    unfold roadStep
    dsimp only
    split_ifs with hguard
    · exact ih st hl' hpw' h1 h2
        (fun r hr pr' hp => h3 r hr pr' (List.mem_cons_of_mem _ hp)) h4 h5
    · push_neg at hguard
      rw [hn] at hguard
      obtain ⟨hfc, htc⟩ := hguard
      have hfcn : (mapGet st.2 pr.1.id).getD 0 < n := by exact_mod_cast hfc
      have htcn : (mapGet st.2 pr.2.1.id).getD 0 < n := by exact_mod_cast htc
      rcases hpath : findPath M pr.1.x pr.1.y pr.2.1.x pr.2.1.y hm lm forest s w h
        with _ | path
      · exact ih st hl' hpw' h1 h2
          (fun r hr pr' hp => h3 r hr pr' (List.mem_cons_of_mem _ hp)) h4 h5
      · refine ih _ hl' hpw' ?_ ?_ ?_ ?_ ?_
        · intro r hr
          rcases List.mem_append.mp hr with hr | hr
          · exact h1 r hr
          · rw [List.mem_singleton] at hr
            subst hr
            exact hfr
        · rw [List.pairwise_append]
          refine ⟨h2, List.pairwise_singleton _ _, ?_⟩
          intro r hr r' hr'
          rw [List.mem_singleton] at hr'
          subst hr'
          exact h3 r hr pr (List.mem_cons_self _ _)
        · intro r hr pr' hp
          rcases List.mem_append.mp hr with hr | hr
          · exact h3 r hr pr' (List.mem_cons_of_mem _ hp)
          · rw [List.mem_singleton] at hr
            subst hr
            exact hcross pr' hp
        · intro cid
          rw [degCount_append_single, mapGet_mapSet]
          by_cases hB : cid = pr.2.1.id
          · subst hB
            rw [if_pos rfl, if_pos (Or.inr rfl)]
            simp only [Option.getD_some]
            rw [h4]
          · rw [if_neg hB, mapGet_mapSet]
            by_cases hA : cid = pr.1.id
            · subst hA
              rw [if_pos rfl, if_pos (Or.inl rfl)]
              simp only [Option.getD_some]
              rw [h4]
            · have hne : ¬ (pr.1.id = cid ∨ pr.2.1.id = cid) :=
                fun hc => hc.elim (fun hh => hA hh.symm) (fun hh => hB hh.symm)
              rw [if_neg hA, if_neg hne, Nat.add_zero]
              exact h4 cid
        · intro cid
          rw [degCount_append_single]
          by_cases hA : cid = pr.1.id
          · subst hA
            rw [if_pos (Or.inl rfl)]
            have hsync := h4 pr.1.id
            omega
          · by_cases hB : cid = pr.2.1.id
            · subst hB
              rw [if_pos (Or.inr rfl)]
              have hsync := h4 pr.2.1.id
              omega
            · have hne : ¬ (pr.1.id = cid ∨ pr.2.1.id = cid) :=
                fun hc => hc.elim (fun hh => hA hh.symm) (fun hh => hB hh.symm)
              rw [if_neg hne, Nat.add_zero]
              exact h5 cid

/-- C8: in the road list returned by `generateRoads` — for a city list with
pairwise-distinct ids and a whole-number `maxConnectionsPerCity` — no road has
`fromCityId = toCityId`, no unordered pair of city ids appears twice, and every
city id is an endpoint of at most `maxConnectionsPerCity` roads. -/

theorem generateRoads_invariants (M : MathModel) (cities : List City)
    (hm : Array ℚ) (lm forest : Array ℕ) (s : Settings) (w h : ℕ) (n : ℕ)
    (hids : ∀ i j, i < cities.length → j < cities.length → i ≠ j →
      (cities.getD i dummyCity).id ≠ (cities.getD j dummyCity).id)
    (hn : s.roads.maxConnectionsPerCity = (n : ℚ)) :
    (∀ r ∈ generateRoads M cities hm lm forest s w h,
        r.fromCityId ≠ r.toCityId) ∧
    List.Pairwise (fun r r' =>
      ¬ unconn (r.fromCityId, r.toCityId) (r'.fromCityId, r'.toCityId))
      (generateRoads M cities hm lm forest s w h) ∧
    (∀ cid, (degCount (generateRoads M cities hm lm forest s w h) cid : ℚ)
        ≤ s.roads.maxConnectionsPerCity) := by
  unfold generateRoads
  split
  · refine ⟨by simp, List.Pairwise.nil, ?_⟩
    intro cid
    rw [hn]
    simp [degCount]
  · have hfacts := cityPairs_facts M cities hids
    have main := roadsFold_inv M hm lm forest s w h n hn (cityPairs M cities)
      ([], []) hfacts.1 hfacts.2 (by intro r hr; simp at hr) List.Pairwise.nil
      (by intro r hr; simp at hr) (fun cid => rfl) (fun cid => Nat.zero_le n)
    refine ⟨main.1, main.2.1, ?_⟩
    intro cid
    rw [hn]
    exact_mod_cast main.2.2 cid

theorem generateRoads_invariants_witness :
    (∀ r ∈ generateRoads M0 roadWitnessCities #[] #[] #[] DEFAULT_SETTINGS 2 1,
        r.fromCityId ≠ r.toCityId) ∧
    List.Pairwise (fun r r' =>
      ¬ unconn (r.fromCityId, r.toCityId) (r'.fromCityId, r'.toCityId))
      (generateRoads M0 roadWitnessCities #[] #[] #[] DEFAULT_SETTINGS 2 1) ∧
    (∀ cid, (degCount
        (generateRoads M0 roadWitnessCities #[] #[] #[] DEFAULT_SETTINGS 2 1)
        cid : ℚ) ≤ DEFAULT_SETTINGS.roads.maxConnectionsPerCity) :=
  generateRoads_invariants M0 roadWitnessCities #[] #[] #[] DEFAULT_SETTINGS 2 1 3
    (by
      intro i j hi hj hij
      simp only [roadWitnessCities, List.length_cons, List.length_nil] at hi hj
      interval_cases i <;> interval_cases j <;> simp_all [roadWitnessCities])
    (of_decide_eq_true (by with_unfolding_all rfl))

/-- C4: the road-path endpoint property fails.  On a 3×1 all-land grid, the
A* search from city cell (0,0) to city cell (2,0) succeeds, but the stored
path is `[(1,0), (2,0)]`: its first point is not the from-city's cell.  The
reconstruction loop of `findPath` traces parent pointers through a copy of the
*open set only*, so every already-expanded node — in particular the start
node, expanded on the very first iteration — is missing from the copy and the
trace stops one hop after the end cell. -/

theorem findPath_drops_start :
    findPath M0 0 0 2 0 #[0, 0, 0] #[1, 1, 1] #[0, 0, 0] DEFAULT_SETTINGS 3 1
        = some [(1, 0), (2, 0)] ∧
    ((findPath M0 0 0 2 0 #[0, 0, 0] #[1, 1, 1] #[0, 0, 0]
        DEFAULT_SETTINGS 3 1).getD []).headI ≠ (0, 0) :=
  of_decide_eq_true (by with_unfolding_all rfl)

end Terrain
